import Mathlib

/-!
# oformatstream: a verification development

A shallow embedding of `oformatstream.hpp` / `oformatstream.cpp`:

* `format_flags` : the `std::ios_base::fmtflags` wrapper with its merge operators;
* `format_specification`, `basic_formatterfield` : one field of a format string;
* `parse_format_specification`, `parse_field`, `parse_format` : the format-string parser;
* `basic_formatter` : the parsed field vector with its cyclic cursor;
* `basic_oformatstream` : the stream that applies the fields to an output sink.

Conventions of the embedding.

* An iterator pair `(it, end)` over the format string is the list of characters from `it`
  to `end`; `it == end` is the empty list, `*it` is the head and `++it` is the tail.
* `fmtflags` values are bit patterns of a 32-bit `int`, held in a `Nat`.
* `std::streamsize` values are mathematical integers (signed overflow is undefined and is
  not modelled).
* The three `while` loops of the parser run on a fuel counter and return `none` when the
  fuel is used up; the fuel given is the number of remaining characters plus one.
* The sink `std::basic_ostream` is outside the repository: `ostream` holds its format state
  and the characters written, and the inserters take the sink's own writer of a value as an
  argument where no writer is modelled.
* A `double` is a rational number, an infinity or a NaN, with exact comparisons; `log10`,
  `pow` and the rounding arithmetic of `operator<<(double)` are arguments (`double_math`).
-/

namespace OFormatStream

/-! ## `std::ios_base::fmtflags` -/

/-- The type `std::ios_base::fmtflags`: a bit pattern. -/
abbrev fmtflags := Nat

/-- Bit `std::ios_base::uppercase`. -/
def uppercase : fmtflags := 0x0004
/-- Bit `std::ios_base::showbase`. -/
def showbase : fmtflags := 0x0008
/-- Bit `std::ios_base::showpoint`. -/
def showpoint : fmtflags := 0x0010
/-- Bit `std::ios_base::showpos`. -/
def showpos : fmtflags := 0x0020
/-- Bit `std::ios_base::left`. -/
def left : fmtflags := 0x0040
/-- Bit `std::ios_base::right`. -/
def right : fmtflags := 0x0080
/-- Bit `std::ios_base::internal`. -/
def internal : fmtflags := 0x0100
/-- Bit `std::ios_base::dec`. -/
def dec : fmtflags := 0x0200
/-- Bit `std::ios_base::oct`. -/
def oct : fmtflags := 0x0400
/-- Bit `std::ios_base::hex`. -/
def hex : fmtflags := 0x0800
/-- Bit `std::ios_base::scientific`. -/
def scientific : fmtflags := 0x1000
/-- Bit `std::ios_base::fixed`. -/
def fixed : fmtflags := 0x2000
/-- Mask `std::ios_base::adjustfield` = `left | right | internal`. -/
def adjustfield : fmtflags := 0x01c0
/-- Mask `std::ios_base::basefield` = `dec | oct | hex`. -/
def basefield : fmtflags := 0x0e00
/-- Mask `std::ios_base::floatfield` = `scientific | fixed`. -/
def floatfield : fmtflags := 0x3000
/-- The empty flag set `std::ios_base::_Fmtzero`. -/
def Fmtzero : fmtflags := 0

/-- The C++ operator `~` on the bit pattern of a 32-bit `int`. -/
def bnot (x : fmtflags) : fmtflags := 0xFFFFFFFF ^^^ (x % 0x100000000)

/-! ## `struct format_flags` -/

/-- The struct `format_flags`: its only member is `_flags`. -/
abbrev format_flags := Nat

namespace format_flags

/-- Source `toggle(mask, f)`: `_flags &= ~(mask ^ f); _flags |= f;` -/
def toggle (flags : format_flags) (mask f : fmtflags) : format_flags :=
  (flags &&& bnot (mask ^^^ f)) ||| f

/-- Source `is(what, f)`: `(what & f) != _Fmtzero` -/
def is (what f : fmtflags) : Bool := (what &&& f) != Fmtzero

/-- Source `aligment()`: default to right alignment when no alignment bit is set. -/
def aligment (flags : format_flags) : format_flags :=
  if !is adjustfield flags then toggle flags adjustfield right else flags

/-- The base / float-style block of `operator|=` (source lines 197-226). -/
def or_stage1 (flags0 : format_flags) (flags : fmtflags) : format_flags :=
  if is basefield flags || is floatfield flags then
    let a :=
      if is basefield flags then
        let b :=
          if is dec flags then toggle flags0 basefield dec
          else if is oct flags then toggle flags0 basefield oct
          else if is hex flags then toggle flags0 basefield hex
          else flags0
        b &&& bnot showpoint
      else flags0
    if is floatfield flags then
      if is scientific flags then toggle a floatfield scientific
      else if is fixed flags then toggle a floatfield fixed
      else a
    else a
  else flags0

/-- The alignment block of `operator|=` (source lines 227-241). -/
def or_stage2 (flags0 : format_flags) (flags : fmtflags) : format_flags :=
  if is adjustfield flags then
    if is right flags then toggle flags0 adjustfield right
    else if is left flags then toggle flags0 adjustfield left
    else if is internal flags then toggle flags0 adjustfield internal
    else flags0
  else flags0

/-- Source `operator|=`: the two blocks above, then the remaining bits, then `aligment()`. -/
def or_assign (flags0 : format_flags) (flags : fmtflags) : format_flags :=
  let s1 := or_stage1 flags0 flags
  let s2 := or_stage2 s1 flags
  let s3 := s2 ||| (flags &&& bnot (basefield ||| floatfield ||| adjustfield))
  aligment s3

/-- Source `operator&=`: `_flags &= flags; aligment();` -/
def and_assign (flags0 : format_flags) (flags : fmtflags) : format_flags :=
  aligment (flags0 &&& flags)

/-- Source `operator=(const fmtflags&)`: `_flags = _Fmtzero; _flags |= flags;`, where `|=` is the
built-in operator of the integer member `_flags`. -/
def assign (_flags0 : format_flags) (flags : fmtflags) : format_flags :=
  Fmtzero ||| flags

/-- The constructor `format_flags(const fmtflags&)`: `_flags(_Fmtzero)` then `*this = flags`. -/
def ofFlags (flags : fmtflags) : format_flags := assign Fmtzero flags

/-- The default constructor `format_flags()`. -/
def empty : format_flags := Fmtzero

/-- At most one of the listed bits is set in `f`. -/
def at_most_one (f : fmtflags) (bits : List fmtflags) : Bool :=
  decide ((bits.filter fun b => is b f).length ≤ 1)

/-- The exclusivity invariant of the data model: at most one base bit, at most one
float-style bit and at most one alignment bit. -/
def exclusive (f : format_flags) : Bool :=
  at_most_one f [dec, oct, hex] && at_most_one f [fixed, scientific] &&
    at_most_one f [left, right, internal]

end format_flags

open format_flags

/-! ## `struct format_specification` and `basic_formatterfield` -/

/-- The struct `format_specification`. -/
structure format_specification where
  flags : format_flags
  width : Int
  precision : Int
deriving DecidableEq

/-- The constructor `format_specification(w, p, f)`. -/
def format_specification.make (w p : Int) (f : fmtflags) : format_specification :=
  { flags := ofFlags f, width := w, precision := p }

/-- The default constructor: `width(1), precision(6), flags(_Fmtzero)`. -/
def format_specification.default : format_specification :=
  format_specification.make 1 6 Fmtzero

/-- The blank character `format_characters::blank()`. -/
def blank : Char := ' '

/-- The struct `basic_formatterfield`: a `format_specification` with text and fill. -/
structure basic_formatterfield extends format_specification where
  text : List Char
  fill : Char
deriving DecidableEq

/-- The default constructor `basic_formatterfield()`. -/
def basic_formatterfield.default : basic_formatterfield :=
  { toformat_specification := format_specification.default, text := [], fill := blank }

/-- The constructor `basic_formatterfield(const format_specification&)`. -/
def basic_formatterfield.ofSpec (fs : format_specification) : basic_formatterfield :=
  { toformat_specification := fs, text := [], fill := blank }

/-- Source `clear()`: `text.erase(); format_specification::reset();` -/
def basic_formatterfield.clear (ff : basic_formatterfield) : basic_formatterfield :=
  { ff with toformat_specification := format_specification.default, text := [] }

/-- The class `FormatFieldVector`. -/
abbrev FormatFieldVector := List basic_formatterfield

/-! ## Characters -/

/-- Source `format_characters::isFormatType` -/
def isFormatType (ch : Char) : Bool :=
  ch == 'c' || ch == 'd' || ch == 'i' || ch == 'o' || ch == 'u' || ch == 'x' || ch == 'X' ||
  ch == 'e' || ch == 'E' || ch == 'f' || ch == 'g' || ch == 'G' || ch == 'p' || ch == 's' ||
  ch == 'l' || ch == 'h' || ch == 'L'

/-- The type letters of the grammar, `c d i o u x X e E f g G p s`: `isFormatType` without
the length markers `h`, `l`, `L`. -/
def isTypeLetter (t : Char) : Bool :=
  t == 'c' || t == 'd' || t == 'i' || t == 'o' || t == 'u' || t == 'x' || t == 'X' ||
  t == 'e' || t == 'E' || t == 'f' || t == 'g' || t == 'G' || t == 'p' || t == 's'

/-- Source `std::isdigit` -/
def isdigit (ch : Char) : Bool := '0' ≤ ch && ch ≤ '9'

/-- The value `*it - fc.zero()` of a character. -/
def digit_value (ch : Char) : Int := (ch.toNat : Int) - ('0'.toNat : Int)

/-- Source `format_flag_from_char` -/
def format_flag_from_char (ch : Char) : fmtflags :=
  let flags : format_flags := format_flags.empty
  let flags :=
    if ch == 'E' || ch == 'G' || ch == 'p' || ch == 'X' then or_assign flags uppercase
    else flags
  if ch == blank then or_assign flags right
  else if ch == '#' then or_assign flags showbase
  else if ch == '+' then or_assign flags showpos
  else if ch == '-' then or_assign flags left
  else if ch == 'c' then or_assign flags right
  else if ch == 's' then or_assign flags right
  else if ch == 'd' || ch == 'i' || ch == 'u' then or_assign flags dec
  else if ch == 'o' then or_assign flags oct
  else if ch == 'x' || ch == 'p' || ch == 'X' then or_assign flags hex
  else if ch == 'e' || ch == 'E' then or_assign flags (dec ||| scientific)
  else if ch == 'f' then or_assign flags (dec ||| fixed)
  else if ch == 'g' || ch == 'G' then and_assign (or_assign flags dec) (bnot floatfield)
  else flags

/-! ## `parse_format_specification` -/

/-- Source `*it`; the parser never dereferences `end`. -/
def deref (it : List Char) : Char := it.headD (Char.ofNat 0)

/-- The local `enum { inFlags, inWidth, inPrecision, inType }`. -/
inductive spec_status where
  | inFlags
  | inWidth
  | inPrecision
  | inType
deriving DecidableEq

/-- The variables of `parse_format_specification` that its loop reads and writes. -/
structure spec_state where
  it : List Char
  ok : Bool
  done : Bool
  widthset : Bool
  precset : Bool
  fs : format_specification
  fillchar : Char
  status : spec_status
deriving DecidableEq

/-- The code under `case inType:` up to its `break`. -/
def case_inType (s : spec_state) : spec_state :=
  if blank == deref s.it then { s with done := true }
  else
    let ftemp := format_flag_from_char (deref s.it)
    if Fmtzero != ftemp then
      { s with fs := { s.fs with flags := or_assign s.fs.flags ftemp } }
    else if !isFormatType (deref s.it) then { s with done := true }
    else s

/-- The code under `case inPrecision:`, falling through to `case inType:`. -/
def case_inPrecision (s : spec_state) : spec_state :=
  if s.status = spec_status.inPrecision then
    if isdigit (deref s.it) then
      { s with
        fs := { s.fs with precision := s.fs.precision * 10 + digit_value (deref s.it) }
        precset := true }
    else if isFormatType (deref s.it) then
      case_inType { s with status := spec_status.inType }
    else
      case_inType { s with ok := false }
  else case_inType s

/-- The code under `case inWidth:`, falling through to `case inPrecision:`. -/
def case_inWidth (s : spec_state) : spec_state :=
  if s.status = spec_status.inWidth then
    if isdigit (deref s.it) then
      { s with
        fs := { s.fs with width := s.fs.width * 10 + digit_value (deref s.it) }
        widthset := true }
    else if '.' == deref s.it then
      let s1 : spec_state :=
        { s with
          status := spec_status.inPrecision
          fs := { s.fs with flags := or_assign s.fs.flags showpoint }
          it := s.it.tail }
      if s1.it.isEmpty then { s1 with ok := false, done := true }
      else case_inPrecision s1
    else if isFormatType (deref s.it) then
      case_inPrecision { s with status := spec_status.inType }
    else
      case_inPrecision { s with ok := false }
  else case_inPrecision s

/-- The code under `case inFlags:`, falling through to `case inWidth:`. -/
def case_inFlags (s : spec_state) : spec_state :=
  if '0' == deref s.it then { s with fillchar := deref s.it }
  else if isdigit (deref s.it) then case_inWidth { s with status := spec_status.inWidth }
  else if isFormatType (deref s.it) then case_inWidth { s with status := spec_status.inType }
  else if '#' == deref s.it || '+' == deref s.it || '-' == deref s.it then
    { s with fs := { s.fs with flags := or_assign s.fs.flags (format_flag_from_char (deref s.it)) } }
  else if blank == deref s.it then { s with fillchar := deref s.it }
  else { s with status := spec_status.inWidth }

/-- The `switch (status)` statement. -/
def spec_switch (s : spec_state) : spec_state :=
  match s.status with
  | spec_status.inFlags => case_inFlags s
  | spec_status.inWidth => case_inWidth s
  | spec_status.inPrecision => case_inPrecision s
  | spec_status.inType => case_inType s

/-- The last statement of the loop body: `if (!done && it != end) ++it;` -/
def spec_advance (s : spec_state) : spec_state :=
  if !s.done && !s.it.isEmpty then { s with it := s.it.tail } else s

/-- The loop condition `it != end && !done && ok`. -/
def spec_cond (s : spec_state) : Bool := !s.it.isEmpty && !s.done && s.ok

/-- The loop `while (it != end && !done && ok) { switch ...; if (!done && it != end) ++it; }` -/
def spec_loop : Nat → spec_state → Option spec_state
  | 0, _ => none
  | fuel + 1, s =>
    if spec_cond s then spec_loop fuel (spec_advance (spec_switch s))
    else some s

/-- What `parse_format_specification` returns and leaves in its reference parameters. -/
structure spec_result where
  ok : Bool
  it : List Char
  outfs : format_specification
  widthset : Bool
  precset : Bool
  fillchar : Char
deriving DecidableEq

/-- The statements after the loop: `if (ok) { ...defaults...; outfs = fs; } return ok;` -/
def spec_finish (outfs : format_specification) (s : spec_state) : spec_result :=
  if s.ok then
    let fs := if s.fs.width = 0 then { s.fs with width := 1 } else s.fs
    let fs :=
      if fs.precision = 0 ∧ ((basefield ||| floatfield) &&& fs.flags) ≠ 0 then
        { fs with precision := 6 }
      else fs
    { ok := s.ok, it := s.it, outfs := fs, widthset := s.widthset, precset := s.precset,
      fillchar := s.fillchar }
  else
    { ok := s.ok, it := s.it, outfs := outfs, widthset := s.widthset, precset := s.precset,
      fillchar := s.fillchar }

/-- The state of `parse_format_specification` on entry to its loop. -/
def spec_init (it : List Char) (fillchar : Char) : spec_state :=
  { it := it, ok := true, done := false, widthset := false, precset := false,
    fs := format_specification.make 0 0 Fmtzero, fillchar := fillchar,
    status := spec_status.inFlags }

/-- The loop started with one unit of fuel more than there are characters left. -/
def spec_run (s : spec_state) : Option spec_state := spec_loop (s.it.length + 1) s

/-- Source `parse_format_specification(it, end, outfs, widthset, precset, fillchar)` -/
def parse_format_specification (it : List Char) (outfs : format_specification)
    (fillchar : Char) : Option spec_result :=
  (spec_run (spec_init it fillchar)).map (spec_finish outfs)

/-! ## `parse_field` -/

/-- The local `enum { inText, inField }`. -/
inductive field_status where
  | inText
  | inField
deriving DecidableEq

/-- The variables of `parse_field` that its loop reads and writes. -/
structure field_state where
  it : List Char
  ok : Bool
  done : Bool
  widthset : Bool
  precset : Bool
  outff : basic_formatterfield
  status : field_status
deriving DecidableEq

/-- The `switch (status)` statement of `parse_field`. -/
def field_switch (s : field_state) : Option field_state :=
  match s.status with
  | field_status.inText =>
    if '%' == deref s.it then some { s with status := field_status.inField }
    else some { s with outff := { s.outff with text := s.outff.text ++ [deref s.it] } }
  | field_status.inField =>
    if '%' == deref s.it then
      some { s with
        outff := { s.outff with text := s.outff.text ++ [deref s.it] }
        status := field_status.inText }
    else
      (parse_format_specification s.it s.outff.toformat_specification s.outff.fill).map
        fun r =>
          { s with
            it := r.it
            ok := r.ok
            done := true
            widthset := r.widthset
            precset := r.precset
            outff := { s.outff with toformat_specification := r.outfs, fill := r.fillchar } }

/-- The last statement of the loop body: `if (!done && it != end) ++it;` -/
def field_advance (s : field_state) : field_state :=
  if !s.done && !s.it.isEmpty then { s with it := s.it.tail } else s

/-- The loop condition `it != end && !done && ok` of `parse_field`. -/
def field_cond (s : field_state) : Bool := !s.it.isEmpty && !s.done && s.ok

/-- The loop `while (it != end && !done && ok)` of `parse_field`. -/
def field_loop : Nat → field_state → Option field_state
  | 0, _ => none
  | fuel + 1, s =>
    if field_cond s then
      match field_switch s with
      | none => none
      | some s1 => field_loop fuel (field_advance s1)
    else some s

/-- What `parse_field` returns and leaves in its reference parameters. -/
structure field_result where
  ok : Bool
  it : List Char
  outff : basic_formatterfield
deriving DecidableEq

/-- The statements of `parse_field` after its loop. -/
def field_finish (default_fs : format_specification) (s : field_state) : field_result :=
  let outff := if !s.widthset then { s.outff with width := default_fs.width } else s.outff
  let outff := if !s.precset then { outff with precision := default_fs.precision } else outff
  { ok := s.ok, it := s.it, outff := outff }

/-- The state of `parse_field` on entry to its loop, after `outff.clear()`. -/
def field_init (it : List Char) (outff : basic_formatterfield) : field_state :=
  { it := it, ok := true, done := false, widthset := false, precset := false,
    outff := outff.clear, status := field_status.inText }

/-- The loop started with one unit of fuel more than there are characters left. -/
def field_run (s : field_state) : Option field_state := field_loop (s.it.length + 1) s

/-- Source `parse_field(it, end, outff, default_fs)` -/
def parse_field (it : List Char) (outff : basic_formatterfield)
    (default_fs : format_specification) : Option field_result :=
  (field_run (field_init it outff)).map (field_finish default_fs)

/-! ## `parse_format` -/

/-- The loop of `parse_format`: `while (it != end && ok) { ff; ok = parse_field(...);
if (ok) ffv.push_back(ff); }`, returning `ok` and the vector. -/
def format_loop (default_fs : format_specification) :
    Nat → List Char → Bool → FormatFieldVector → Option (Bool × FormatFieldVector)
  | 0, _, _, _ => none
  | fuel + 1, it, ok, ffv =>
    if !it.isEmpty && ok then
      match parse_field it basic_formatterfield.default default_fs with
      | none => none
      | some r =>
        format_loop default_fs fuel r.it r.ok (if r.ok then ffv ++ [r.outff] else ffv)
    else some (ok, ffv)

/-- The loop started with one unit of fuel more than there are characters left. -/
def format_run (default_fs : format_specification) (it : List Char) (ok : Bool)
    (ffv : FormatFieldVector) : Option (Bool × FormatFieldVector) :=
  format_loop default_fs (it.length + 1) it ok ffv

/-- Source `parse_format(fs, ffv, default_fs)`: the returned `ok` and the final contents of `ffv`. -/
def parse_format (fs : List Char) (ffv : FormatFieldVector)
    (default_fs : format_specification) : Option (Bool × FormatFieldVector) :=
  format_run default_fs fs true ffv

/-- The value that a run of decimal digit characters adds to an accumulator `a`:
`a = a * 10 + digit` for each character in turn. -/
def acc_digits (a : Int) (ds : List Char) : Int :=
  ds.foldl (fun a c => a * 10 + digit_value c) a

/-- The flags that a run of the flag characters `0`, `+`, `-`, `#` and blank leaves in a
field: `0` and blank contribute none, each other character is merged through the
type-derivation table. -/
def flag_run_flags (fl : format_flags) (cs : List Char) : format_flags :=
  cs.foldl (fun f c => if c = '0' ∨ c = blank then f
    else or_assign f (format_flag_from_char c)) fl

/-- The fill character that a run of flag characters leaves in a field: every `0` and every
blank of the run is assigned to `fillchar` in turn, so the last of them stays. -/
def flag_run_fill (fc : Char) (cs : List Char) : Char :=
  cs.foldl (fun f c => if c = '0' ∨ c = blank then c else f) fc

/-- The characters at which `case inType:` sets `done`: a blank, or a character without
flags in the type-derivation table that is not a format type. -/
def isFieldEnd (c : Char) : Bool :=
  c == blank || (format_flag_from_char c == Fmtzero && !isFormatType c)

/-- The characters that may stand between `%` and the length marker or type letter: the
flag characters, the digits and `.`. -/
def isSpecChar (c : Char) : Bool :=
  c == '0' || c == '+' || c == '-' || c == '#' || c == blank || c == '.' || isdigit c

/-- The length markers `h`, `l`, `L`. -/
def isLengthMarker (c : Char) : Bool := c == 'h' || c == 'l' || c == 'L'

/-- The relation `completed_fields D it fs it1`: starting at `it`, successive calls of
`parse_field` accept the fields `fs`, in this order, and leave the iterator at `it1`. -/
inductive completed_fields (D : format_specification) :
    List Char → List basic_formatterfield → List Char → Prop
  | done (it : List Char) : completed_fields D it [] it
  | step (it : List Char) (r : field_result) (fs : List basic_formatterfield)
      (it1 : List Char) (hne : it ≠ [])
      (hr : parse_field it basic_formatterfield.default D = some r) (hok : r.ok = true)
      (hrest : completed_fields D r.it fs it1) : completed_fields D it (r.outff :: fs) it1

/-! ## `basic_formatter` -/

/-- The class `basic_formatter`. The iterator `_curff` is an index into `_ffv`;
`_ffv.begin()` is `0` and `_ffv.end()` is the length. -/
structure basic_formatter where
  ok : Bool
  ffv : FormatFieldVector
  curff : Nat
  default_format : basic_formatterfield
deriving DecidableEq

namespace basic_formatter

/-- The constructor `basic_formatter()`. -/
def default : basic_formatter :=
  { ok := true, ffv := [], curff := 0, default_format := basic_formatterfield.default }

/-- The constructor `basic_formatter(const format_specification fs)`. -/
def ofSpec (fs : format_specification) : basic_formatter :=
  { ok := true, ffv := [], curff := 0, default_format := basic_formatterfield.ofSpec fs }

/-- The constructor `basic_formatter(std::basic_string fs)`. -/
def ofString (fs : List Char) : Option basic_formatter :=
  (parse_format fs [] basic_formatterfield.default.toformat_specification).map fun r =>
    { ok := r.1, ffv := r.2, curff := 0, default_format := basic_formatterfield.default }

/-- The constructor `basic_formatter(std::basic_string s, const format_specification& fs)`. -/
def ofStringSpec (s : List Char) (fs : format_specification) : Option basic_formatter :=
  (parse_format s [] (basic_formatterfield.ofSpec fs).toformat_specification).map fun r =>
    { ok := r.1, ffv := r.2, curff := 0, default_format := basic_formatterfield.ofSpec fs }

/-- Source `operator=(const basic_formatter& f)` for `this != &f`: copies `_ok` and `_ffv`, and
restarts `_curff`; `_default_format` is not assigned. -/
def assign (self f : basic_formatter) : basic_formatter :=
  { self with ok := f.ok, ffv := f.ffv, curff := 0 }

/-- The copy constructor `basic_formatter(const basic_formatter& f) { *this = f; }`: the
members are default-initialised before the assignment. -/
def copy (f : basic_formatter) : basic_formatter :=
  assign basic_formatter.default f

/-- Source `default_format_specification()`: the default field, sliced to its specification. -/
def default_format_specification (f : basic_formatter) : format_specification :=
  f.default_format.toformat_specification

/-- Source `isValid()` -/
def isValid (f : basic_formatter) : Bool := f.ok

/-- Source `FieldCount()` -/
def FieldCount (f : basic_formatter) : Nat := f.ffv.length

/-- Source `operator()()`: `_curff != _ffv.end() ? *_curff : _default_format` -/
def current (f : basic_formatter) : basic_formatterfield :=
  if f.curff ≠ f.ffv.length then f.ffv.getD f.curff f.default_format else f.default_format

/-- Source `next()`: the field returned and the formatter afterwards:
`if (!_ffv.empty() && ++_curff == _ffv.end()) _curff = _ffv.begin();` -/
def next (f : basic_formatter) : basic_formatterfield × basic_formatter :=
  let ret := f.current
  if !f.ffv.isEmpty then
    if f.curff + 1 = f.ffv.length then (ret, { f with curff := 0 })
    else (ret, { f with curff := f.curff + 1 })
  else (ret, f)

end basic_formatter

/-! ## Values of type `double` -/

/-- A value of type `double`: a finite value, held as the rational number it denotes, an
infinity (negative or positive) or a NaN. The sign of a zero is not represented. -/
inductive double where
  | finite (q : ℚ)
  | inf (negative : Bool)
  | nan
deriving DecidableEq

namespace double

/-- The comparison `a < b` of two doubles: false when either is a NaN. -/
def lt : double → double → Bool
  | finite a, finite b => decide (a < b)
  | finite _, inf n => !n
  | inf n, finite _ => n
  | inf a, inf b => a && !b
  | _, _ => false

/-- The comparison `a > b` of two doubles. -/
def gt (a b : double) : Bool := lt b a

/-- The comparison `a >= b` of two doubles: false when either is a NaN. -/
def ge : double → double → Bool
  | finite a, finite b => decide (b ≤ a)
  | finite _, inf n => n
  | inf n, finite _ => !n
  | inf a, inf b => !a || b
  | _, _ => false

/-- The comparison `a == b` of two doubles: false when either is a NaN. -/
def eq : double → double → Bool
  | finite a, finite b => decide (a = b)
  | inf a, inf b => a == b
  | _, _ => false

/-- The function `fabs` of `<math.h>`. -/
def fabs : double → double
  | finite q => finite |q|
  | inf _ => inf false
  | nan => nan

/-- The negation `-a`. -/
def neg : double → double
  | finite q => finite (-q)
  | inf n => inf (!n)
  | nan => nan

/-- The conversion of a `std::streamsize` to `double` (exact below `2^53`). -/
def ofInt (n : Int) : double := finite n

/-- The literal `0.0`. -/
def zero : double := finite 0

/-- The literal `1e-4`: the double nearest to one ten-thousandth. -/
def lit_1e_4 : double := finite (7378697629483821 / 73786976294838206464)

/-- The value of `10 * DBL_EPSILON`, which is `10 * 2^-52`. -/
def ten_DBL_EPSILON : double := finite (10 / 4503599627370496)

end double

/-- The operations on `double` that the inserter takes from outside the repository: `log10`
and `pow` of `<math.h>`, the rounding multiplication and subtraction of the platform, and the
conversion `(double)(__int64)x`. -/
structure double_math where
  log10 : double → double
  pow : double → Int → double
  mul : double → double → double
  sub : double → double → double
  int64 : double → double

/-! ## The output sink -/

/-- Modelled from the spec: the sink capability of section 6, which the source takes from
`std::basic_ostream` (outside the repository). The sink holds the format state set
through `width`, `precision`, `flags` and `fill`, and the characters written so far. -/
structure ostream where
  width : Int
  precision : Int
  flags : fmtflags
  fill : Char
  out : List Char
deriving DecidableEq

namespace ostream

/-- Modelled from the spec: a freshly opened sink: width 0, precision 6,
flags `skipws | dec`, fill blank, nothing written. -/
def init : ostream :=
  { width := 0, precision := 6, flags := 0x0201, fill := blank, out := [] }

/-- Modelled from the spec: padding of a formatted write. `sign` is the part of the
representation that internal alignment keeps in front of the padding. The width is
reset to zero by every formatted write. -/
def write_padded (os : ostream) (sign body : List Char) : ostream :=
  let pad := List.replicate (os.width - ((sign.length + body.length : Nat) : Int)).toNat os.fill
  let adjust := os.flags &&& adjustfield
  let chars :=
    if adjust = left then sign ++ body ++ pad
    else if adjust = internal then sign ++ pad ++ body
    else pad ++ sign ++ body
  { os with out := os.out ++ chars, width := 0 }

/-- Modelled from the spec: `os << s` for a C string: the characters up to the first
NUL, padded to the width. -/
def put_cstr (os : ostream) (s : List Char) : ostream :=
  write_padded os [] (s.takeWhile fun c => c != Char.ofNat 0)

/-- Modelled from the spec: the digits of a natural number in the given base, as `printf`
writes them (lowercase, or uppercase under `uppercase`). -/
def digits (base : Nat) (upper : Bool) (n : Nat) : List Char :=
  if upper then (Nat.toDigits base n).map Char.toUpper else Nat.toDigits base n

/-- Modelled from the spec: `os << n` for a 32-bit `int`: octal or hexadecimal of the
unsigned bit pattern under `oct` / `hex` (with the `0`, `0x`, `0X` prefix of a nonzero value
under `showbase`), signed decimal otherwise (with `+` under `showpos`), padded to the width. -/
def put_int (os : ostream) (n : Int) : ostream :=
  let base := os.flags &&& basefield
  let upper := (os.flags &&& uppercase) != 0
  let u : Nat := (n % 4294967296).toNat
  if base = oct then
    write_padded os [] ((if (os.flags &&& showbase) != 0 ∧ u ≠ 0 then ['0'] else [])
      ++ digits 8 upper u)
  else if base = hex then
    write_padded os
      (if (os.flags &&& showbase) != 0 ∧ u ≠ 0 then ['0', if upper then 'X' else 'x']
       else [])
      (digits 16 upper u)
  else
    write_padded os
      (if n < 0 then ['-'] else if (os.flags &&& showpos) != 0 then ['+'] else [])
      (digits 10 upper n.natAbs)

/-- Modelled from the spec: `ios_base::setf(f)`, which turns the bits of `f` on. -/
def setf (os : ostream) (f : fmtflags) : ostream :=
  { os with flags := os.flags ||| f }

/-- Modelled from the spec: `os.put(c)`, an unformatted write of one character. -/
def put (os : ostream) (c : Char) : ostream :=
  { os with out := os.out ++ [c] }

/-- Modelled from the spec: `os.flush()`, which leaves the format state and the characters
written as they are. -/
def flush (os : ostream) : ostream := os

end ostream

/-- The decimal numeral of an integer: a `-` for a negative value, then the digits. -/
def int_decimal (n : Int) : List Char :=
  (if n < 0 then ['-'] else []) ++ Nat.toDigits 10 n.natAbs

/-! ## The manipulators of `oformatstream.cpp` -/

/-- Source `format_manip(io, f)`: applies the field that `f.next()` returns. -/
def format_manip (io : ostream) (f : basic_formatter) : ostream × basic_formatter :=
  let r := f.next
  ({ io with width := r.1.width, precision := r.1.precision, flags := r.1.flags }, r.2)

/-- Source `formatspec_manip(io, fs)` -/
def formatspec_manip (io : ostream) (fs : format_specification) : ostream :=
  { io with width := fs.width, precision := fs.precision, flags := fs.flags }

/-! ## `basic_oformatstream` -/

/-- The class `basic_oformatstream`: the formatter it owns and the sink its pointer
`_Ostream` designates (`none` for `NULL`). -/
structure basic_oformatstream where
  Format : basic_formatter
  Ostream : Option ostream
deriving DecidableEq

namespace basic_oformatstream

/-- The constructor `basic_oformatstream(const std::basic_string& s, _Myostream *os)`. -/
def ofString (s : List Char) (os : Option ostream) : Option basic_oformatstream :=
  (basic_formatter.ofString s).map fun f => { Format := f.copy, Ostream := os }

/-- The constructor `basic_oformatstream(const basic_formatter& f, _Myostream *os)`. -/
def ofFormatter (f : basic_formatter) (os : Option ostream) : basic_oformatstream :=
  { Format := f.copy, Ostream := os }

/-- The member `prefix()`: its result and the stream afterwards. -/
def prefix_op (o : basic_oformatstream) : Bool × basic_oformatstream :=
  match o.Ostream with
  | none => (false, o)
  | some os =>
    let text := o.Format.current.text
    let os1 :=
      if !text.isEmpty then
        (formatspec_manip os o.Format.default_format_specification).put_cstr text
      else os
    let os2 := { os1 with fill := o.Format.current.fill }
    let r := format_manip os2 o.Format
    (true, { Format := r.2, Ostream := some r.1 })

/-- The member `suffix()`. -/
def suffix_op (o : basic_oformatstream) : basic_oformatstream :=
  match o.Ostream with
  | none => o
  | some os =>
    { o with Ostream := some (formatspec_manip os o.Format.default_format_specification) }

/-- Source `operator<<(int _X)`: `if (prefix()) { _Ostream->operator<<(_X); suffix(); }` -/
def insert_int (o : basic_oformatstream) (x : Int) : basic_oformatstream :=
  let r := prefix_op o
  if r.1 then
    suffix_op { r.2 with Ostream := r.2.Ostream.map fun os => os.put_int x }
  else r.2

/-- The manipulator `setformat(basic_oformatstream&)`. -/
def setformat (o : basic_oformatstream) : basic_oformatstream :=
  match o.Ostream with
  | none => o
  | some os =>
    let text := o.Format.current.text
    let os1 :=
      if !text.isEmpty then
        (formatspec_manip os o.Format.default_format_specification).put_cstr text
      else os
    let r := format_manip os1 o.Format
    { Format := r.2, Ostream := some r.1 }

/-- The sink on which `operator<<(int)` writes the value: the literal text has been written
under the default specification, and the fill, width, precision and flags are those of the
field that `next()` returned. -/
def value_sink (F : basic_formatter) (os : ostream) : ostream :=
  { (if !F.current.text.isEmpty then
      (formatspec_manip os F.default_format_specification).put_cstr F.current.text
     else os) with
    fill := F.current.fill
    width := F.next.1.width
    precision := F.next.1.precision
    flags := F.next.1.flags }

/-- The characters written to the sink so far (none when no sink is attached). -/
def output (o : basic_oformatstream) : List Char :=
  match o.Ostream with
  | none => []
  | some os => os.out

/-- The inserters `operator<<` for `bool`, the integer types, `long double`, `const void*`,
`const _E*` and `_E`, which all have the body
`if (prefix()) { <the sink's own operator<< for the value>; suffix(); }`; the sink's writer
of the value is `write`. -/
def insert_value (write : ostream → ostream) (o : basic_oformatstream) : basic_oformatstream :=
  let r := prefix_op o
  if r.1 then
    suffix_op { r.2 with Ostream := r.2.Ostream.map write }
  else r.2

/-- Source `operator<<(O, const _E *_X)`: the inserter of a C string. -/
def insert_cstr (o : basic_oformatstream) (s : List Char) : basic_oformatstream :=
  insert_value (fun os => os.put_cstr s) o

/-- The block of `operator<<(double _X)` between `prefix()` and the write: the emulation of
the general floating point format on the sink. -/
def adaptive (M : double_math) (os : ostream) (X : double) : ostream :=
  let f := os.flags
  if f &&& floatfield = 0 then
    let prec := os.precision
    let mant := double.fabs X
    let os1 :=
      if double.lt mant double.lit_1e_4 ||
          (if double.gt mant double.zero then double.ge (M.log10 mant) (double.ofInt prec)
           else true) then
        os.setf scientific
      else os.setf fixed
    let os2 := { os1 with precision := if prec > 0 then prec - 1 else prec }
    if os2.flags &&& showpoint = 0 then
      let mant2 := M.mul X (M.pow (double.neg (M.log10 mant)) 10)
      if double.gt (M.sub mant2 (M.int64 mant2)) double.ten_DBL_EPSILON then
        os2.setf showpoint
      else os2
    else os2
  else os

/-- Source `operator<<(double _X)`; the sink's writer of a double is `write`. -/
def insert_double (M : double_math) (write : ostream → double → ostream)
    (o : basic_oformatstream) (X : double) : basic_oformatstream :=
  let r := prefix_op o
  if r.1 then
    suffix_op { r.2 with Ostream := r.2.Ostream.map fun os => write (adaptive M os X) X }
  else r.2

/-- Source `operator<<(float _X)`: `*this << ((double)_X)`; every `float` is a `double`. -/
def insert_float (M : double_math) (write : ostream → double → ostream)
    (o : basic_oformatstream) (X : double) : basic_oformatstream :=
  insert_double M write o X

/-- The member `flush()`. -/
def flush (o : basic_oformatstream) : basic_oformatstream :=
  match o.Ostream with
  | none => o
  | some os => { o with Ostream := some os.flush }

/-- The member `put(_E _X)`. -/
def put (o : basic_oformatstream) (c : Char) : basic_oformatstream :=
  match o.Ostream with
  | none => o
  | some os => { o with Ostream := some (os.put c) }

/-- The manipulator `endl(basic_oformatstream&)`: `_O.put('\n'); _O.flush();` -/
def endl (o : basic_oformatstream) : basic_oformatstream :=
  (o.put '\n').flush

/-- The member `formatter(const basic_formatter& f)`: `_Format = f;` -/
def formatter (o : basic_oformatstream) (f : basic_formatter) : basic_oformatstream :=
  { o with Format := o.Format.assign f }

/-- Source `reformat_manip(ofs, f)`: `ofs.formatter(f);` -/
def reformat_manip (ofs : basic_oformatstream) (f : basic_formatter) : basic_oformatstream :=
  ofs.formatter f

/-- The sink is attached and holds the width, the precision and the flags of the default
format specification of the stream's formatter. -/
def holds_default (o : basic_oformatstream) : Bool :=
  match o.Ostream with
  | none => false
  | some os =>
    decide (os.width = o.Format.default_format_specification.width) &&
    decide (os.precision = o.Format.default_format_specification.precision) &&
    decide (os.flags = o.Format.default_format_specification.flags)

end basic_oformatstream

/-! ## Bit-level lemmas for `format_flags` -/

theorem testBit_bnot (x i : Nat) : (bnot x).testBit i = (decide (i < 32) && !x.testBit i) := by
  unfold bnot
  have h1 : (0xFFFFFFFF : Nat) = 2 ^ 32 - 1 := by norm_num
  have h2 : (0x100000000 : Nat) = 2 ^ 32 := by norm_num
  rw [h1, h2, Nat.testBit_xor, Nat.testBit_two_pow_sub_one, Nat.testBit_mod_two_pow]
  by_cases h : i < 32 <;> simp [h]

theorem is_iff (m x : Nat) : is m x = true ↔ ∃ i, m.testBit i = true ∧ x.testBit i = true := by
  unfold is Fmtzero
  constructor
  · intro h
    have h' : m &&& x ≠ 0 := by simpa using h
    obtain ⟨i, hi⟩ := Nat.ne_zero_implies_bit_true h'
    exact ⟨i, by simpa using hi⟩
  · rintro ⟨i, h1, h2⟩
    have : (m &&& x).testBit i = true := by simp [h1, h2]
    have h' : m &&& x ≠ 0 := by
      intro h0
      rw [h0] at this
      simp at this
    simpa using h'

theorem tb_pow (n i : Nat) : (2 ^ n).testBit i = decide (i = n) := by
  rw [Nat.testBit_two_pow]
  by_cases h : i = n
  · simp [h]
  · simp [h, Ne.symm h]


theorem tb_dec (i : Nat) : dec.testBit i = decide (i = 9) := tb_pow 9 i
theorem tb_oct (i : Nat) : oct.testBit i = decide (i = 10) := tb_pow 10 i
theorem tb_hex (i : Nat) : hex.testBit i = decide (i = 11) := tb_pow 11 i
theorem tb_scientific (i : Nat) : scientific.testBit i = decide (i = 12) := tb_pow 12 i
theorem tb_fixed (i : Nat) : fixed.testBit i = decide (i = 13) := tb_pow 13 i
theorem tb_left (i : Nat) : left.testBit i = decide (i = 6) := tb_pow 6 i
theorem tb_right (i : Nat) : right.testBit i = decide (i = 7) := tb_pow 7 i
theorem tb_internal (i : Nat) : internal.testBit i = decide (i = 8) := tb_pow 8 i
theorem tb_showpoint (i : Nat) : showpoint.testBit i = decide (i = 4) := tb_pow 4 i
theorem tb_basefield (i : Nat) :
    basefield.testBit i = (decide (i = 9) || decide (i = 10) || decide (i = 11)) := by
  have h : basefield = 2 ^ 9 ||| 2 ^ 10 ||| 2 ^ 11 := by decide
  rw [h]; simp only [Nat.testBit_or, tb_pow]
theorem tb_floatfield (i : Nat) :
    floatfield.testBit i = (decide (i = 12) || decide (i = 13)) := by
  have h : floatfield = 2 ^ 12 ||| 2 ^ 13 := by decide
  rw [h]; simp only [Nat.testBit_or, tb_pow]
theorem tb_adjustfield (i : Nat) :
    adjustfield.testBit i = (decide (i = 6) || decide (i = 7) || decide (i = 8)) := by
  have h : adjustfield = 2 ^ 6 ||| 2 ^ 7 ||| 2 ^ 8 := by decide
  rw [h]; simp only [Nat.testBit_or, tb_pow]

theorem is_bit (m x k : Nat) (hm : ∀ i, m.testBit i = decide (i = k)) :
    is m x = x.testBit k := by
  rw [Bool.eq_iff_iff, is_iff]
  constructor
  · rintro ⟨i, h1, h2⟩
    rw [hm] at h1
    have : i = k := by simpa using h1
    rw [← this]; exact h2
  · intro h; exact ⟨k, by simp [hm], h⟩

theorem is_dec (x : Nat) : is dec x = x.testBit 9 := is_bit _ _ _ tb_dec
theorem is_oct (x : Nat) : is oct x = x.testBit 10 := is_bit _ _ _ tb_oct
theorem is_hex (x : Nat) : is hex x = x.testBit 11 := is_bit _ _ _ tb_hex
theorem is_scientific (x : Nat) : is scientific x = x.testBit 12 := is_bit _ _ _ tb_scientific
theorem is_fixed (x : Nat) : is fixed x = x.testBit 13 := is_bit _ _ _ tb_fixed
theorem is_left (x : Nat) : is left x = x.testBit 6 := is_bit _ _ _ tb_left
theorem is_right (x : Nat) : is right x = x.testBit 7 := is_bit _ _ _ tb_right
theorem is_internal (x : Nat) : is internal x = x.testBit 8 := is_bit _ _ _ tb_internal

theorem is_basefield (x : Nat) :
    is basefield x = (x.testBit 9 || x.testBit 10 || x.testBit 11) := by
  rw [Bool.eq_iff_iff, is_iff]
  simp only [tb_basefield, Bool.or_eq_true, decide_eq_true_eq]
  constructor
  · rintro ⟨i, (((h | h) | h)), h2⟩ <;> subst h <;> simp [h2]
  · rintro ((h | h) | h)
    · exact ⟨9, by simp, h⟩
    · exact ⟨10, by simp, h⟩
    · exact ⟨11, by simp, h⟩

theorem is_floatfield (x : Nat) :
    is floatfield x = (x.testBit 12 || x.testBit 13) := by
  rw [Bool.eq_iff_iff, is_iff]
  simp only [tb_floatfield, Bool.or_eq_true, decide_eq_true_eq]
  constructor
  · rintro ⟨i, (h | h), h2⟩ <;> subst h <;> simp [h2]
  · rintro (h | h)
    · exact ⟨12, by simp, h⟩
    · exact ⟨13, by simp, h⟩

theorem is_adjustfield (x : Nat) :
    is adjustfield x = (x.testBit 6 || x.testBit 7 || x.testBit 8) := by
  rw [Bool.eq_iff_iff, is_iff]
  simp only [tb_adjustfield, Bool.or_eq_true, decide_eq_true_eq]
  constructor
  · rintro ⟨i, (((h | h) | h)), h2⟩ <;> subst h <;> simp [h2]
  · rintro ((h | h) | h)
    · exact ⟨6, by simp, h⟩
    · exact ⟨7, by simp, h⟩
    · exact ⟨8, by simp, h⟩



theorem testBit_toggle (f m v i : Nat) : (toggle f m v).testBit i =
    ((f.testBit i && (decide (i < 32) && !(xor (m.testBit i) (v.testBit i)))) || v.testBit i) := by
  simp only [toggle, Nat.testBit_or, Nat.testBit_and, testBit_bnot, Nat.testBit_xor]


theorem tb_others (i : Nat) : (basefield ||| floatfield ||| adjustfield).testBit i =
    (decide (i = 9) || decide (i = 10) || decide (i = 11) || (decide (i = 12) || decide (i = 13))
      || (decide (i = 6) || decide (i = 7) || decide (i = 8))) := by
  simp only [Nat.testBit_or, tb_basefield, tb_floatfield, tb_adjustfield]

theorem testBit_stage1 (f x i : Nat) (hi : i < 32) :
    (or_stage1 f x).testBit i =
      (if i = 9 ∨ i = 10 ∨ i = 11 then
        (if x.testBit 9 || x.testBit 10 || x.testBit 11 then
          (if x.testBit 9 then decide (i = 9) else if x.testBit 10 then decide (i = 10)
           else decide (i = 11))
         else f.testBit i)
       else if i = 12 ∨ i = 13 then
        (if x.testBit 12 || x.testBit 13 then
          (if x.testBit 12 then decide (i = 12) else decide (i = 13))
         else f.testBit i)
       else if i = 4 then (f.testBit i && !(x.testBit 9 || x.testBit 10 || x.testBit 11))
       else f.testBit i) := by
  simp only [or_stage1, is_basefield, is_floatfield, is_dec, is_oct, is_hex, is_scientific,
    is_fixed]
  generalize x.testBit 9 = x9
  generalize x.testBit 10 = x10
  generalize x.testBit 11 = x11
  generalize x.testBit 12 = x12
  generalize x.testBit 13 = x13
  have key : ∀ g : Nat, (g &&& bnot showpoint).testBit i = (g.testBit i && !decide (i = 4)) := by
    intro g; simp [testBit_bnot, tb_showpoint, hi]
  have tg : ∀ g m v : Nat, (toggle g m v).testBit i =
      ((g.testBit i && !(xor (m.testBit i) (v.testBit i))) || v.testBit i) := by
    intro g m v; simp [testBit_toggle, hi]
  by_cases h9 : i = 9
  · subst h9
    cases x9 <;> cases x10 <;> cases x11 <;> cases x12 <;> cases x13 <;>
      simp [key, tg, tb_dec, tb_oct, tb_hex, tb_scientific, tb_fixed, tb_basefield, tb_floatfield]
  by_cases h10 : i = 10
  · subst h10
    cases x9 <;> cases x10 <;> cases x11 <;> cases x12 <;> cases x13 <;>
      simp [key, tg, tb_dec, tb_oct, tb_hex, tb_scientific, tb_fixed, tb_basefield, tb_floatfield]
  by_cases h11 : i = 11
  · subst h11
    cases x9 <;> cases x10 <;> cases x11 <;> cases x12 <;> cases x13 <;>
      simp [key, tg, tb_dec, tb_oct, tb_hex, tb_scientific, tb_fixed, tb_basefield, tb_floatfield]
  by_cases h12 : i = 12
  · subst h12
    cases x9 <;> cases x10 <;> cases x11 <;> cases x12 <;> cases x13 <;>
      simp [key, tg, tb_dec, tb_oct, tb_hex, tb_scientific, tb_fixed, tb_basefield, tb_floatfield]
  by_cases h13 : i = 13
  · subst h13
    cases x9 <;> cases x10 <;> cases x11 <;> cases x12 <;> cases x13 <;>
      simp [key, tg, tb_dec, tb_oct, tb_hex, tb_scientific, tb_fixed, tb_basefield, tb_floatfield]
  by_cases h4 : i = 4
  · subst h4
    cases x9 <;> cases x10 <;> cases x11 <;> cases x12 <;> cases x13 <;>
      simp [key, tg, tb_dec, tb_oct, tb_hex, tb_scientific, tb_fixed, tb_basefield, tb_floatfield]
  cases x9 <;> cases x10 <;> cases x11 <;> cases x12 <;> cases x13 <;>
    simp [key, tg, tb_dec, tb_oct, tb_hex, tb_scientific, tb_fixed, tb_basefield, tb_floatfield,
      h9, h10, h11, h12, h13, h4]

theorem testBit_stage2 (f x i : Nat) (hi : i < 32) :
    (or_stage2 f x).testBit i =
      (if i = 6 ∨ i = 7 ∨ i = 8 then
        (if x.testBit 6 || x.testBit 7 || x.testBit 8 then
          (if x.testBit 7 then decide (i = 7) else if x.testBit 6 then decide (i = 6)
           else decide (i = 8))
         else f.testBit i)
       else f.testBit i) := by
  simp only [or_stage2, is_adjustfield, is_left, is_right, is_internal]
  generalize x.testBit 6 = x6
  generalize x.testBit 7 = x7
  generalize x.testBit 8 = x8
  have tg : ∀ g m v : Nat, (toggle g m v).testBit i =
      ((g.testBit i && !(xor (m.testBit i) (v.testBit i))) || v.testBit i) := by
    intro g m v; simp [testBit_toggle, hi]
  by_cases h6 : i = 6
  · subst h6
    cases x6 <;> cases x7 <;> cases x8 <;> simp [tg, tb_left, tb_right, tb_internal, tb_adjustfield]
  by_cases h7 : i = 7
  · subst h7
    cases x6 <;> cases x7 <;> cases x8 <;> simp [tg, tb_left, tb_right, tb_internal, tb_adjustfield]
  by_cases h8 : i = 8
  · subst h8
    cases x6 <;> cases x7 <;> cases x8 <;> simp [tg, tb_left, tb_right, tb_internal, tb_adjustfield]
  cases x6 <;> cases x7 <;> cases x8 <;>
    simp [tg, tb_left, tb_right, tb_internal, tb_adjustfield, h6, h7, h8]

theorem testBit_aligment (f i : Nat) (hi : i < 32) : (aligment f).testBit i =
    (if f.testBit 6 || f.testBit 7 || f.testBit 8 then f.testBit i
     else if i = 7 then true else f.testBit i) := by
  unfold aligment
  rw [is_adjustfield]
  cases h : (f.testBit 6 || f.testBit 7 || f.testBit 8)
  · simp only [Bool.or_eq_false_iff] at h
    obtain ⟨⟨h6, h7⟩, h8⟩ := h
    simp only [Bool.not_false, if_true, testBit_toggle, tb_adjustfield, tb_right]
    by_cases e6 : i = 6
    · subst e6; simp [h6]
    by_cases e7 : i = 7
    · subst e7; simp
    by_cases e8 : i = 8
    · subst e8; simp [h8]
    simp [e6, e7, e8, hi]
  · simp

theorem testBit_aligment_other (f i : Nat) (hi : i < 32) (_h6 : i ≠ 6) (h7 : i ≠ 7)
    (_h8 : i ≠ 8) : (aligment f).testBit i = f.testBit i := by
  rw [testBit_aligment f i hi]
  simp [h7]

theorem testBit_stage2_other (f x i : Nat) (hi : i < 32) (h6 : i ≠ 6) (h7 : i ≠ 7)
    (h8 : i ≠ 8) : (or_stage2 f x).testBit i = f.testBit i := by
  rw [testBit_stage2 f x i hi]
  simp [h6, h7, h8]

theorem testBit_stage1_adjust (f x i : Nat) (h : i = 6 ∨ i = 7 ∨ i = 8) :
    (or_stage1 f x).testBit i = f.testBit i := by
  rw [testBit_stage1 f x i (by omega)]
  rcases h with rfl | rfl | rfl <;> simp

theorem testBit_others (g x i : Nat) (hi : i < 32) :
    (g ||| (x &&& bnot (basefield ||| floatfield ||| adjustfield))).testBit i =
      (g.testBit i || (x.testBit i &&
        !(decide (i = 9) || decide (i = 10) || decide (i = 11) || (decide (i = 12) ||
          decide (i = 13)) || (decide (i = 6) || decide (i = 7) || decide (i = 8))))) := by
  simp only [Nat.testBit_or, Nat.testBit_and, testBit_bnot, tb_basefield, tb_floatfield,
    tb_adjustfield, hi, decide_True, Bool.true_and]

theorem testBit_others_group (g x i : Nat)
    (h : i = 6 ∨ i = 7 ∨ i = 8 ∨ i = 9 ∨ i = 10 ∨ i = 11 ∨ i = 12 ∨ i = 13) :
    (g ||| (x &&& bnot (basefield ||| floatfield ||| adjustfield))).testBit i = g.testBit i := by
  rw [testBit_others g x i (by omega)]
  rcases h with rfl | rfl | rfl | rfl | rfl | rfl | rfl | rfl <;> simp

theorem or_assign_eq (f x : Nat) : or_assign f x =
    aligment (or_stage2 (or_stage1 f x) x |||
      (x &&& bnot (basefield ||| floatfield ||| adjustfield))) := rfl

/-- Bits 9, 10, 11 (the base group) of the result of `operator|=`. -/
theorem testBit_or_assign_base (f x i : Nat) (h : i = 9 ∨ i = 10 ∨ i = 11) :
    (or_assign f x).testBit i =
      (if x.testBit 9 || x.testBit 10 || x.testBit 11 then
        (if x.testBit 9 then decide (i = 9) else if x.testBit 10 then decide (i = 10)
         else decide (i = 11))
       else f.testBit i) := by
  have hi : i < 32 := by omega
  rw [or_assign_eq, testBit_aligment_other _ _ hi (by omega) (by omega) (by omega),
    testBit_others_group _ _ _ (by omega),
    testBit_stage2_other _ _ _ hi (by omega) (by omega) (by omega), testBit_stage1 _ _ _ hi,
    if_pos h]

/-- Bits 12, 13 (the float-style group) of the result of `operator|=`. -/
theorem testBit_or_assign_float (f x i : Nat) (h : i = 12 ∨ i = 13) :
    (or_assign f x).testBit i =
      (if x.testBit 12 || x.testBit 13 then
        (if x.testBit 12 then decide (i = 12) else decide (i = 13))
       else f.testBit i) := by
  have hi : i < 32 := by omega
  rw [or_assign_eq, testBit_aligment_other _ _ hi (by omega) (by omega) (by omega),
    testBit_others_group _ _ _ (by omega),
    testBit_stage2_other _ _ _ hi (by omega) (by omega) (by omega), testBit_stage1 _ _ _ hi,
    if_neg (by omega), if_pos h]

/-- Bits 6, 7, 8 (the alignment group) of the result of `operator|=`. -/
theorem testBit_or_assign_adjust (f x i : Nat) (h : i = 6 ∨ i = 7 ∨ i = 8) :
    (or_assign f x).testBit i =
      (if x.testBit 6 || x.testBit 7 || x.testBit 8 then
        (if x.testBit 7 then decide (i = 7) else if x.testBit 6 then decide (i = 6)
         else decide (i = 8))
       else if f.testBit 6 || f.testBit 7 || f.testBit 8 then f.testBit i
       else decide (i = 7)) := by
  have hi : i < 32 := by omega
  have hj : ∀ j, j = 6 ∨ j = 7 ∨ j = 8 →
      (or_stage2 (or_stage1 f x) x ||| (x &&& bnot (basefield ||| floatfield |||
        adjustfield))).testBit j =
      (if x.testBit 6 || x.testBit 7 || x.testBit 8 then
        (if x.testBit 7 then decide (j = 7) else if x.testBit 6 then decide (j = 6)
         else decide (j = 8))
       else f.testBit j) := by
    intro j hj
    rw [testBit_others_group _ _ _ (by omega), testBit_stage2 _ _ _ (by omega), if_pos hj,
      testBit_stage1_adjust _ _ _ hj]
  rw [or_assign_eq, testBit_aligment _ _ hi, hj i h, hj 6 (by omega), hj 7 (by omega),
    hj 8 (by omega)]
  rcases h with rfl | rfl | rfl <;>
    cases x.testBit 6 <;> cases x.testBit 7 <;> cases x.testBit 8 <;>
    cases f.testBit 6 <;> cases f.testBit 7 <;> cases f.testBit 8 <;> simp

/-- Bit 4 (showpoint) of the result of `operator|=`. -/
theorem testBit_or_assign_showpoint (f x : Nat) :
    (or_assign f x).testBit 4 =
      ((f.testBit 4 && !(x.testBit 9 || x.testBit 10 || x.testBit 11)) || x.testBit 4) := by
  rw [or_assign_eq, testBit_aligment_other _ _ (by omega) (by omega) (by omega) (by omega),
    testBit_others _ _ _ (by omega),
    testBit_stage2_other _ _ _ (by omega) (by omega) (by omega) (by omega),
    testBit_stage1 _ _ _ (by omega)]
  simp

/-- Every other bit of the 32-bit pattern of the result of `operator|=`. -/
theorem testBit_or_assign_other (f x i : Nat) (hi : i < 32) (h4 : i ≠ 4)
    (hlo : i < 6 ∨ 13 < i) :
    (or_assign f x).testBit i = (f.testBit i || x.testBit i) := by
  rw [or_assign_eq, testBit_aligment_other _ _ hi (by omega) (by omega) (by omega),
    testBit_others _ _ _ hi,
    testBit_stage2_other _ _ _ hi (by omega) (by omega) (by omega),
    testBit_stage1 _ _ _ hi, if_neg (by omega), if_neg (by omega), if_neg h4]
  have e6 : i ≠ 6 := by omega
  have e7 : i ≠ 7 := by omega
  have e8 : i ≠ 8 := by omega
  have e9 : i ≠ 9 := by omega
  have e10 : i ≠ 10 := by omega
  have e11 : i ≠ 11 := by omega
  have e12 : i ≠ 12 := by omega
  have e13 : i ≠ 13 := by omega
  simp [e6, e7, e8, e9, e10, e11, e12, e13]

/-! ## `format_flags`: the merge operator -/

/-- C4: after `f |= x` every exclusivity group that `x` touches holds exactly the one bit
chosen by priority, whatever `f` held there (base: dec, else oct, else hex; float style:
scientific, else fixed; alignment: right, else left, else internal); a base or float-style
group that `x` does not touch keeps the bits of `f`, and an untouched alignment group keeps
the bits of `f` when it has any and becomes `right` otherwise. -/
theorem or_assign_groups (f x : fmtflags) :
    (or_assign f x &&& basefield =
      if is basefield x then (if is dec x then dec else if is oct x then oct else hex)
      else f &&& basefield) ∧
    (or_assign f x &&& floatfield =
      if is floatfield x then (if is scientific x then scientific else fixed)
      else f &&& floatfield) ∧
    (or_assign f x &&& adjustfield =
      if is adjustfield x then (if is right x then right else if is left x then left
        else internal)
      else if is adjustfield f then f &&& adjustfield else right) := by
  refine ⟨?_, ?_, ?_⟩
  · apply Nat.eq_of_testBit_eq
    intro i
    rw [Nat.testBit_and, tb_basefield, is_basefield, is_dec, is_oct]
    by_cases h : i = 9 ∨ i = 10 ∨ i = 11
    · rw [testBit_or_assign_base f x i h]
      rcases h with rfl | rfl | rfl <;>
        cases x.testBit 9 <;> cases x.testBit 10 <;> cases x.testBit 11 <;>
        simp [tb_dec, tb_oct, tb_hex, tb_basefield]
    · have h9 : i ≠ 9 := by omega
      have h10 : i ≠ 10 := by omega
      have h11 : i ≠ 11 := by omega
      cases x.testBit 9 <;> cases x.testBit 10 <;> cases x.testBit 11 <;>
        simp [tb_dec, tb_oct, tb_hex, tb_basefield, h9, h10, h11]
  · apply Nat.eq_of_testBit_eq
    intro i
    rw [Nat.testBit_and, tb_floatfield, is_floatfield, is_scientific]
    by_cases h : i = 12 ∨ i = 13
    · rw [testBit_or_assign_float f x i h]
      rcases h with rfl | rfl <;>
        cases x.testBit 12 <;> cases x.testBit 13 <;>
        simp [tb_scientific, tb_fixed, tb_floatfield]
    · have h12 : i ≠ 12 := by omega
      have h13 : i ≠ 13 := by omega
      cases x.testBit 12 <;> cases x.testBit 13 <;>
        simp [tb_scientific, tb_fixed, tb_floatfield, h12, h13]
  · apply Nat.eq_of_testBit_eq
    intro i
    rw [Nat.testBit_and, tb_adjustfield, is_adjustfield, is_adjustfield, is_right, is_left]
    by_cases h : i = 6 ∨ i = 7 ∨ i = 8
    · rw [testBit_or_assign_adjust f x i h]
      rcases h with rfl | rfl | rfl <;>
        cases x.testBit 6 <;> cases x.testBit 7 <;> cases x.testBit 8 <;>
        cases e6 : f.testBit 6 <;> cases e7 : f.testBit 7 <;> cases e8 : f.testBit 8 <;>
        simp [tb_left, tb_right, tb_internal, tb_adjustfield, e6, e7, e8]
    · have h6 : i ≠ 6 := by omega
      have h7 : i ≠ 7 := by omega
      have h8 : i ≠ 8 := by omega
      cases x.testBit 6 <;> cases x.testBit 7 <;> cases x.testBit 8 <;>
        cases e6 : f.testBit 6 <;> cases e7 : f.testBit 7 <;> cases e8 : f.testBit 8 <;>
        simp [tb_left, tb_right, tb_internal, tb_adjustfield, h6, h7, h8]

/-- C5: construction and assignment from raw bits store the bits unfiltered, so the value
built from `dec | hex` holds two base bits and violates the exclusivity invariant, whereas
merging the same bits with `|=` into an empty value keeps exactly one. -/
theorem raw_bits_break_exclusivity :
    format_flags.ofFlags (dec ||| hex) = dec ||| hex ∧
    exclusive (format_flags.ofFlags (dec ||| hex)) = false ∧
    exclusive (format_flags.assign format_flags.empty (dec ||| hex)) = false ∧
    exclusive (or_assign format_flags.empty (dec ||| hex)) = true := by
  decide

/-- Outside the characters of the type-derivation table no branch of
`format_flag_from_char` fires and the result is the empty flag set. -/
theorem format_flag_from_char_outside (ch : Char)
    (h : ch ∉ ['E', 'G', 'X', 'p', ' ', '#', '+', '-', 'c', 's', 'd', 'i', 'u', 'o', 'x',
      'e', 'f', 'g']) :
    format_flag_from_char ch = Fmtzero := by
  simp only [List.mem_cons, List.mem_singleton, List.not_mem_nil, or_false, not_or] at h
  obtain ⟨h1, h2, h3, h4, h5, h6, h7, h8, h9, h10, h11, h12, h13, h14, h15, h16, h17, h18⟩ := h
  simp [format_flag_from_char, blank, format_flags.empty, h1, h2, h3, h4, h5, h6, h7, h8, h9,
    h10, h11, h12, h13, h14, h15, h16, h17, h18]

/-- C6: `format_flag_from_char` returns, for every character of the type-derivation table,
a flag set that contains the flags listed for it (for `g` and `G`: `dec` and neither `fixed`
nor `scientific`), and the empty flag set for `h`, `l`, `L` and for every character outside
the table. -/
theorem format_flag_from_char_table :
    (∀ ch ∈ ['E', 'G', 'X', 'p'], is uppercase (format_flag_from_char ch) = true) ∧
    (∀ ch ∈ [' ', 'c', 's'], is right (format_flag_from_char ch) = true) ∧
    is showbase (format_flag_from_char '#') = true ∧
    is showpos (format_flag_from_char '+') = true ∧
    is left (format_flag_from_char '-') = true ∧
    (∀ ch ∈ ['d', 'i', 'u'], is dec (format_flag_from_char ch) = true) ∧
    is oct (format_flag_from_char 'o') = true ∧
    (∀ ch ∈ ['x', 'X', 'p'], is hex (format_flag_from_char ch) = true) ∧
    (∀ ch ∈ ['e', 'E'], is dec (format_flag_from_char ch) = true ∧
      is scientific (format_flag_from_char ch) = true) ∧
    (is dec (format_flag_from_char 'f') = true ∧ is fixed (format_flag_from_char 'f') = true) ∧
    (∀ ch ∈ ['g', 'G'], is dec (format_flag_from_char ch) = true ∧
      is fixed (format_flag_from_char ch) = false ∧
      is scientific (format_flag_from_char ch) = false) ∧
    (∀ ch ∈ ['h', 'l', 'L'], format_flag_from_char ch = Fmtzero) ∧
    (∀ ch, ch ∉ ['E', 'G', 'X', 'p', ' ', '#', '+', '-', 'c', 's', 'd', 'i', 'u', 'o', 'x',
      'e', 'f', 'g'] → format_flag_from_char ch = Fmtzero) := by
  refine ⟨by decide, by decide, by decide, by decide, by decide, by decide, by decide,
    by decide, by decide, by decide, by decide, by decide, ?_⟩
  intro ch h
  exact format_flag_from_char_outside ch h

/-- C6, at a character outside the table. -/
theorem format_flag_from_char_table_witness :
    format_flag_from_char 'z' = Fmtzero :=
  format_flag_from_char_table.2.2.2.2.2.2.2.2.2.2.2.2 'z' (by decide)

/-! ## The loop of `parse_format_specification` -/

theorem case_inType_it (s : spec_state) : (case_inType s).it = s.it := by
  simp only [case_inType]
  split_ifs <;> rfl

theorem case_inPrecision_it (s : spec_state) : (case_inPrecision s).it = s.it := by
  simp only [case_inPrecision]
  split_ifs <;> simp [case_inType_it]

theorem case_inWidth_it (s : spec_state) :
    (case_inWidth s).it = s.it ∨ (case_inWidth s).it = s.it.tail := by
  simp only [case_inWidth]
  split_ifs <;> simp [case_inPrecision_it]

theorem case_inFlags_it (s : spec_state) :
    (case_inFlags s).it = s.it ∨ (case_inFlags s).it = s.it.tail := by
  simp only [case_inFlags]
  split_ifs
  · simp
  · simpa using case_inWidth_it { s with status := spec_status.inWidth }
  · simpa using case_inWidth_it { s with status := spec_status.inType }
  · simp
  · simp
  · simp

theorem spec_switch_it (s : spec_state) :
    (spec_switch s).it = s.it ∨ (spec_switch s).it = s.it.tail := by
  unfold spec_switch
  split
  · exact case_inFlags_it s
  · exact case_inWidth_it s
  · exact Or.inl (case_inPrecision_it s)
  · exact Or.inl (case_inType_it s)

theorem spec_advance_it (s : spec_state) :
    (spec_advance s).it = s.it ∨ (spec_advance s).it = s.it.tail := by
  unfold spec_advance
  split_ifs <;> simp

/-- One iteration of the loop leaves the iterator on a suffix of where it was. -/
theorem spec_step_suffix (s : spec_state) :
    (spec_advance (spec_switch s)).it <:+ s.it := by
  have h1 := spec_switch_it s
  have h2 := spec_advance_it (spec_switch s)
  have t1 : s.it.tail <:+ s.it := List.tail_suffix _
  have t2 : s.it.tail.tail <:+ s.it := (List.tail_suffix _).trans t1
  rcases h1 with h1 | h1 <;> rcases h2 with h2 | h2 <;> simp only [h2, h1]
  · exact List.suffix_refl _
  · exact t1
  · exact t1
  · exact t2

/-- An iteration after which the loop goes on has consumed a character. -/
theorem spec_step_lt (s : spec_state) (h : spec_cond s = true)
    (h1 : spec_cond (spec_advance (spec_switch s)) = true) :
    (spec_advance (spec_switch s)).it.length < s.it.length := by
  have hs : s.it ≠ [] := by
    intro e
    simp [spec_cond, e] at h
  have hpos : 0 < s.it.length := List.length_pos.mpr hs
  have hsw := spec_switch_it s
  have hle : (spec_switch s).it.length ≤ s.it.length := by
    rcases hsw with e | e
    · rw [e]
    · rw [e]; simp
  unfold spec_advance at h1 ⊢
  split_ifs at h1 ⊢ with hc
  · simp only [List.length_tail]
    have hne : (spec_switch s).it ≠ [] := by
      intro e
      simp [e] at hc
    have := List.length_pos.mpr hne
    omega
  · simp only [spec_cond, Bool.and_eq_true, Bool.not_eq_true', List.isEmpty_eq_false] at h1
    simp only [Bool.and_eq_true, Bool.not_eq_true', not_and, Bool.not_eq_false, List.isEmpty_eq_false] at hc
    exfalso
    have := hc h1.1.2
    simp [h1.1.1] at this

/-- The loop returns when its fuel exceeds the number of remaining characters. -/
theorem spec_loop_total (fuel : Nat) (s : spec_state) (h : s.it.length < fuel) :
    ∃ r, spec_loop fuel s = some r := by
  induction fuel generalizing s with
  | zero => omega
  | succ n ih =>
    unfold spec_loop
    by_cases hc : spec_cond s = true
    · rw [if_pos hc]
      by_cases hc1 : spec_cond (spec_advance (spec_switch s)) = true
      · exact ih _ (by have := spec_step_lt s hc hc1; omega)
      · have hs : s.it ≠ [] := by
          intro e
          simp [spec_cond, e] at hc
        have hpos : 0 < s.it.length := List.length_pos.mpr hs
        obtain ⟨m, rfl⟩ : ∃ m, n = m + 1 := ⟨n - 1, by omega⟩
        unfold spec_loop
        rw [if_neg hc1]
        exact ⟨_, rfl⟩
    · rw [if_neg hc]
      exact ⟨_, rfl⟩

/-- More fuel does not change what the loop returns. -/
theorem spec_loop_mono (n : Nat) (s r : spec_state) (h : spec_loop n s = some r) :
    spec_loop (n + 1) s = some r := by
  induction n generalizing s with
  | zero => simp [spec_loop] at h
  | succ n ih =>
    unfold spec_loop at h ⊢
    by_cases hc : spec_cond s = true
    · rw [if_pos hc] at h ⊢
      exact ih _ h
    · rw [if_neg hc] at h ⊢
      exact h

theorem spec_loop_mono_le (n m : Nat) (s r : spec_state) (hnm : n ≤ m)
    (h : spec_loop n s = some r) : spec_loop m s = some r := by
  induction hnm with
  | refl => exact h
  | step _ ih => exact spec_loop_mono _ _ _ ih

theorem spec_run_total (s : spec_state) : ∃ r, spec_run s = some r :=
  spec_loop_total _ s (by omega)

theorem spec_loop_eq_run (fuel : Nat) (s : spec_state) (h : s.it.length < fuel) :
    spec_loop fuel s = spec_run s := by
  obtain ⟨r, hr⟩ := spec_run_total s
  rw [hr]
  exact spec_loop_mono_le _ _ _ _ (by omega) hr

/-- Unfolding one iteration of the loop. -/
theorem spec_run_step (s : spec_state) (h : spec_cond s = true) :
    spec_run s = spec_run (spec_advance (spec_switch s)) := by
  have hs : s.it ≠ [] := by
    intro e
    simp [spec_cond, e] at h
  have hpos : 0 < s.it.length := List.length_pos.mpr hs
  have hle : (spec_advance (spec_switch s)).it.length ≤ s.it.length :=
    (spec_step_suffix s).length_le
  obtain ⟨m, hm⟩ : ∃ m, s.it.length = m + 1 := ⟨s.it.length - 1, by omega⟩
  have e1 : spec_run s = spec_loop (s.it.length) (spec_advance (spec_switch s)) := by
    unfold spec_run
    rw [spec_loop, if_pos h]
  by_cases hc1 : spec_cond (spec_advance (spec_switch s)) = true
  · rw [e1]
    exact spec_loop_eq_run _ _ (spec_step_lt s h hc1)
  · rw [e1, hm]
    unfold spec_run
    rw [spec_loop, if_neg hc1, spec_loop, if_neg hc1]

/-- Leaving the loop. -/
theorem spec_run_exit (s : spec_state) (h : spec_cond s = false) : spec_run s = some s := by
  unfold spec_run
  rw [spec_loop, if_neg (by simp [h])]

/-- The loop leaves the iterator on a suffix of where it started. -/
theorem spec_loop_suffix (fuel : Nat) (s r : spec_state) (h : spec_loop fuel s = some r) :
    r.it <:+ s.it := by
  induction fuel generalizing s with
  | zero => simp [spec_loop] at h
  | succ n ih =>
    unfold spec_loop at h
    by_cases hc : spec_cond s = true
    · rw [if_pos hc] at h
      exact (ih _ h).trans (spec_step_suffix s)
    · rw [if_neg hc] at h
      cases h
      exact List.suffix_refl _

/-! ## `parse_format_specification` returns -/

theorem parse_format_specification_total (it : List Char) (outfs : format_specification)
    (fillchar : Char) : ∃ r, parse_format_specification it outfs fillchar = some r := by
  obtain ⟨r, hr⟩ := spec_run_total (spec_init it fillchar)
  exact ⟨spec_finish outfs r, by simp [parse_format_specification, hr]⟩

theorem spec_finish_it (outfs : format_specification) (s : spec_state) :
    (spec_finish outfs s).it = s.it := by
  simp only [spec_finish]
  split_ifs <;> rfl

theorem spec_finish_ok (outfs : format_specification) (s : spec_state) :
    (spec_finish outfs s).ok = s.ok := by
  simp only [spec_finish]
  split_ifs <;> rfl

theorem parse_format_specification_suffix (it : List Char) (outfs : format_specification)
    (fillchar : Char) (r : spec_result)
    (h : parse_format_specification it outfs fillchar = some r) : r.it <:+ it := by
  simp only [parse_format_specification, Option.map_eq_some'] at h
  obtain ⟨s, hs, rfl⟩ := h
  rw [spec_finish_it]
  exact spec_loop_suffix _ _ _ hs

/-! ## The loop of `parse_field` -/

theorem field_switch_total (s : field_state) : ∃ s1, field_switch s = some s1 := by
  unfold field_switch
  split
  · split_ifs <;> exact ⟨_, rfl⟩
  · split_ifs
    · exact ⟨_, rfl⟩
    · obtain ⟨r, hr⟩ := parse_format_specification_total s.it s.outff.toformat_specification
        s.outff.fill
      exact ⟨_, by rw [hr]; rfl⟩

theorem field_switch_suffix (s s1 : field_state) (h : field_switch s = some s1) :
    s1.it <:+ s.it := by
  unfold field_switch at h
  split at h
  · split_ifs at h <;> cases h <;> exact List.suffix_refl _
  · split_ifs at h
    · cases h; exact List.suffix_refl _
    · simp only [Option.map_eq_some'] at h
      obtain ⟨r, hr, rfl⟩ := h
      exact parse_format_specification_suffix _ _ _ _ hr

/-- Either the iteration ends the loop (`done`), or it keeps `done` and the iterator. -/
theorem field_switch_cases (s s1 : field_state) (h : field_switch s = some s1) :
    s1.done = true ∨ (s1.done = s.done ∧ s1.it = s.it) := by
  unfold field_switch at h
  split at h
  · split_ifs at h <;> cases h <;> exact Or.inr ⟨rfl, rfl⟩
  · split_ifs at h
    · cases h; exact Or.inr ⟨rfl, rfl⟩
    · simp only [Option.map_eq_some'] at h
      obtain ⟨r, _, rfl⟩ := h
      exact Or.inl rfl

theorem field_advance_suffix (s : field_state) : (field_advance s).it <:+ s.it := by
  unfold field_advance
  split_ifs
  · exact List.tail_suffix _
  · exact List.suffix_refl _

theorem field_advance_done (s : field_state) : (field_advance s).done = s.done := by
  unfold field_advance
  split_ifs <;> rfl

theorem field_advance_ok (s : field_state) : (field_advance s).ok = s.ok := by
  unfold field_advance
  split_ifs <;> rfl

theorem field_cond_ne_nil (s : field_state) (h : field_cond s = true) : s.it ≠ [] := by
  intro e
  simp [field_cond, e] at h

theorem field_cond_done (s : field_state) (h : field_cond s = true) : s.done = false := by
  simp only [field_cond, Bool.and_eq_true, Bool.not_eq_true'] at h
  exact h.1.2

theorem field_step_lt (s s1 : field_state) (h : field_cond s = true)
    (hs : field_switch s = some s1) (h1 : field_cond (field_advance s1) = true) :
    (field_advance s1).it.length < s.it.length := by
  have hpos : 0 < s.it.length := List.length_pos.mpr (field_cond_ne_nil s h)
  have hd : s1.done = false := by
    rw [← field_advance_done]; exact field_cond_done _ h1
  rcases field_switch_cases s s1 hs with hc | ⟨_, hit⟩
  · rw [hd] at hc; cases hc
  · unfold field_advance
    have hne : s1.it ≠ [] := by rw [hit]; exact field_cond_ne_nil s h
    rw [if_pos (by simp [hd, hne])]
    simp only [List.length_tail, hit]
    omega

theorem field_step_suffix (s s1 : field_state) (hs : field_switch s = some s1) :
    (field_advance s1).it <:+ s.it :=
  (field_advance_suffix s1).trans (field_switch_suffix s s1 hs)

theorem field_loop_total (fuel : Nat) (s : field_state) (h : s.it.length < fuel) :
    ∃ r, field_loop fuel s = some r := by
  induction fuel generalizing s with
  | zero => omega
  | succ n ih =>
    unfold field_loop
    by_cases hc : field_cond s = true
    · rw [if_pos hc]
      obtain ⟨s1, hs1⟩ := field_switch_total s
      rw [hs1]
      by_cases hc1 : field_cond (field_advance s1) = true
      · exact ih _ (by have := field_step_lt s s1 hc hs1 hc1; omega)
      · have hpos : 0 < s.it.length := List.length_pos.mpr (field_cond_ne_nil s hc)
        obtain ⟨m, rfl⟩ : ∃ m, n = m + 1 := ⟨n - 1, by omega⟩
        unfold field_loop
        rw [if_neg hc1]
        exact ⟨_, rfl⟩
    · rw [if_neg hc]
      exact ⟨_, rfl⟩

theorem field_loop_mono (n : Nat) (s r : field_state) (h : field_loop n s = some r) :
    field_loop (n + 1) s = some r := by
  induction n generalizing s with
  | zero => simp [field_loop] at h
  | succ n ih =>
    unfold field_loop at h ⊢
    by_cases hc : field_cond s = true
    · rw [if_pos hc] at h ⊢
      obtain ⟨s1, hs1⟩ := field_switch_total s
      rw [hs1] at h ⊢
      exact ih _ h
    · rw [if_neg hc] at h ⊢
      exact h

theorem field_loop_mono_le (n m : Nat) (s r : field_state) (hnm : n ≤ m)
    (h : field_loop n s = some r) : field_loop m s = some r := by
  induction hnm with
  | refl => exact h
  | step _ ih => exact field_loop_mono _ _ _ ih

theorem field_run_total (s : field_state) : ∃ r, field_run s = some r :=
  field_loop_total _ s (by omega)

theorem field_loop_eq_run (fuel : Nat) (s : field_state) (h : s.it.length < fuel) :
    field_loop fuel s = field_run s := by
  obtain ⟨r, hr⟩ := field_run_total s
  rw [hr]
  exact field_loop_mono_le _ _ _ _ (by omega) hr

/-- Unfolding one iteration of the loop of `parse_field`. -/
theorem field_run_step (s s1 : field_state) (h : field_cond s = true)
    (hs : field_switch s = some s1) : field_run s = field_run (field_advance s1) := by
  have hpos : 0 < s.it.length := List.length_pos.mpr (field_cond_ne_nil s h)
  obtain ⟨m, hm⟩ : ∃ m, s.it.length = m + 1 := ⟨s.it.length - 1, by omega⟩
  have e1 : field_run s = field_loop (s.it.length) (field_advance s1) := by
    unfold field_run
    rw [field_loop, if_pos h, hs]
  by_cases hc1 : field_cond (field_advance s1) = true
  · rw [e1]
    exact field_loop_eq_run _ _ (field_step_lt s s1 h hs hc1)
  · rw [e1, hm]
    unfold field_run
    rw [field_loop, if_neg hc1, field_loop, if_neg hc1]

theorem field_run_exit (s : field_state) (h : field_cond s = false) :
    field_run s = some s := by
  unfold field_run
  rw [field_loop, if_neg (by simp [h])]

theorem field_loop_suffix (fuel : Nat) (s r : field_state) (h : field_loop fuel s = some r) :
    r.it <:+ s.it := by
  induction fuel generalizing s with
  | zero => simp [field_loop] at h
  | succ n ih =>
    unfold field_loop at h
    by_cases hc : field_cond s = true
    · rw [if_pos hc] at h
      obtain ⟨s1, hs1⟩ := field_switch_total s
      rw [hs1] at h
      exact (ih _ h).trans (field_step_suffix s s1 hs1)
    · rw [if_neg hc] at h
      cases h
      exact List.suffix_refl _

/-! ## `parse_field` returns and consumes input -/

theorem parse_field_total (it : List Char) (outff : basic_formatterfield)
    (default_fs : format_specification) : ∃ r, parse_field it outff default_fs = some r := by
  obtain ⟨r, hr⟩ := field_run_total (field_init it outff)
  exact ⟨field_finish default_fs r, by simp [parse_field, hr]⟩

/-- A call of `parse_field` on a non-empty input consumes at least one character. -/
theorem parse_field_lt (it : List Char) (outff : basic_formatterfield)
    (default_fs : format_specification) (r : field_result)
    (h : parse_field it outff default_fs = some r) (hne : it ≠ []) :
    r.it.length < it.length := by
  simp only [parse_field, Option.map_eq_some'] at h
  obtain ⟨s, hs, rfl⟩ := h
  have hc : field_cond (field_init it outff) = true := by
    simp [field_cond, field_init, hne]
  obtain ⟨s1, hs1⟩ := field_switch_total (field_init it outff)
  rw [field_run_step _ _ hc hs1] at hs
  have hsuf := field_loop_suffix _ _ _ hs
  have h1 : s1 = { field_init it outff with status := field_status.inField } ∨
      s1 = { field_init it outff with
        outff := { (field_init it outff).outff with
          text := (field_init it outff).outff.text ++ [deref it] } } := by
    simp only [field_switch, field_init] at hs1
    split_ifs at hs1
    · left; cases hs1; rfl
    · right; cases hs1; rfl
  have h2 : (field_advance s1).it = it.tail := by
    rcases h1 with e | e <;> rw [e] <;> simp [field_advance, field_init, hne]
  have hpos : 0 < it.length := List.length_pos.mpr hne
  have := hsuf.length_le
  rw [h2, List.length_tail] at this
  show s.it.length < it.length
  simp only [field_finish] at *
  omega

/-! ## `parse_format` returns -/

theorem format_loop_total (default_fs : format_specification) (fuel : Nat) (it : List Char)
    (ok : Bool) (ffv : FormatFieldVector) (h : it.length < fuel) :
    ∃ r, format_loop default_fs fuel it ok ffv = some r := by
  induction fuel generalizing it ok ffv with
  | zero => omega
  | succ n ih =>
    unfold format_loop
    split_ifs with hc
    · obtain ⟨r, hr⟩ := parse_field_total it basic_formatterfield.default default_fs
      rw [hr]
      have hne : it ≠ [] := by
        intro e
        simp [e] at hc
      have := parse_field_lt _ _ _ _ hr hne
      exact ih _ _ _ (by omega)
    · exact ⟨_, rfl⟩

/-- Parsing returns a result for every format string and every default specification. -/
theorem parse_format_total (fs : List Char) (ffv : FormatFieldVector)
    (default_fs : format_specification) : ∃ r, parse_format fs ffv default_fs = some r :=
  format_loop_total default_fs _ fs true ffv (by omega)

theorem format_loop_mono (default_fs : format_specification) (n : Nat) (it : List Char)
    (ok : Bool) (ffv : FormatFieldVector) (r : Bool × FormatFieldVector)
    (h : format_loop default_fs n it ok ffv = some r) :
    format_loop default_fs (n + 1) it ok ffv = some r := by
  induction n generalizing it ok ffv with
  | zero => simp [format_loop] at h
  | succ n ih =>
    unfold format_loop at h ⊢
    split_ifs at h ⊢ with hc
    · obtain ⟨r1, hr1⟩ := parse_field_total it basic_formatterfield.default default_fs
      rw [hr1] at h ⊢
      exact ih _ _ _ h
    · exact h

theorem format_loop_mono_le (default_fs : format_specification) (n m : Nat) (it : List Char)
    (ok : Bool) (ffv : FormatFieldVector) (r : Bool × FormatFieldVector) (hnm : n ≤ m)
    (h : format_loop default_fs n it ok ffv = some r) :
    format_loop default_fs m it ok ffv = some r := by
  induction hnm with
  | refl => exact h
  | step _ ih => exact format_loop_mono _ _ _ _ _ _ ih

theorem format_loop_eq_run (default_fs : format_specification) (fuel : Nat) (it : List Char)
    (ok : Bool) (ffv : FormatFieldVector) (h : it.length < fuel) :
    format_loop default_fs fuel it ok ffv = format_run default_fs it ok ffv := by
  obtain ⟨r, hr⟩ := format_loop_total default_fs (it.length + 1) it ok ffv (by omega)
  unfold format_run
  rw [hr]
  exact format_loop_mono_le _ _ _ _ _ _ _ (by omega) hr

/-- Unfolding one iteration of the loop of `parse_format`. -/
theorem format_run_step (default_fs : format_specification) (it : List Char)
    (ffv : FormatFieldVector) (r : field_result) (hne : it ≠ [])
    (h : parse_field it basic_formatterfield.default default_fs = some r) :
    format_run default_fs it true ffv =
      format_run default_fs r.it r.ok (if r.ok then ffv ++ [r.outff] else ffv) := by
  have e1 : format_run default_fs it true ffv =
      format_loop default_fs it.length r.it r.ok (if r.ok then ffv ++ [r.outff] else ffv) := by
    unfold format_run
    rw [format_loop, if_pos (by simp [hne]), h]
  rw [e1]
  exact format_loop_eq_run _ _ _ _ _ (parse_field_lt _ _ _ _ h hne)

/-- Leaving the loop of `parse_format`. -/
theorem format_run_exit (default_fs : format_specification) (it : List Char) (ok : Bool)
    (ffv : FormatFieldVector) (h : it = [] ∨ ok = false) :
    format_run default_fs it ok ffv = some (ok, ffv) := by
  unfold format_run
  rw [format_loop, if_neg]
  rcases h with h | h <;> simp [h]

/-! ## Decimal digits -/

theorem toDigitsCore_append (n : Nat) : ∀ fuel, n < fuel → ∀ ds : List Char,
    Nat.toDigitsCore 10 fuel n ds = Nat.toDigits 10 n ++ ds := by
  induction n using Nat.strong_induction_on with
  | _ n ih =>
    intro fuel hf ds
    obtain ⟨f, rfl⟩ : ∃ f, fuel = f + 1 := ⟨fuel - 1, by omega⟩
    unfold Nat.toDigits
    rw [Nat.toDigitsCore, Nat.toDigitsCore]
    by_cases h0 : n / 10 = 0
    · simp [h0]
    · simp only [h0, if_false]
      have hlt : n / 10 < n := Nat.div_lt_self (by omega) (by norm_num)
      rw [ih (n / 10) hlt f (by omega), ih (n / 10) hlt n hlt]
      simp

/-- The decimal digits of `n`: those of `n / 10` followed by the last digit. -/
theorem toDigits_step (n : Nat) (h : 10 ≤ n) :
    Nat.toDigits 10 n = Nat.toDigits 10 (n / 10) ++ [Nat.digitChar (n % 10)] := by
  have h0 : n / 10 ≠ 0 := by omega
  have hlt : n / 10 < n := Nat.div_lt_self (by omega) (by norm_num)
  conv_lhs => unfold Nat.toDigits
  rw [Nat.toDigitsCore]
  simp only [h0, if_false]
  exact toDigitsCore_append _ _ hlt _

theorem toDigits_small (n : Nat) (h : n < 10) : Nat.toDigits 10 n = [Nat.digitChar n] := by
  have h0 : n / 10 = 0 := by omega
  have h1 : n % 10 = n := by omega
  unfold Nat.toDigits
  rw [Nat.toDigitsCore]
  simp [h0, h1]

theorem digitChar_isdigit (k : Nat) (h : k < 10) : isdigit (Nat.digitChar k) = true := by
  interval_cases k <;> decide

theorem digitChar_value (k : Nat) (h : k < 10) : digit_value (Nat.digitChar k) = (k : Int) := by
  interval_cases k <;> decide

theorem digitChar_ne_zero (k : Nat) (h : k < 10) (h1 : 1 ≤ k) : Nat.digitChar k ≠ '0' := by
  interval_cases k <;> decide

/-- Every character of a decimal numeral is a digit. -/
theorem toDigits_isdigit (n : Nat) : ∀ c ∈ Nat.toDigits 10 n, isdigit c = true := by
  induction n using Nat.strong_induction_on with
  | _ n ih =>
    by_cases h : n < 10
    · rw [toDigits_small n h]
      intro c hc
      simp only [List.mem_singleton] at hc
      rw [hc]
      exact digitChar_isdigit n h
    · rw [toDigits_step n (by omega)]
      intro c hc
      rw [List.mem_append] at hc
      rcases hc with hc | hc
      · exact ih (n / 10) (Nat.div_lt_self (by omega) (by norm_num)) c hc
      · simp only [List.mem_singleton] at hc
        rw [hc]
        exact digitChar_isdigit _ (Nat.mod_lt _ (by norm_num))

theorem acc_digits_append (a : Int) (xs ys : List Char) :
    acc_digits a (xs ++ ys) = acc_digits (acc_digits a xs) ys := by
  simp [acc_digits, List.foldl_append]

/-- Accumulating the digits of the decimal numeral of `n` from zero gives `n`. -/
theorem acc_digits_toDigits (n : Nat) : acc_digits 0 (Nat.toDigits 10 n) = (n : Int) := by
  induction n using Nat.strong_induction_on with
  | _ n ih =>
    by_cases h : n < 10
    · rw [toDigits_small n h]
      simp [acc_digits, digitChar_value n h]
    · rw [toDigits_step n (by omega), acc_digits_append,
        ih (n / 10) (Nat.div_lt_self (by omega) (by norm_num))]
      simp only [acc_digits, List.foldl_cons, List.foldl_nil]
      rw [digitChar_value _ (Nat.mod_lt _ (by norm_num))]
      omega

/-- The decimal numeral of a positive number starts with a nonzero digit. -/
theorem toDigits_head (n : Nat) (h1 : 1 ≤ n) :
    ∃ c cs, Nat.toDigits 10 n = c :: cs ∧ c ≠ '0' := by
  induction n using Nat.strong_induction_on with
  | _ n ih =>
    by_cases h : n < 10
    · exact ⟨_, [], toDigits_small n h, digitChar_ne_zero n h h1⟩
    · obtain ⟨c, cs, e, hc⟩ := ih (n / 10) (Nat.div_lt_self (by omega) (by norm_num))
        (by omega)
      exact ⟨c, cs ++ [Nat.digitChar (n % 10)], by rw [toDigits_step n (by omega), e]; rfl, hc⟩

/-! ## Running `parse_format_specification` on digits and a type letter -/

/-- Width digits met in state `inWidth` accumulate into the width. -/
theorem spec_run_width (ds : List Char) (hd : ∀ c ∈ ds, isdigit c = true) :
    ∀ (rest : List Char) (ws ps : Bool) (fl : format_flags) (w p : Int) (fc : Char),
    spec_run ⟨ds ++ rest, true, false, ws, ps, ⟨fl, w, p⟩, fc, spec_status.inWidth⟩ =
      spec_run ⟨rest, true, false, ws || !ds.isEmpty, ps, ⟨fl, acc_digits w ds, p⟩, fc,
        spec_status.inWidth⟩ := by
  induction ds with
  | nil => intro rest ws ps fl w p fc; simp [acc_digits]
  | cons c ds ih =>
    intro rest ws ps fl w p fc
    have hc : isdigit c = true := hd c (List.mem_cons_self _ _)
    rw [spec_run_step _ (by simp [spec_cond])]
    have e : spec_advance (spec_switch ⟨c :: ds ++ rest, true, false, ws, ps, ⟨fl, w, p⟩, fc,
        spec_status.inWidth⟩) =
        ⟨ds ++ rest, true, false, true, ps, ⟨fl, w * 10 + digit_value c, p⟩, fc,
          spec_status.inWidth⟩ := by
      simp [spec_switch, case_inWidth, spec_advance, deref, hc]
    rw [e, ih (fun x hx => hd x (List.mem_cons_of_mem _ hx))]
    simp [acc_digits]

/-- Precision digits met in state `inPrecision` accumulate into the precision. -/
theorem spec_run_precision (ds : List Char) (hd : ∀ c ∈ ds, isdigit c = true) :
    ∀ (rest : List Char) (ws ps : Bool) (fl : format_flags) (w p : Int) (fc : Char),
    spec_run ⟨ds ++ rest, true, false, ws, ps, ⟨fl, w, p⟩, fc, spec_status.inPrecision⟩ =
      spec_run ⟨rest, true, false, ws, ps || !ds.isEmpty, ⟨fl, w, acc_digits p ds⟩, fc,
        spec_status.inPrecision⟩ := by
  induction ds with
  | nil => intro rest ws ps fl w p fc; simp [acc_digits]
  | cons c ds ih =>
    intro rest ws ps fl w p fc
    have hc : isdigit c = true := hd c (List.mem_cons_self _ _)
    rw [spec_run_step _ (by simp [spec_cond])]
    have e : spec_advance (spec_switch ⟨c :: ds ++ rest, true, false, ws, ps, ⟨fl, w, p⟩, fc,
        spec_status.inPrecision⟩) =
        ⟨ds ++ rest, true, false, ws, true, ⟨fl, w, p * 10 + digit_value c⟩, fc,
          spec_status.inPrecision⟩ := by
      simp [spec_switch, case_inPrecision, spec_advance, deref, hc]
    rw [e, ih (fun x hx => hd x (List.mem_cons_of_mem _ hx))]
    simp [acc_digits]

/-- A first width digit other than `0`, met in state `inFlags`, starts the width. -/
theorem spec_run_first_digit (c : Char) (hc : isdigit c = true) (h0 : c ≠ '0')
    (rest : List Char) (ws ps : Bool) (fl : format_flags) (w p : Int) (fc : Char) :
    spec_run ⟨c :: rest, true, false, ws, ps, ⟨fl, w, p⟩, fc, spec_status.inFlags⟩ =
      spec_run ⟨rest, true, false, true, ps, ⟨fl, w * 10 + digit_value c, p⟩, fc,
        spec_status.inWidth⟩ := by
  rw [spec_run_step _ (by simp [spec_cond])]
  have e : spec_advance (spec_switch ⟨c :: rest, true, false, ws, ps, ⟨fl, w, p⟩, fc,
      spec_status.inFlags⟩) =
      ⟨rest, true, false, true, ps, ⟨fl, w * 10 + digit_value c, p⟩, fc,
        spec_status.inWidth⟩ := by
    simp [spec_switch, case_inFlags, case_inWidth, spec_advance, deref, hc, Ne.symm h0]
  rw [e]

/-- A `.` met in state `inWidth` and followed by a digit: the `.` sets `showpoint` and is
skipped, and the digit is read as the first precision digit in the same iteration. -/
theorem spec_run_dot_digit (c : Char) (hc : isdigit c = true)
    (rest : List Char) (ws ps : Bool) (fl : format_flags) (w p : Int) (fc : Char) :
    spec_run ⟨'.' :: c :: rest, true, false, ws, ps, ⟨fl, w, p⟩, fc, spec_status.inWidth⟩ =
      spec_run ⟨rest, true, false, ws, true,
        ⟨or_assign fl showpoint, w, p * 10 + digit_value c⟩, fc,
        spec_status.inPrecision⟩ := by
  rw [spec_run_step _ (by simp [spec_cond])]
  have e : spec_advance (spec_switch ⟨'.' :: c :: rest, true, false, ws, ps, ⟨fl, w, p⟩, fc,
      spec_status.inWidth⟩) =
      ⟨rest, true, false, ws, true, ⟨or_assign fl showpoint, w, p * 10 + digit_value c⟩, fc,
        spec_status.inPrecision⟩ := by
    have hd : isdigit '.' = false := by decide
    simp [spec_switch, case_inWidth, case_inPrecision, spec_advance, deref, hc, hd]
  rw [e]

theorem isTypeLetter_cases (t : Char) (h : isTypeLetter t = true) :
    t ∈ ['c', 'd', 'i', 'o', 'u', 'x', 'X', 'e', 'E', 'f', 'g', 'G', 'p', 's'] := by
  simp only [isTypeLetter, Bool.or_eq_true, beq_iff_eq] at h
  simp only [List.mem_cons, List.mem_singleton, List.not_mem_nil, or_false]
  tauto

/-- What the character tests of the parser answer on a type letter. -/
theorem typeLetter_facts (t : Char) (h : isTypeLetter t = true) :
    isFormatType t = true ∧ isdigit t = false ∧ t ≠ '0' ∧ t ≠ blank ∧ t ≠ '.' ∧ t ≠ '%' ∧
      format_flag_from_char t ≠ Fmtzero ∧ is right (format_flag_from_char t) = true ∧
      is left (format_flag_from_char t) = false := by
  have key : ∀ c ∈ ['c', 'd', 'i', 'o', 'u', 'x', 'X', 'e', 'E', 'f', 'g', 'G', 'p', 's'],
      isFormatType c = true ∧ isdigit c = false ∧ c ≠ '0' ∧ c ≠ blank ∧ c ≠ '.' ∧ c ≠ '%' ∧
      format_flag_from_char c ≠ Fmtzero ∧ is right (format_flag_from_char c) = true ∧
      is left (format_flag_from_char c) = false := by
    decide
  exact key t (isTypeLetter_cases t h)

/-- A type letter that ends the input, met in state `inWidth`, `inPrecision` or `inFlags`:
its flags are merged into the field and the loop ends with `ok`. -/
theorem spec_run_type_end (t : Char) (ht : isTypeLetter t = true) (st : spec_status)
    (ws ps : Bool) (fl : format_flags) (w p : Int) (fc : Char) :
    spec_run ⟨[t], true, false, ws, ps, ⟨fl, w, p⟩, fc, st⟩ =
      some ⟨[], true, false, ws, ps, ⟨or_assign fl (format_flag_from_char t), w, p⟩, fc,
        spec_status.inType⟩ := by
  obtain ⟨h1, h2, h3, h4, h5, h6, h7, _, _⟩ := typeLetter_facts t ht
  rw [spec_run_step _ (by simp [spec_cond])]
  have e : spec_advance (spec_switch ⟨[t], true, false, ws, ps, ⟨fl, w, p⟩, fc, st⟩) =
      ⟨[], true, false, ws, ps, ⟨or_assign fl (format_flag_from_char t), w, p⟩, fc,
        spec_status.inType⟩ := by
    cases st <;>
      simp [spec_switch, case_inFlags, case_inWidth, case_inPrecision, case_inType,
        spec_advance, deref, h1, h2, Ne.symm h3, Ne.symm h4, Ne.symm h5, Ne.symm h7]
  rw [e]
  exact spec_run_exit _ (by simp [spec_cond])

/-! ## Running `parse_field` on literal text and one field specification -/

/-- Literal text without `%` is appended to the text of the field, character by character. -/
theorem field_run_text (txt : List Char) (ht : ∀ c ∈ txt, c ≠ '%') :
    ∀ (rest : List Char) (ws ps : Bool) (ff : basic_formatterfield),
    field_run ⟨txt ++ rest, true, false, ws, ps, ff, field_status.inText⟩ =
      field_run ⟨rest, true, false, ws, ps, { ff with text := ff.text ++ txt },
        field_status.inText⟩ := by
  induction txt with
  | nil => intro rest ws ps ff; simp
  | cons c txt ih =>
    intro rest ws ps ff
    have hc : c ≠ '%' := ht c (List.mem_cons_self _ _)
    have e : field_switch ⟨c :: txt ++ rest, true, false, ws, ps, ff, field_status.inText⟩ =
        some ⟨c :: txt ++ rest, true, false, ws, ps, { ff with text := ff.text ++ [c] },
          field_status.inText⟩ := by
      simp [field_switch, deref, Ne.symm hc]
    rw [field_run_step _ _ (by simp [field_cond]) e]
    have e2 : field_advance ⟨c :: txt ++ rest, true, false, ws, ps,
        { ff with text := ff.text ++ [c] }, field_status.inText⟩ =
        ⟨txt ++ rest, true, false, ws, ps, { ff with text := ff.text ++ [c] },
          field_status.inText⟩ := by
      simp [field_advance]
    rw [e2, ih (fun x hx => ht x (List.mem_cons_of_mem _ hx))]
    simp

/-- A field made of literal text without `%`, a `%`, and a specification that does not
start with `%`: `parse_field` returns what `parse_format_specification` returns on the
specification, with the literal text as the text of the field. -/
theorem parse_field_text_spec (txt : List Char) (ht : ∀ c ∈ txt, c ≠ '%') (c : Char)
    (sp : List Char) (hc : c ≠ '%') (D : format_specification) (r : spec_result)
    (hr : parse_format_specification (c :: sp) format_specification.default blank = some r) :
    parse_field (txt ++ '%' :: c :: sp) basic_formatterfield.default D =
      some (field_finish D ⟨r.it, r.ok, true, r.widthset, r.precset,
        { toformat_specification := r.outfs, text := txt, fill := r.fillchar },
        field_status.inField⟩) := by
  unfold parse_field
  have e0 : field_init (txt ++ '%' :: c :: sp) basic_formatterfield.default =
      ⟨txt ++ '%' :: c :: sp, true, false, false, false,
        { toformat_specification := format_specification.default, text := [], fill := blank },
        field_status.inText⟩ := rfl
  rw [e0, field_run_text txt ht]
  have e1 : field_switch ⟨'%' :: c :: sp, true, false, false, false,
      { toformat_specification := format_specification.default, text := [] ++ txt,
        fill := blank }, field_status.inText⟩ =
      some ⟨'%' :: c :: sp, true, false, false, false,
        { toformat_specification := format_specification.default, text := txt,
          fill := blank }, field_status.inField⟩ := by
    simp [field_switch, deref]
  rw [field_run_step _ _ (by simp [field_cond]) e1]
  have e2 : field_advance ⟨'%' :: c :: sp, true, false, false, false,
      { toformat_specification := format_specification.default, text := txt,
        fill := blank }, field_status.inField⟩ =
      ⟨c :: sp, true, false, false, false,
        { toformat_specification := format_specification.default, text := txt,
          fill := blank }, field_status.inField⟩ := by
    simp [field_advance]
  rw [e2]
  have e3 : field_switch ⟨c :: sp, true, false, false, false,
      { toformat_specification := format_specification.default, text := txt,
        fill := blank }, field_status.inField⟩ =
      some ⟨r.it, r.ok, true, r.widthset, r.precset,
        { toformat_specification := r.outfs, text := txt, fill := r.fillchar },
        field_status.inField⟩ := by
    simp [field_switch, deref, Ne.symm hc, hr]
  rw [field_run_step _ _ (by simp [field_cond]) e3]
  have e4 : field_advance ⟨r.it, r.ok, true, r.widthset, r.precset,
      { toformat_specification := r.outfs, text := txt, fill := r.fillchar },
      field_status.inField⟩ =
      ⟨r.it, r.ok, true, r.widthset, r.precset,
        { toformat_specification := r.outfs, text := txt, fill := r.fillchar },
        field_status.inField⟩ := by
    simp [field_advance]
  rw [e4, field_run_exit _ (by simp [field_cond])]
  rfl

/-- A format string that `parse_field` consumes whole and accepts yields that one field. -/
theorem parse_format_single (s : List Char) (hne : s ≠ []) (D : format_specification)
    (ff : basic_formatterfield)
    (h : parse_field s basic_formatterfield.default D = some ⟨true, [], ff⟩) :
    parse_format s [] D = some (true, [ff]) := by
  unfold parse_format
  rw [format_run_step D s [] _ hne h]
  simp [format_run_exit]

/-! ## Input without digit characters never sets `widthset` or `precset` -/

theorem deref_nodigit (l : List Char) (h : ∀ c ∈ l, isdigit c = false) :
    isdigit (deref l) = false := by
  cases l with
  | nil => decide
  | cons a l => exact h a (List.mem_cons_self _ _)

theorem case_inType_sets (s : spec_state) :
    (case_inType s).widthset = s.widthset ∧ (case_inType s).precset = s.precset := by
  simp only [case_inType]
  split_ifs <;> exact ⟨rfl, rfl⟩

theorem case_inPrecision_sets (s : spec_state) (h : isdigit (deref s.it) = false) :
    (case_inPrecision s).widthset = s.widthset ∧ (case_inPrecision s).precset = s.precset := by
  simp only [case_inPrecision, h, Bool.false_eq_true, if_false]
  split_ifs <;> exact case_inType_sets _

theorem case_inWidth_sets (s : spec_state) (h : isdigit (deref s.it) = false)
    (h2 : isdigit (deref s.it.tail) = false) :
    (case_inWidth s).widthset = s.widthset ∧ (case_inWidth s).precset = s.precset := by
  simp only [case_inWidth, h, Bool.false_eq_true, if_false]
  split_ifs <;>
    first
    | exact ⟨rfl, rfl⟩
    | (refine case_inPrecision_sets _ ?_; first | exact h | exact h2)

theorem case_inFlags_sets (s : spec_state) (h : isdigit (deref s.it) = false)
    (h2 : isdigit (deref s.it.tail) = false) :
    (case_inFlags s).widthset = s.widthset ∧ (case_inFlags s).precset = s.precset := by
  simp only [case_inFlags, h, Bool.false_eq_true, if_false]
  split_ifs <;>
    first
    | exact ⟨rfl, rfl⟩
    | (refine case_inWidth_sets _ ?_ ?_ <;> first | exact h | exact h2)

theorem spec_switch_sets (s : spec_state) (h : ∀ c ∈ s.it, isdigit c = false) :
    (spec_switch s).widthset = s.widthset ∧ (spec_switch s).precset = s.precset := by
  have h1 := deref_nodigit s.it h
  have h2 := deref_nodigit s.it.tail (fun c hc => h c (List.mem_of_mem_tail hc))
  unfold spec_switch
  split
  · exact case_inFlags_sets s h1 h2
  · exact case_inWidth_sets s h1 h2
  · exact case_inPrecision_sets s h1
  · exact case_inType_sets s

theorem spec_advance_sets (s : spec_state) :
    (spec_advance s).widthset = s.widthset ∧ (spec_advance s).precset = s.precset := by
  unfold spec_advance
  split_ifs <;> exact ⟨rfl, rfl⟩

theorem spec_loop_sets (fuel : Nat) (s r : spec_state) (h : ∀ c ∈ s.it, isdigit c = false)
    (hr : spec_loop fuel s = some r) : r.widthset = s.widthset ∧ r.precset = s.precset := by
  induction fuel generalizing s with
  | zero => simp [spec_loop] at hr
  | succ n ih =>
    unfold spec_loop at hr
    by_cases hc : spec_cond s = true
    · rw [if_pos hc] at hr
      have hsuf := spec_step_suffix s
      have := ih _ (fun c hc => h c (hsuf.subset hc)) hr
      rw [this.1, this.2, (spec_advance_sets _).1, (spec_advance_sets _).2]
      exact spec_switch_sets s h
    · rw [if_neg hc] at hr
      cases hr
      exact ⟨rfl, rfl⟩

theorem parse_format_specification_sets (it : List Char) (outfs : format_specification)
    (fillchar : Char) (r : spec_result) (h : ∀ c ∈ it, isdigit c = false)
    (hr : parse_format_specification it outfs fillchar = some r) :
    r.widthset = false ∧ r.precset = false := by
  simp only [parse_format_specification, Option.map_eq_some'] at hr
  obtain ⟨s, hs, rfl⟩ := hr
  have := spec_loop_sets _ _ _ h hs
  simp only [spec_finish]
  split_ifs <;> exact this

theorem field_switch_sets (s s1 : field_state) (h : ∀ c ∈ s.it, isdigit c = false)
    (hw : s.widthset = false) (hp : s.precset = false) (hs : field_switch s = some s1) :
    s1.widthset = false ∧ s1.precset = false := by
  unfold field_switch at hs
  split at hs
  · split_ifs at hs <;> cases hs <;> exact ⟨hw, hp⟩
  · split_ifs at hs
    · cases hs; exact ⟨hw, hp⟩
    · simp only [Option.map_eq_some'] at hs
      obtain ⟨r, hr, rfl⟩ := hs
      exact parse_format_specification_sets _ _ _ _ h hr

theorem field_advance_sets (s : field_state) :
    (field_advance s).widthset = s.widthset ∧ (field_advance s).precset = s.precset := by
  unfold field_advance
  split_ifs <;> exact ⟨rfl, rfl⟩

theorem field_loop_sets (fuel : Nat) (s r : field_state) (h : ∀ c ∈ s.it, isdigit c = false)
    (hw : s.widthset = false) (hp : s.precset = false) (hr : field_loop fuel s = some r) :
    r.widthset = false ∧ r.precset = false := by
  induction fuel generalizing s with
  | zero => simp [field_loop] at hr
  | succ n ih =>
    unfold field_loop at hr
    by_cases hc : field_cond s = true
    · rw [if_pos hc] at hr
      obtain ⟨s1, hs1⟩ := field_switch_total s
      rw [hs1] at hr
      have hsuf := field_step_suffix s s1 hs1
      have h1 := field_switch_sets s s1 h hw hp hs1
      exact ih _ (fun c hc => h c (hsuf.subset hc))
        (by rw [(field_advance_sets _).1]; exact h1.1)
        (by rw [(field_advance_sets _).2]; exact h1.2) hr
    · rw [if_neg hc] at hr
      cases hr
      exact ⟨hw, hp⟩

/-- On input without digit characters `parse_field` leaves the default width and
precision in the field, and its iterator on a suffix of the input. -/
theorem parse_field_nodigit (it : List Char) (outff : basic_formatterfield)
    (D : format_specification) (r : field_result) (h : ∀ c ∈ it, isdigit c = false)
    (hr : parse_field it outff D = some r) :
    r.outff.width = D.width ∧ r.outff.precision = D.precision ∧ r.it <:+ it := by
  simp only [parse_field, Option.map_eq_some'] at hr
  obtain ⟨s, hs, rfl⟩ := hr
  have h1 := field_loop_sets _ _ _ h rfl rfl hs
  have h2 := field_loop_suffix _ _ _ hs
  simp [field_finish, h1.1, h1.2]
  exact h2

theorem format_loop_nodigit (D : format_specification) (fuel : Nat) (it : List Char)
    (ok : Bool) (ffv : FormatFieldVector) (r : Bool × FormatFieldVector)
    (h : ∀ c ∈ it, isdigit c = false)
    (hv : ∀ ff ∈ ffv, ff.width = D.width ∧ ff.precision = D.precision)
    (hr : format_loop D fuel it ok ffv = some r) :
    ∀ ff ∈ r.2, ff.width = D.width ∧ ff.precision = D.precision := by
  induction fuel generalizing it ok ffv with
  | zero => simp [format_loop] at hr
  | succ n ih =>
    unfold format_loop at hr
    split_ifs at hr with hc
    · obtain ⟨r1, hr1⟩ := parse_field_total it basic_formatterfield.default D
      rw [hr1] at hr
      obtain ⟨hw, hp, hsuf⟩ := parse_field_nodigit _ _ _ _ h hr1
      refine ih _ _ _ (fun c hc => h c (hsuf.subset hc)) ?_ hr
      intro ff hff
      split_ifs at hff
      · rw [List.mem_append, List.mem_singleton] at hff
        rcases hff with hff | hff
        · exact hv ff hff
        · rw [hff]; exact ⟨hw, hp⟩
      · exact hv ff hff
    · cases hr
      exact hv

/-! ## The parser: width, precision and defaults -/

/-- The specification `<W>.<P>t` for decimal numerals `W` (first digit not `0`) and `P`
and a type letter `t`. -/
theorem spec_width_precision (c : Char) (cs : List Char) (c2 : Char) (cs2 : List Char)
    (t : Char) (hc : isdigit c = true) (h0 : c ≠ '0') (hcs : ∀ x ∈ cs, isdigit x = true)
    (hc2 : isdigit c2 = true) (hcs2 : ∀ x ∈ cs2, isdigit x = true)
    (ht : isTypeLetter t = true) (fc : Char) :
    spec_run (spec_init (c :: (cs ++ '.' :: c2 :: (cs2 ++ [t]))) fc) =
      some ⟨[], true, false, true, true,
        ⟨or_assign (or_assign Fmtzero showpoint) (format_flag_from_char t),
          acc_digits 0 (c :: cs), acc_digits 0 (c2 :: cs2)⟩, fc, spec_status.inType⟩ := by
  have e0 : spec_init (c :: (cs ++ '.' :: c2 :: (cs2 ++ [t]))) fc =
      ⟨c :: (cs ++ '.' :: c2 :: (cs2 ++ [t])), true, false, false, false, ⟨Fmtzero, 0, 0⟩, fc,
        spec_status.inFlags⟩ := rfl
  rw [e0, spec_run_first_digit c hc h0, spec_run_width cs hcs, spec_run_dot_digit c2 hc2,
    spec_run_precision cs2 hcs2, spec_run_type_end t ht]
  simp [acc_digits]

/-- C8: for all `W ≥ 1` and `P ≥ 1`, parsing `%W.Pf` (both numbers written in decimal)
succeeds and yields exactly one field, whose width is `W` and whose precision is `P`. -/
theorem parse_width_precision (W P : Nat) (hW : 1 ≤ W) (hP : 1 ≤ P)
    (D : format_specification) :
    ∃ ff, parse_format ('%' :: (Nat.toDigits 10 W ++ '.' :: (Nat.toDigits 10 P ++ ['f']))) [] D
        = some (true, [ff]) ∧ ff.width = (W : Int) ∧ ff.precision = (P : Int) := by
  obtain ⟨c, cs, eW, h0⟩ := toDigits_head W hW
  obtain ⟨c2, cs2, eP, _⟩ := toDigits_head P hP
  have hWd := toDigits_isdigit W
  have hPd := toDigits_isdigit P
  have vW := acc_digits_toDigits W
  have vP := acc_digits_toDigits P
  rw [eW] at hWd vW ⊢
  rw [eP] at hPd vP ⊢
  have hc : isdigit c = true := hWd c (List.mem_cons_self _ _)
  have hcs : ∀ x ∈ cs, isdigit x = true := fun x hx => hWd x (List.mem_cons_of_mem _ hx)
  have hc2 : isdigit c2 = true := hPd c2 (List.mem_cons_self _ _)
  have hcs2 : ∀ x ∈ cs2, isdigit x = true := fun x hx => hPd x (List.mem_cons_of_mem _ hx)
  have hne : c ≠ '%' := by
    intro e
    rw [e] at hc
    exact absurd hc (by decide)
  have hspec := spec_width_precision c cs c2 cs2 'f' hc h0 hcs hc2 hcs2 (by decide) blank
  have hr : parse_format_specification (c :: (cs ++ '.' :: c2 :: (cs2 ++ ['f'])))
      format_specification.default blank = some (spec_finish format_specification.default
        ⟨[], true, false, true, true,
          ⟨or_assign (or_assign Fmtzero showpoint) (format_flag_from_char 'f'),
            acc_digits 0 (c :: cs), acc_digits 0 (c2 :: cs2)⟩, blank, spec_status.inType⟩) := by
    simp [parse_format_specification, hspec]
  have hf := parse_field_text_spec [] (by simp) c (cs ++ '.' :: c2 :: (cs2 ++ ['f'])) hne D _ hr
  have hW0 : (W : Int) ≠ 0 := by omega
  have hP0 : (P : Int) ≠ 0 := by omega
  refine ⟨⟨⟨or_assign (or_assign Fmtzero showpoint) (format_flag_from_char 'f'), (W : Int),
      (P : Int)⟩, [], blank⟩, parse_format_single _ (by simp) D _ ?_, rfl, rfl⟩
  simpa [spec_finish, field_finish, vW, vP, hW0, hP0] using hf

/-- C8, at `W = 9` and `P = 2`: the format `%9.2f`. -/
theorem parse_width_precision_witness :
    ∃ ff, parse_format "%9.2f".toList [] format_specification.default = some (true, [ff]) ∧
      ff.width = 9 ∧ ff.precision = 2 :=
  parse_width_precision 9 2 (by decide) (by decide) format_specification.default

/-- The specification `<W>t` for a decimal numeral `W` (first digit not `0`) and a type
letter `t`. -/
theorem spec_width_type (c : Char) (cs : List Char) (t : Char) (hc : isdigit c = true)
    (h0 : c ≠ '0') (hcs : ∀ x ∈ cs, isdigit x = true) (ht : isTypeLetter t = true)
    (fc : Char) :
    spec_run (spec_init (c :: (cs ++ [t])) fc) =
      some ⟨[], true, false, true, false,
        ⟨or_assign Fmtzero (format_flag_from_char t), acc_digits 0 (c :: cs), 0⟩, fc,
        spec_status.inType⟩ := by
  have e0 : spec_init (c :: (cs ++ [t])) fc =
      ⟨c :: (cs ++ [t]), true, false, false, false, ⟨Fmtzero, 0, 0⟩, fc,
        spec_status.inFlags⟩ := rfl
  rw [e0, spec_run_first_digit c hc h0, spec_run_width cs hcs, spec_run_type_end t ht]
  simp [acc_digits]

/-- The format `<text>%<W>t`, for literal text without `%`, a width `W ≥ 1` written in
decimal and a type letter `t`, parses to the single field with that text, width `W`, the
default precision and the flags of `t`. -/
theorem parse_text_width_type (txt : List Char) (ht : ∀ c ∈ txt, c ≠ '%') (W : Nat)
    (hW : 1 ≤ W) (t : Char) (htl : isTypeLetter t = true) (D : format_specification) :
    parse_format (txt ++ '%' :: (Nat.toDigits 10 W ++ [t])) [] D =
      some (true, [⟨⟨or_assign Fmtzero (format_flag_from_char t), (W : Int), D.precision⟩,
        txt, blank⟩]) := by
  obtain ⟨c, cs, eW, h0⟩ := toDigits_head W hW
  have hWd := toDigits_isdigit W
  have vW := acc_digits_toDigits W
  rw [eW] at hWd vW ⊢
  have hc : isdigit c = true := hWd c (List.mem_cons_self _ _)
  have hcs : ∀ x ∈ cs, isdigit x = true := fun x hx => hWd x (List.mem_cons_of_mem _ hx)
  have hne : c ≠ '%' := by
    intro e
    rw [e] at hc
    exact absurd hc (by decide)
  have hspec := spec_width_type c cs t hc h0 hcs htl blank
  have hr : parse_format_specification (c :: (cs ++ [t])) format_specification.default blank =
      some (spec_finish format_specification.default
        ⟨[], true, false, true, false,
          ⟨or_assign Fmtzero (format_flag_from_char t), acc_digits 0 (c :: cs), 0⟩, blank,
          spec_status.inType⟩) := by
    simp [parse_format_specification, hspec]
  have hf := parse_field_text_spec txt ht c (cs ++ [t]) hne D _ hr
  have hW0 : (W : Int) ≠ 0 := by omega
  refine parse_format_single _ (by simp) D _ ?_
  rw [show txt ++ '%' :: (c :: cs ++ [t]) = txt ++ '%' :: c :: (cs ++ [t]) from rfl, hf]
  by_cases hb : (basefield ||| floatfield) &&& or_assign Fmtzero (format_flag_from_char t) = 0
  · simp [spec_finish, field_finish, vW, hW0, hb]
  · simp [spec_finish, field_finish, vW, hW0, hb]

/-! ## The cyclic cursor of `basic_formatter` -/

theorem next_iterate (f : basic_formatter) (hne : f.ffv ≠ []) (h0 : f.curff = 0) (k : Nat) :
    ((fun g : basic_formatter => g.next.2)^[k] f).curff = k % f.ffv.length ∧
    ((fun g : basic_formatter => g.next.2)^[k] f).ffv = f.ffv ∧
    ((fun g : basic_formatter => g.next.2)^[k] f).default_format = f.default_format := by
  have hpos : 0 < f.ffv.length := List.length_pos.mpr hne
  induction k with
  | zero => simp [h0]
  | succ k ih =>
    obtain ⟨ih1, ih2, ih3⟩ := ih
    rw [Function.iterate_succ_apply']
    generalize (fun g : basic_formatter => g.next.2)^[k] f = g at ih1 ih2 ih3
    have hlt : k % f.ffv.length < f.ffv.length := Nat.mod_lt _ hpos
    have hmod : (k + 1) % f.ffv.length = (k % f.ffv.length + 1) % f.ffv.length :=
      (Nat.mod_add_mod k f.ffv.length 1).symm
    have hg : g.ffv.isEmpty = false := by
      rw [ih2]; simpa using hne
    have hnext : g.next.2 =
        if g.curff + 1 = g.ffv.length then { g with curff := 0 }
        else { g with curff := g.curff + 1 } := by
      simp only [basic_formatter.next, hg, Bool.not_false, if_true]
      split_ifs <;> rfl
    show g.next.2.curff = _ ∧ g.next.2.ffv = _ ∧ g.next.2.default_format = _
    rw [hnext]
    split_ifs with hw
    · refine ⟨?_, ih2, ih3⟩
      show 0 = (k + 1) % f.ffv.length
      rw [ih1, ih2] at hw
      rw [hmod, hw, Nat.mod_self]
    · refine ⟨?_, ih2, ih3⟩
      show g.curff + 1 = (k + 1) % f.ffv.length
      rw [ih1, ih2] at hw
      rw [hmod, ih1,
        Nat.mod_eq_of_lt (show k % f.ffv.length + 1 < f.ffv.length by omega)]

/-- C3: for a formatter with `n > 0` fields and a fresh cursor, after `k` calls of `next()`
the cursor is `k mod n` (a valid index, back at the first field after every `n` calls), so
the next call, number `k`, returns field number `k mod n`; `operator()` returns the field
under the cursor, and the field list is never changed. -/
theorem next_cycles (f : basic_formatter) (hne : f.ffv ≠ []) (h0 : f.curff = 0) (k : Nat) :
    ((fun g : basic_formatter => g.next.2)^[k] f).curff = k % f.ffv.length ∧
    k % f.ffv.length < f.ffv.length ∧
    ((fun g : basic_formatter => g.next.2)^[k] f).ffv = f.ffv ∧
    some ((fun g : basic_formatter => g.next.2)^[k] f).next.1 = f.ffv[k % f.ffv.length]? ∧
    some ((fun g : basic_formatter => g.next.2)^[k] f).current = f.ffv[k % f.ffv.length]? ∧
    ((fun g : basic_formatter => g.next.2)^[f.ffv.length * k] f).curff = 0 := by
  have hpos : 0 < f.ffv.length := List.length_pos.mpr hne
  obtain ⟨h1, h2, _⟩ := next_iterate f hne h0 k
  have hlt : k % f.ffv.length < f.ffv.length := Nat.mod_lt _ hpos
  have hcur : some ((fun g : basic_formatter => g.next.2)^[k] f).current =
      f.ffv[k % f.ffv.length]? := by
    simp only [basic_formatter.current, h1, h2]
    rw [if_pos (by omega), List.getD_eq_getElem?_getD, List.getElem?_eq_getElem hlt]
    rfl
  refine ⟨h1, hlt, h2, ?_, hcur, ?_⟩
  · rw [← hcur]
    simp only [basic_formatter.next]
    split_ifs <;> rfl
  · rw [(next_iterate f hne h0 (f.ffv.length * k)).1]
    exact Nat.mul_mod_right _ _

/-- C3, at the three fields of `%d|%d` followed by a newline and `k = 4`. -/
theorem next_cycles_witness :
    ∃ f, basic_formatter.ofString "%d|%d\n".toList = some f ∧
      ((fun g : basic_formatter => g.next.2)^[4] f).curff = 4 % f.ffv.length ∧
      4 % f.ffv.length < f.ffv.length ∧
      ((fun g : basic_formatter => g.next.2)^[4] f).ffv = f.ffv ∧
      some ((fun g : basic_formatter => g.next.2)^[4] f).next.1 = f.ffv[4 % f.ffv.length]? ∧
      some ((fun g : basic_formatter => g.next.2)^[4] f).current = f.ffv[4 % f.ffv.length]? ∧
      ((fun g : basic_formatter => g.next.2)^[f.ffv.length * 4] f).curff = 0 :=
  ⟨⟨true, [⟨⟨dec ||| right, 1, 6⟩, [], ' '⟩, ⟨⟨dec ||| right, 1, 6⟩, ['|'], ' '⟩,
      ⟨⟨0, 1, 6⟩, ['\n'], ' '⟩], 0, basic_formatterfield.default⟩,
    by decide,
    next_cycles _ (by decide) rfl 4⟩

/-! ## Insertion through a bound stream -/

/-- Writing a non-empty C string without NUL under width 1 appends exactly the string. -/
theorem put_cstr_width_one (os : ostream) (txt : List Char) (hne : txt ≠ [])
    (hnul : ∀ c ∈ txt, c ≠ Char.ofNat 0) (h1 : os.width = 1) :
    (os.put_cstr txt).out = os.out ++ txt := by
  have htake : txt.takeWhile (fun c => c != Char.ofNat 0) = txt := by
    rw [List.takeWhile_eq_self_iff]
    intro c hc
    simpa using hnul c hc
  have hlen : 0 < txt.length := List.length_pos.mpr hne
  have hpad : (os.width - ((([] : List Char).length + txt.length : Nat) : Int)).toNat = 0 := by
    rw [h1]
    simp only [List.length_nil, Nat.zero_add]
    omega
  simp only [ostream.put_cstr, ostream.write_padded, htake, hpad, List.replicate_zero]
  split_ifs <;> simp

/-- Writing an integer under the flags `dec | right` appends its decimal numeral, padded on
the left with the fill character up to the width. -/
theorem put_int_dec_right (os : ostream) (n : Int) (hf : os.flags = 640) :
    (os.put_int n).out =
      os.out ++ List.replicate (os.width - ((int_decimal n).length : Int)).toNat os.fill ++
        int_decimal n := by
  have b1 : (640 : Nat) &&& basefield ≠ oct := by decide
  have b2 : (640 : Nat) &&& basefield ≠ hex := by decide
  have b3 : ((640 : Nat) &&& uppercase != 0) = false := by decide
  have b4 : ((640 : Nat) &&& showpos != 0) = false := by decide
  have b5 : (640 : Nat) &&& adjustfield ≠ left := by decide
  have b6 : (640 : Nat) &&& adjustfield ≠ internal := by decide
  unfold ostream.put_int
  simp only [hf, b1, b2, b3, b4, if_false, Bool.false_eq_true, ostream.digits]
  unfold ostream.write_padded
  simp only [hf, b5, b6, if_false, int_decimal]
  by_cases hn : n < 0
  · simp only [hn, if_true, List.length_append, List.append_assoc]
  · simp only [hn, if_false, List.length_append, List.append_assoc]

theorem insert_int_output (F : basic_formatter) (os : ostream) (n : Int) :
    ((⟨F, some os⟩ : basic_oformatstream).insert_int n).output =
      ((basic_oformatstream.value_sink F os).put_int n).out := by
  simp only [basic_oformatstream.insert_int, basic_oformatstream.prefix_op, if_true,
    basic_oformatstream.suffix_op, Option.map_some', basic_oformatstream.output,
    formatspec_manip, format_manip, basic_oformatstream.value_sink]

/-- C1: with the default specification and a bound sink, a stream built from
`<text>%<W>d` (literal text without `%` and without NUL, `W ≥ 1` in decimal) writes, for one
inserted integer `n`, the text followed by the decimal numeral of `n` right-aligned in a
field of width `W` padded with blanks; `%d` with 42 writes `42` and `x=%5d` with 3 writes
`x=    3`. -/
theorem insert_int_text_width :
    (∀ (txt : List Char) (W : Nat) (n : Int) (os : ostream),
      (∀ c ∈ txt, c ≠ '%' ∧ c ≠ Char.ofNat 0) → 1 ≤ W →
      ∃ o, basic_oformatstream.ofString (txt ++ '%' :: (Nat.toDigits 10 W ++ ['d'])) (some os)
          = some o ∧
        (o.insert_int n).output =
          os.out ++ txt ++ List.replicate (W - (int_decimal n).length) ' ' ++ int_decimal n) ∧
    (basic_oformatstream.ofString "%d".toList (some ostream.init)).map
      (fun o => (o.insert_int 42).output) = some "42".toList ∧
    (basic_oformatstream.ofString "x=%5d".toList (some ostream.init)).map
      (fun o => (o.insert_int 3).output) = some "x=    3".toList := by
  refine ⟨?_, by decide, by decide⟩
  intro txt W n os ht hW
  have hp := parse_text_width_type txt (fun c hc => (ht c hc).1) W hW 'd' (by decide)
    basic_formatterfield.default.toformat_specification
  have hF : or_assign Fmtzero (format_flag_from_char 'd') = 640 := by decide
  rw [hF] at hp
  refine ⟨⟨⟨true, [⟨⟨640, (W : Int), 6⟩, txt, blank⟩], 0, basic_formatterfield.default⟩,
    some os⟩, ?_, ?_⟩
  · simp only [basic_oformatstream.ofString, basic_formatter.ofString, hp, Option.map_some']
    rfl
  · have hcur : (⟨true, [⟨⟨640, (W : Int), 6⟩, txt, blank⟩], 0,
        basic_formatterfield.default⟩ : basic_formatter).current =
        ⟨⟨640, (W : Int), 6⟩, txt, blank⟩ := by
      simp [basic_formatter.current]
    have hnext : (⟨true, [⟨⟨640, (W : Int), 6⟩, txt, blank⟩], 0,
        basic_formatterfield.default⟩ : basic_formatter).next.1 =
        ⟨⟨640, (W : Int), 6⟩, txt, blank⟩ := by
      simp [basic_formatter.next, hcur]
    have hsink : basic_oformatstream.value_sink ⟨true, [⟨⟨640, (W : Int), 6⟩, txt, blank⟩], 0,
        basic_formatterfield.default⟩ os =
        { (if !txt.isEmpty then
            (formatspec_manip os format_specification.default).put_cstr txt else os) with
          fill := blank, width := (W : Int), precision := 6, flags := 640 } := by
      simp only [basic_oformatstream.value_sink, hcur, hnext, basic_formatter.default_format_specification]
      rfl
    have htxt : (if (!txt.isEmpty) = true then
        (formatspec_manip os format_specification.default).put_cstr txt else os).out =
        os.out ++ txt := by
      by_cases he : txt = []
      · simp [he]
      · rw [if_pos (by simpa using he),
          put_cstr_width_one _ txt he (fun c hc => (ht c hc).2) (by simp [formatspec_manip,
            format_specification.default, format_specification.make])]
        simp [formatspec_manip]
    rw [insert_int_output, hsink, put_int_dec_right _ n (by simp)]
    simp only [htxt, blank]
    congr 3
    omega

/-- C1, at the text `x=`, the width 5 and the integer 3. -/
theorem insert_int_text_width_witness :
    (∀ c ∈ ['x', '='], c ≠ '%' ∧ c ≠ Char.ofNat 0) ∧ 1 ≤ 5 ∧
    ∃ o, basic_oformatstream.ofString "x=%5d".toList (some ostream.init) = some o ∧
      (o.insert_int 3).output = "x=    3".toList :=
  ⟨by decide, by decide,
    insert_int_text_width.1 ['x', '='] 5 3 ostream.init (by decide) (by decide)⟩


/-! ## The trailing literal of a format string is a field of its own -/

/-- C2, as stated, fails: the formatter built from `%d|%d` and a newline does not have two
fields, and inserting 1, 2, 3, 4 does not write `1|2`, newline, `3|4`, newline. -/
theorem row_format_counterexample :
    (basic_formatter.ofString "%d|%d\n".toList).map basic_formatter.FieldCount ≠ some 2 ∧
    (basic_oformatstream.ofString "%d|%d\n".toList (some ostream.init)).map
      (fun o => ((((o.insert_int 1).insert_int 2).insert_int 3).insert_int 4).output) ≠
      some "1|2\n3|4\n".toList := by
  decide

/-- C2, amended: the formatter built from `%d|%d` and a newline has three fields, the
third being the trailing newline as literal text without a specification of its own;
inserting 1, 2, 3, 4 writes `1|2`, newline, `34` and leaves the cursor at 1, 2, 0, 1, so the
cursor wraps after every 3 field applications; with the stream-level `setformat` applied
after every two insertions the output is `1|2`, newline, `3|4`, newline and the cursor is
back at the first field. -/
theorem row_format_three_fields :
    (basic_formatter.ofString "%d|%d\n".toList).map basic_formatter.FieldCount = some 3 ∧
    (basic_formatter.ofString "%d|%d\n".toList).map (fun f => f.ffv.map fun ff => ff.text) =
      some [[], ['|'], ['\n']] ∧
    (basic_oformatstream.ofString "%d|%d\n".toList (some ostream.init)).map
      (fun o => ((((o.insert_int 1).insert_int 2).insert_int 3).insert_int 4).output) =
      some "1|2\n34".toList ∧
    (basic_oformatstream.ofString "%d|%d\n".toList (some ostream.init)).map
      (fun o => [(o.insert_int 1).Format.curff, ((o.insert_int 1).insert_int 2).Format.curff,
        (((o.insert_int 1).insert_int 2).insert_int 3).Format.curff,
        ((((o.insert_int 1).insert_int 2).insert_int 3).insert_int 4).Format.curff]) =
      some [1, 2, 0, 1] ∧
    (basic_oformatstream.ofString "%d|%d\n".toList (some ostream.init)).map
      (fun o => (((((o.insert_int 1).insert_int 2).setformat.insert_int 3).insert_int
        4).setformat).output) = some "1|2\n3|4\n".toList ∧
    (basic_oformatstream.ofString "%d|%d\n".toList (some ostream.init)).map
      (fun o => (((((o.insert_int 1).insert_int 2).setformat.insert_int 3).insert_int
        4).setformat).Format.curff) = some 0 := by
  decide

/-! ## The `-` flag and a precision without a width -/

/-- A `-` met in state `inFlags` merges `left` into the flags and stays in `inFlags`. -/
theorem spec_run_minus (rest : List Char) (ws ps : Bool) (fl : format_flags) (w p : Int)
    (fc : Char) :
    spec_run ⟨'-' :: rest, true, false, ws, ps, ⟨fl, w, p⟩, fc, spec_status.inFlags⟩ =
      spec_run ⟨rest, true, false, ws, ps, ⟨or_assign fl (format_flag_from_char '-'), w, p⟩,
        fc, spec_status.inFlags⟩ := by
  rw [spec_run_step _ (by simp [spec_cond])]
  have e : spec_advance (spec_switch ⟨'-' :: rest, true, false, ws, ps, ⟨fl, w, p⟩, fc,
      spec_status.inFlags⟩) =
      ⟨rest, true, false, ws, ps, ⟨or_assign fl (format_flag_from_char '-'), w, p⟩, fc,
        spec_status.inFlags⟩ := by
    have h1 : isdigit '-' = false := by decide
    have h2 : isFormatType '-' = false := by decide
    simp [spec_switch, case_inFlags, spec_advance, deref, h1, h2]
  rw [e]

/-- Merging the flags of a type letter leaves `right` as the alignment, whatever
alignment was set before. -/
theorem or_assign_type_letter (f : format_flags) (t : Char) (ht : isTypeLetter t = true) :
    is right (or_assign f (format_flag_from_char t)) = true ∧
    is left (or_assign f (format_flag_from_char t)) = false := by
  obtain ⟨_, _, _, _, _, _, _, hr, _⟩ := typeLetter_facts t ht
  rw [is_right] at hr
  rw [is_right, is_left, testBit_or_assign_adjust _ _ 7 (by omega),
    testBit_or_assign_adjust _ _ 6 (by omega)]
  simp [hr]

/-- For every width `W ≥ 1` and every type letter `t` the field parsed from `%-Wt` is
right-aligned: the flags of the type letter, merged last, replace the `left` of the `-`. -/
theorem minus_flag_lost (W : Nat) (hW : 1 ≤ W) (t : Char) (ht : isTypeLetter t = true)
    (D : format_specification) :
    ∃ ff, parse_format ('%' :: '-' :: (Nat.toDigits 10 W ++ [t])) [] D = some (true, [ff]) ∧
      is right ff.flags = true ∧ is left ff.flags = false := by
  obtain ⟨c, cs, eW, h0⟩ := toDigits_head W hW
  have hWd := toDigits_isdigit W
  have vW := acc_digits_toDigits W
  rw [eW] at hWd vW ⊢
  have hc : isdigit c = true := hWd c (List.mem_cons_self _ _)
  have hcs : ∀ x ∈ cs, isdigit x = true := fun x hx => hWd x (List.mem_cons_of_mem _ hx)
  have hspec : spec_run (spec_init ('-' :: c :: (cs ++ [t])) blank) =
      some ⟨[], true, false, true, false,
        ⟨or_assign (or_assign Fmtzero (format_flag_from_char '-')) (format_flag_from_char t),
          acc_digits 0 (c :: cs), 0⟩, blank, spec_status.inType⟩ := by
    have e0 : spec_init ('-' :: c :: (cs ++ [t])) blank =
        ⟨'-' :: c :: (cs ++ [t]), true, false, false, false, ⟨Fmtzero, 0, 0⟩, blank,
          spec_status.inFlags⟩ := rfl
    rw [e0, spec_run_minus, spec_run_first_digit c hc h0, spec_run_width cs hcs,
      spec_run_type_end t ht]
    simp [acc_digits]
  have hr : parse_format_specification ('-' :: c :: (cs ++ [t])) format_specification.default
      blank = some (spec_finish format_specification.default
        ⟨[], true, false, true, false,
          ⟨or_assign (or_assign Fmtzero (format_flag_from_char '-')) (format_flag_from_char t),
            acc_digits 0 (c :: cs), 0⟩, blank, spec_status.inType⟩) := by
    simp [parse_format_specification, hspec]
  have hf := parse_field_text_spec [] (by simp) '-' (c :: (cs ++ [t])) (by decide) D _ hr
  have hW0 : (W : Int) ≠ 0 := by omega
  obtain ⟨h1, h2⟩ := or_assign_type_letter (or_assign Fmtzero (format_flag_from_char '-')) t ht
  refine ⟨⟨⟨or_assign (or_assign Fmtzero (format_flag_from_char '-'))
      (format_flag_from_char t), (W : Int), D.precision⟩, [], blank⟩,
    parse_format_single _ (by simp) D _ ?_, h1, h2⟩
  rw [show '%' :: '-' :: (c :: cs ++ [t]) = [] ++ '%' :: '-' :: c :: (cs ++ [t]) from rfl, hf]
  by_cases hb : (basefield ||| floatfield) &&&
      or_assign (or_assign Fmtzero (format_flag_from_char '-')) (format_flag_from_char t) = 0
  · simp [spec_finish, field_finish, vW, hW0, hb]
  · simp [spec_finish, field_finish, vW, hW0, hb]

/-- C7: the fields parsed from `%-12d`, `%-4c` and `%-5s` hold `right` and not `left` in
their final flags, and an integer inserted through `%-5d` is padded on the left. -/
theorem minus_flag_right_aligned :
    parse_format "%-12d".toList [] format_specification.default =
      some (true, [⟨⟨dec ||| right, 12, 6⟩, [], ' '⟩]) ∧
    parse_format "%-4c".toList [] format_specification.default =
      some (true, [⟨⟨right, 4, 6⟩, [], ' '⟩]) ∧
    parse_format "%-5s".toList [] format_specification.default =
      some (true, [⟨⟨right, 5, 6⟩, [], ' '⟩]) ∧
    is left (dec ||| right) = false ∧ is left right = false ∧
    (basic_oformatstream.ofString "%-5d".toList (some ostream.init)).map
      (fun o => (o.insert_int 3).output) = some "    3".toList := by
  decide

/-- C9: in `%.2f` and `%.3e` the `.` is consumed in state `inFlags` without starting the
precision, so the digits after it are read as the width: the field has width 2 (resp. 3)
and the default precision 6. -/
theorem dot_without_width_sets_width :
    parse_format "%.2f".toList [] format_specification.default =
      some (true, [⟨⟨dec ||| fixed ||| right, 2, 6⟩, [], ' '⟩]) ∧
    parse_format "%.3e".toList [] format_specification.default =
      some (true, [⟨⟨dec ||| scientific ||| right, 3, 6⟩, [], ' '⟩]) ∧
    parse_format "%5.2f".toList [] format_specification.default =
      some (true, [⟨⟨dec ||| fixed ||| right, 5, 2⟩, [], ' '⟩]) := by
  decide


/-! ## Precision defaulting -/

/-- The post-loop defaulting of `parse_format_specification` leaves a specification whose
precision is nonzero when its flags select a base or a float style, provided the
specification it may leave untouched has this property. -/
theorem spec_finish_precision (outfs : format_specification) (s : spec_state)
    (h : (basefield ||| floatfield) &&& outfs.flags ≠ 0 → outfs.precision ≠ 0) :
    (basefield ||| floatfield) &&& (spec_finish outfs s).outfs.flags ≠ 0 →
      (spec_finish outfs s).outfs.precision ≠ 0 := by
  simp only [spec_finish]
  split_ifs with h1 h2 h3 h4
  · intro _; simp
  · intro hf hp; exact h3 ⟨hp, hf⟩
  · intro _; simp
  · intro hf hp; exact h4 ⟨hp, hf⟩
  · exact h

theorem field_switch_precision (s s1 : field_state)
    (h : (basefield ||| floatfield) &&& s.outff.flags ≠ 0 → s.outff.precision ≠ 0)
    (hs : field_switch s = some s1) :
    (basefield ||| floatfield) &&& s1.outff.flags ≠ 0 → s1.outff.precision ≠ 0 := by
  unfold field_switch at hs
  split at hs
  · split_ifs at hs <;> cases hs <;> exact h
  · split_ifs at hs
    · cases hs; exact h
    · simp only [Option.map_eq_some'] at hs
      obtain ⟨r, hr, rfl⟩ := hs
      simp only [parse_format_specification, Option.map_eq_some'] at hr
      obtain ⟨s2, _, rfl⟩ := hr
      exact spec_finish_precision _ s2 h

theorem field_advance_outff (s : field_state) : (field_advance s).outff = s.outff := by
  unfold field_advance
  split_ifs <;> rfl

theorem field_loop_precision (fuel : Nat) (s r : field_state)
    (h : (basefield ||| floatfield) &&& s.outff.flags ≠ 0 → s.outff.precision ≠ 0)
    (hr : field_loop fuel s = some r) :
    (basefield ||| floatfield) &&& r.outff.flags ≠ 0 → r.outff.precision ≠ 0 := by
  induction fuel generalizing s with
  | zero => simp [field_loop] at hr
  | succ n ih =>
    unfold field_loop at hr
    by_cases hc : field_cond s = true
    · rw [if_pos hc] at hr
      obtain ⟨s1, hs1⟩ := field_switch_total s
      rw [hs1] at hr
      refine ih _ ?_ hr
      rw [field_advance_outff]
      exact field_switch_precision s s1 h hs1
    · rw [if_neg hc] at hr
      cases hr
      exact h

/-- Under a default specification with nonzero precision, the field that `parse_field`
leaves has nonzero precision when its flags select a base or a float style. -/
theorem parse_field_precision (it : List Char) (outff : basic_formatterfield)
    (D : format_specification) (r : field_result) (hD : D.precision ≠ 0)
    (hr : parse_field it outff D = some r) :
    (basefield ||| floatfield) &&& r.outff.flags ≠ 0 → r.outff.precision ≠ 0 := by
  simp only [parse_field, Option.map_eq_some'] at hr
  obtain ⟨s, hs, rfl⟩ := hr
  have h0 : (basefield ||| floatfield) &&& (field_init it outff).outff.flags ≠ 0 →
      (field_init it outff).outff.precision ≠ 0 := by
    intro hf
    have hfl : (field_init it outff).outff.flags = 0 := rfl
    rw [hfl] at hf
    exact absurd (Nat.and_zero _) hf
  have h1 := field_loop_precision _ _ _ h0 hs
  simp only [field_finish]
  split_ifs <;> first | exact h1 | (intro _; exact hD)

theorem format_loop_precision (D : format_specification) (hD : D.precision ≠ 0) (fuel : Nat)
    (it : List Char) (ok : Bool) (ffv : FormatFieldVector) (r : Bool × FormatFieldVector)
    (hv : ∀ ff ∈ ffv, (basefield ||| floatfield) &&& ff.flags ≠ 0 → ff.precision ≠ 0)
    (hr : format_loop D fuel it ok ffv = some r) :
    ∀ ff ∈ r.2, (basefield ||| floatfield) &&& ff.flags ≠ 0 → ff.precision ≠ 0 := by
  induction fuel generalizing it ok ffv with
  | zero => simp [format_loop] at hr
  | succ n ih =>
    unfold format_loop at hr
    split_ifs at hr with hc
    · obtain ⟨r1, hr1⟩ := parse_field_total it basic_formatterfield.default D
      rw [hr1] at hr
      refine ih _ _ _ ?_ hr
      intro ff hff
      split_ifs at hff
      · rw [List.mem_append, List.mem_singleton] at hff
        rcases hff with hff | hff
        · exact hv ff hff
        · rw [hff]; exact parse_field_precision _ _ _ _ hD hr1
      · exact hv ff hff
    · cases hr
      exact hv

/-- C11, as stated, fails: under a default specification whose precision is 0 the field
parsed from `%d` selects `dec` and yet has precision 0. -/
theorem zero_default_precision_counterexample :
    parse_format "%d".toList [] (format_specification.make 1 0 Fmtzero) =
      some (true, [⟨⟨dec ||| right, 1, 0⟩, [], ' '⟩]) ∧
    (basefield ||| floatfield) &&& (dec ||| right) ≠ 0 := by
  decide

/-- C11, amended: for every format string and every default specification whose
precision is nonzero, parsing returns and each field whose flags select a base or a float
style has nonzero precision; explicit precision digits of value zero are replaced by 6
(`%5.0d`), while a field without precision digits takes the precision of the default
specification as it is, also when that is 0 (`%d`). -/
theorem precision_defaulting :
    (∀ (s : List Char) (D : format_specification), D.precision ≠ 0 →
      ∃ ok ffv, parse_format s [] D = some (ok, ffv) ∧
        ∀ ff ∈ ffv, (basefield ||| floatfield) &&& ff.flags ≠ 0 → ff.precision ≠ 0) ∧
    parse_format "%5.0d".toList [] (format_specification.make 1 0 Fmtzero) =
      some (true, [⟨⟨dec ||| right, 5, 6⟩, [], ' '⟩]) ∧
    parse_format "%d".toList [] (format_specification.make 1 0 Fmtzero) =
      some (true, [⟨⟨dec ||| right, 1, 0⟩, [], ' '⟩]) := by
  refine ⟨?_, by decide, by decide⟩
  intro s D hD
  obtain ⟨r, hr⟩ := parse_format_total s [] D
  exact ⟨r.1, r.2, hr, format_loop_precision D hD _ s true [] r (by simp) hr⟩

/-- C11, amended, at the format `%d|%5.0f` and the default precision 2. -/
theorem precision_defaulting_witness :
    (format_specification.make 12 2 dec).precision ≠ 0 ∧
    ∃ ok ffv, parse_format "%d|%5.0f".toList [] (format_specification.make 12 2 dec) =
        some (ok, ffv) ∧
      ∀ ff ∈ ffv, (basefield ||| floatfield) &&& ff.flags ≠ 0 → ff.precision ≠ 0 :=
  ⟨by decide, precision_defaulting.1 "%d|%5.0f".toList (format_specification.make 12 2 dec)
    (by decide)⟩


/-! ## `%%` in literal text -/

/-- C13: in `%dx` the `x` after the type letter is merged into the field as a second type
letter (the field becomes hexadecimal and no text field follows); in `%dhello` the `h` and
the `l`s are dropped as length markers and `e`, `o` are merged as type letters. A text that
starts with a character outside the type-derivation table, as in `%d|abc`, is kept. -/
theorem text_after_type_absorbed :
    parse_format "%dx".toList [] format_specification.default =
      some (true, [⟨⟨hex ||| right, 1, 6⟩, [], ' '⟩]) ∧
    parse_format "%dhello".toList [] format_specification.default =
      some (true, [⟨⟨oct ||| scientific ||| right, 1, 6⟩, [], ' '⟩]) ∧
    parse_format "%d|abc".toList [] format_specification.default =
      some (true, [⟨⟨dec ||| right, 1, 6⟩, [], ' '⟩, ⟨⟨Fmtzero, 1, 6⟩, "|abc".toList, ' '⟩]) ∧
    (basic_oformatstream.ofString "%dx".toList (some ostream.init)).map
      (fun o => (o.insert_int 255).setformat.output) = some "ff".toList := by
  decide

/-- C16: an unknown character directly after `%` is consumed in state `inFlags` and the
parse of `%zd` succeeds with the field of `%d`, whereas the same character after width or
precision digits, as in `%5zd` and `%5.2zd`, makes the parse fail. -/
theorem unknown_char_in_flags_accepted :
    parse_format "%zd".toList [] format_specification.default =
      some (true, [⟨⟨dec ||| right, 1, 6⟩, [], ' '⟩]) ∧
    parse_format "%5zd".toList [] format_specification.default = some (false, []) ∧
    parse_format "%5.2zd".toList [] format_specification.default = some (false, []) := by
  decide

/-- C17: a format string that ends after flag characters (`%-`, `%+0`), after width digits
(`%5`), after precision digits (`%5.2`) or after a `.` met in state `inFlags` (`%.`) parses
with `ok = true`, the unterminated field is appended and `isValid()` is true; only the
string that ends directly after a `.` met in state `inWidth` (`%5.`) fails. -/
theorem unterminated_field_accepted :
    parse_format "%-".toList [] format_specification.default =
      some (true, [⟨⟨left, 1, 6⟩, [], ' '⟩]) ∧
    parse_format "%+0".toList [] format_specification.default =
      some (true, [⟨⟨showpos ||| right, 1, 6⟩, [], '0'⟩]) ∧
    parse_format "%5".toList [] format_specification.default =
      some (true, [⟨⟨Fmtzero, 5, 6⟩, [], ' '⟩]) ∧
    parse_format "%5.2".toList [] format_specification.default =
      some (true, [⟨⟨showpoint ||| right, 5, 2⟩, [], ' '⟩]) ∧
    parse_format "%.".toList [] format_specification.default =
      some (true, [⟨⟨Fmtzero, 1, 6⟩, [], ' '⟩]) ∧
    parse_format "%5.".toList [] format_specification.default = some (false, []) ∧
    (basic_formatter.ofString "%-".toList).map basic_formatter.isValid = some true ∧
    (basic_formatter.ofString "%5".toList).map basic_formatter.isValid = some true ∧
    (basic_formatter.ofString "%5.".toList).map basic_formatter.isValid = some false := by
  decide

/-! ## The empty field list -/

/-- C20: for a formatter whose field list is empty, `operator()` and `next()` return the
default field, `next()` leaves the formatter as it is, and so does every sequence of calls;
the default-constructed formatter and the one built from the empty string are such
formatters. -/
theorem empty_formatter_default (f : basic_formatter) (h : f.ffv = []) (k : Nat) :
    f.current = f.default_format ∧ f.next = (f.default_format, f) ∧
    (fun g : basic_formatter => g.next.2)^[k] f = f ∧
    basic_formatter.default.ffv = [] ∧
    (basic_formatter.ofString []).map (fun g => g.ffv) = some [] := by
  have hcur : f.current = f.default_format := by
    simp [basic_formatter.current, h]
  have hnext : f.next = (f.default_format, f) := by
    simp [basic_formatter.next, hcur, h]
  refine ⟨hcur, hnext, ?_, rfl, by decide⟩
  induction k with
  | zero => rfl
  | succ k ih => rw [Function.iterate_succ_apply', ih, hnext]

/-- C20, at the default-constructed formatter and five calls. -/
theorem empty_formatter_default_witness :
    basic_formatter.default.current = basic_formatter.default.default_format ∧
    basic_formatter.default.next =
      (basic_formatter.default.default_format, basic_formatter.default) ∧
    (fun g : basic_formatter => g.next.2)^[5] basic_formatter.default =
      basic_formatter.default ∧
    basic_formatter.default.ffv = [] ∧
    (basic_formatter.ofString []).map (fun g => g.ffv) = some [] :=
  empty_formatter_default basic_formatter.default rfl 5


/-! ## The `0` flag and the `0` width digit -/

/-- In state `inFlags` a run of the flag characters `0`, `+`, `-`, `#` leaves the width
untouched; every `0` sets the fill character and every other flag merges its flags. -/
theorem spec_run_flag_run (cs : List Char) (hcs : ∀ c ∈ cs, c ∈ ['0', '+', '-', '#']) :
    ∀ (rest : List Char) (ws ps : Bool) (fl : format_flags) (w p : Int) (fc : Char),
    spec_run ⟨cs ++ rest, true, false, ws, ps, ⟨fl, w, p⟩, fc, spec_status.inFlags⟩ =
      spec_run ⟨rest, true, false, ws, ps, ⟨flag_run_flags fl cs, w, p⟩,
        (if '0' ∈ cs then '0' else fc), spec_status.inFlags⟩ := by
  induction cs with
  | nil => intro rest ws ps fl w p fc; simp [flag_run_flags]
  | cons c cs ih =>
    intro rest ws ps fl w p fc
    have hc := hcs c (List.mem_cons_self _ _)
    have hrest : ∀ x ∈ cs, x ∈ ['0', '+', '-', '#'] :=
      fun x hx => hcs x (List.mem_cons_of_mem _ hx)
    rw [spec_run_step _ (by simp [spec_cond])]
    by_cases h0 : c = '0'
    · subst h0
      have e : spec_advance (spec_switch ⟨'0' :: cs ++ rest, true, false, ws, ps, ⟨fl, w, p⟩,
          fc, spec_status.inFlags⟩) =
          ⟨cs ++ rest, true, false, ws, ps, ⟨fl, w, p⟩, '0', spec_status.inFlags⟩ := by
        simp [spec_switch, case_inFlags, spec_advance, deref]
      rw [e, ih hrest]
      simp [flag_run_flags]
    · have hc3 : c = '+' ∨ c = '-' ∨ c = '#' := by
        simp only [List.mem_cons, List.mem_singleton, List.not_mem_nil, or_false] at hc
        tauto
      have e : spec_advance (spec_switch ⟨c :: cs ++ rest, true, false, ws, ps, ⟨fl, w, p⟩,
          fc, spec_status.inFlags⟩) =
          ⟨cs ++ rest, true, false, ws, ps, ⟨or_assign fl (format_flag_from_char c), w, p⟩,
            fc, spec_status.inFlags⟩ := by
        have d1 : isdigit '+' = false := by decide
        have d2 : isdigit '-' = false := by decide
        have d3 : isdigit '#' = false := by decide
        have f1 : isFormatType '+' = false := by decide
        have f2 : isFormatType '-' = false := by decide
        have f3 : isFormatType '#' = false := by decide
        rcases hc3 with rfl | rfl | rfl <;>
          simp [spec_switch, case_inFlags, spec_advance, deref, d1, d2, d3, f1, f2, f3]
      have hb : c ≠ blank := by
        rcases hc3 with rfl | rfl | rfl <;> decide
      rw [e, ih hrest]
      simp [flag_run_flags, h0, hb, Ne.symm h0]


/-! ## Length markers before the type letter -/

theorem isSpecChar_cases (c : Char) (h : isSpecChar c = true) :
    isdigit c = true ∨ c = '+' ∨ c = '-' ∨ c = '#' ∨ c = ' ' ∨ c = '.' := by
  simp only [isSpecChar, Bool.or_eq_true, beq_iff_eq, blank] at h
  rcases h with (((((h | h) | h) | h) | h) | h) | h
  · left; rw [h]; decide
  · right; left; exact h
  · right; right; left; exact h
  · right; right; right; left; exact h
  · right; right; right; right; left; exact h
  · right; right; right; right; right; exact h
  · left; exact h

theorem isLengthMarker_cases (m : Char) (h : isLengthMarker m = true) :
    m = 'h' ∨ m = 'l' ∨ m = 'L' := by
  simp only [isLengthMarker, Bool.or_eq_true, beq_iff_eq] at h
  tauto

/-- A run that fails in its first iteration returns with `ok = false`. -/
theorem spec_run_fail (s : spec_state) (hc : spec_cond s = true)
    (hf : (spec_advance (spec_switch s)).ok = false) :
    ∃ a, spec_run s = some a ∧ a.ok = false := by
  refine ⟨spec_advance (spec_switch s), ?_, hf⟩
  rw [spec_run_step s hc]
  exact spec_run_exit _ (by simp [spec_cond, hf])

/-- A blank met in state `inFlags` sets the fill character to blank. -/
theorem spec_run_blank_flag (rest : List Char) (ws ps : Bool) (fl : format_flags) (w p : Int)
    (fc : Char) :
    spec_run ⟨' ' :: rest, true, false, ws, ps, ⟨fl, w, p⟩, fc, spec_status.inFlags⟩ =
      spec_run ⟨rest, true, false, ws, ps, ⟨fl, w, p⟩, ' ', spec_status.inFlags⟩ := by
  rw [spec_run_step _ (by simp [spec_cond])]
  have e : spec_advance (spec_switch ⟨' ' :: rest, true, false, ws, ps, ⟨fl, w, p⟩, fc,
      spec_status.inFlags⟩) =
      ⟨rest, true, false, ws, ps, ⟨fl, w, p⟩, ' ', spec_status.inFlags⟩ := by
    have h1 : isdigit ' ' = false := by decide
    have h2 : isFormatType ' ' = false := by decide
    simp [spec_switch, case_inFlags, spec_advance, deref, h1, h2, blank]
  rw [e]

/-- A `.` met in state `inFlags` is consumed and moves the state to `inWidth`. -/
theorem spec_run_dot_flag (rest : List Char) (ws ps : Bool) (fl : format_flags) (w p : Int)
    (fc : Char) :
    spec_run ⟨'.' :: rest, true, false, ws, ps, ⟨fl, w, p⟩, fc, spec_status.inFlags⟩ =
      spec_run ⟨rest, true, false, ws, ps, ⟨fl, w, p⟩, fc, spec_status.inWidth⟩ := by
  rw [spec_run_step _ (by simp [spec_cond])]
  have e : spec_advance (spec_switch ⟨'.' :: rest, true, false, ws, ps, ⟨fl, w, p⟩, fc,
      spec_status.inFlags⟩) =
      ⟨rest, true, false, ws, ps, ⟨fl, w, p⟩, fc, spec_status.inWidth⟩ := by
    have h1 : isdigit '.' = false := by decide
    have h2 : isFormatType '.' = false := by decide
    simp [spec_switch, case_inFlags, spec_advance, deref, h1, h2, blank]
  rw [e]

/-- In state `inWidth` a character that is neither a digit, nor `.`, nor a format type
makes the parse fail. -/
theorem spec_step_width_fail (c : Char) (hd : isdigit c = false) (hdot : c ≠ '.')
    (hf : isFormatType c = false) (rest : List Char) (ws ps : Bool)
    (fs : format_specification) (fc : Char) :
    (spec_advance (spec_switch ⟨c :: rest, true, false, ws, ps, fs, fc,
      spec_status.inWidth⟩)).ok = false := by
  have e1 : ∀ s : spec_state, (spec_advance s).ok = s.ok := by
    intro s; unfold spec_advance; split_ifs <;> rfl
  have e2 : ∀ s : spec_state, (case_inType s).ok = s.ok := by
    intro s; simp only [case_inType]; split_ifs <;> rfl
  rw [e1]
  simp [spec_switch, case_inWidth, case_inPrecision, deref, hd, hf, Ne.symm hdot, e2]

/-- In state `inPrecision` a character that is neither a digit nor a format type makes
the parse fail. -/
theorem spec_step_precision_fail (c : Char) (hd : isdigit c = false)
    (hf : isFormatType c = false) (rest : List Char) (ws ps : Bool)
    (fs : format_specification) (fc : Char) :
    (spec_advance (spec_switch ⟨c :: rest, true, false, ws, ps, fs, fc,
      spec_status.inPrecision⟩)).ok = false := by
  have e1 : ∀ s : spec_state, (spec_advance s).ok = s.ok := by
    intro s; unfold spec_advance; split_ifs <;> rfl
  have e2 : ∀ s : spec_state, (case_inType s).ok = s.ok := by
    intro s; simp only [case_inType]; split_ifs <;> rfl
  rw [e1]
  simp [spec_switch, case_inPrecision, deref, hd, hf, e2]

/-- In state `inWidth` a `.` followed by a character that is neither a digit nor a format
type makes the parse fail. -/
theorem spec_step_dot_fail (c : Char) (hd : isdigit c = false)
    (hf : isFormatType c = false) (rest : List Char) (ws ps : Bool)
    (fs : format_specification) (fc : Char) :
    (spec_advance (spec_switch ⟨'.' :: c :: rest, true, false, ws, ps, fs, fc,
      spec_status.inWidth⟩)).ok = false := by
  have e1 : ∀ s : spec_state, (spec_advance s).ok = s.ok := by
    intro s; unfold spec_advance; split_ifs <;> rfl
  have e2 : ∀ s : spec_state, (case_inType s).ok = s.ok := by
    intro s; simp only [case_inType]; split_ifs <;> rfl
  have h1 : isdigit '.' = false := by decide
  rw [e1]
  simp [spec_switch, case_inWidth, case_inPrecision, deref, hd, hf, h1, e2]

/-- A length marker is consumed without any effect but the move to state `inType`. -/
theorem spec_run_marker (m : Char) (hm : isLengthMarker m = true) (rest : List Char)
    (ws ps : Bool) (fs : format_specification) (fc : Char) (st : spec_status) :
    spec_run ⟨m :: rest, true, false, ws, ps, fs, fc, st⟩ =
      spec_run ⟨rest, true, false, ws, ps, fs, fc, spec_status.inType⟩ := by
  rw [spec_run_step _ (by simp [spec_cond])]
  have e : spec_advance (spec_switch ⟨m :: rest, true, false, ws, ps, fs, fc, st⟩) =
      ⟨rest, true, false, ws, ps, fs, fc, spec_status.inType⟩ := by
    have hfacts : ∀ x ∈ ['h', 'l', 'L'], isdigit x = false ∧ isFormatType x = true ∧
        format_flag_from_char x = 0 ∧ x ≠ '0' ∧ x ≠ ' ' ∧ x ≠ '.' := by decide
    have hmem : m ∈ ['h', 'l', 'L'] := by
      rcases isLengthMarker_cases m hm with h | h | h <;> simp [h]
    obtain ⟨h1, h2, h3, h4, h5, h6⟩ := hfacts m hmem
    cases st <;>
      simp [spec_switch, case_inFlags, case_inWidth, case_inPrecision, case_inType,
        spec_advance, deref, h1, h2, h3, Ne.symm h4, Ne.symm h5, Ne.symm h6, blank, Fmtzero]
  rw [e]

/-- A `.` met in state `inWidth` and followed by a format-type character `x`: the `.` sets
`showpoint`, and `x` is handled by the code of `case inType` in the same iteration. -/
theorem spec_step_dot_type (x : Char) (hx : isFormatType x = true) (hd : isdigit x = false)
    (rest : List Char) (ws ps : Bool) (fl : format_flags) (w p : Int) (fc : Char) :
    spec_advance (spec_switch ⟨'.' :: x :: rest, true, false, ws, ps, ⟨fl, w, p⟩, fc,
      spec_status.inWidth⟩) =
    spec_advance (case_inType ⟨x :: rest, true, false, ws, ps,
      ⟨or_assign fl showpoint, w, p⟩, fc, spec_status.inType⟩) := by
  have h1 : isdigit '.' = false := by decide
  simp [spec_switch, case_inWidth, case_inPrecision, deref, h1, hd, hx]

/-- A `.` met in state `inWidth` and followed by a format-type character: the run goes on
as from state `inType` at that character, with `showpoint` merged. -/
theorem spec_run_dot_type (x : Char) (hx : isFormatType x = true) (hd : isdigit x = false)
    (rest : List Char) (ws ps : Bool) (fl : format_flags) (w p : Int) (fc : Char) :
    spec_run ⟨'.' :: x :: rest, true, false, ws, ps, ⟨fl, w, p⟩, fc, spec_status.inWidth⟩ =
      spec_run ⟨x :: rest, true, false, ws, ps, ⟨or_assign fl showpoint, w, p⟩, fc,
        spec_status.inType⟩ := by
  rw [spec_run_step _ (by simp [spec_cond]), spec_step_dot_type x hx hd,
    spec_run_step ⟨x :: rest, true, false, ws, ps, ⟨or_assign fl showpoint, w, p⟩, fc,
      spec_status.inType⟩ (by simp [spec_cond])]
  rfl

theorem spec_run_flag_char (c : Char) (hc : c ∈ ['0', '+', '-', '#']) (rest : List Char)
    (ws ps : Bool) (fl : format_flags) (w p : Int) (fc : Char) :
    spec_run ⟨c :: rest, true, false, ws, ps, ⟨fl, w, p⟩, fc, spec_status.inFlags⟩ =
      spec_run ⟨rest, true, false, ws, ps, ⟨flag_run_flags fl [c], w, p⟩,
        (if '0' ∈ [c] then '0' else fc), spec_status.inFlags⟩ :=
  spec_run_flag_run [c] (by simpa using hc) rest ws ps fl w p fc

theorem spec_run_width_char (c : Char) (hc : isdigit c = true) (rest : List Char)
    (ws ps : Bool) (fl : format_flags) (w p : Int) (fc : Char) :
    spec_run ⟨c :: rest, true, false, ws, ps, ⟨fl, w, p⟩, fc, spec_status.inWidth⟩ =
      spec_run ⟨rest, true, false, ws || !([c] : List Char).isEmpty, ps,
        ⟨fl, acc_digits w [c], p⟩, fc, spec_status.inWidth⟩ :=
  spec_run_width [c] (by simpa using hc) rest ws ps fl w p fc

theorem spec_run_precision_char (c : Char) (hc : isdigit c = true) (rest : List Char)
    (ws ps : Bool) (fl : format_flags) (w p : Int) (fc : Char) :
    spec_run ⟨c :: rest, true, false, ws, ps, ⟨fl, w, p⟩, fc, spec_status.inPrecision⟩ =
      spec_run ⟨rest, true, false, ws, ps || !([c] : List Char).isEmpty,
        ⟨fl, w, acc_digits p [c]⟩, fc, spec_status.inPrecision⟩ :=
  spec_run_precision [c] (by simpa using hc) rest ws ps fl w p fc

/-- The characters `+`, `-`, `#`, blank and `.` are neither digits nor format types. -/
theorem nondigit_spec_facts (c : Char) (h : c = '+' ∨ c = '-' ∨ c = '#' ∨ c = ' ' ∨ c = '.') :
    isdigit c = false ∧ isFormatType c = false := by
  rcases h with rfl | rfl | rfl | rfl | rfl <;> decide

/-- The loop of `parse_format_specification` on a run `p` of flag characters, digits and
dots followed by a length marker and a type letter, against the same run followed by the
type letter alone: both fail, or both end in the same state. -/
theorem marker_outcome (m t : Char) (hm : isLengthMarker m = true)
    (ht : isTypeLetter t = true) :
    ∀ (n : Nat) (p : List Char), p.length = n → (∀ c ∈ p, isSpecChar c = true) →
    ∀ (ws ps : Bool) (fl : format_flags) (w pr : Int) (fc : Char) (st : spec_status),
    st ≠ spec_status.inType →
    ∃ a b,
      spec_run ⟨p ++ [m, t], true, false, ws, ps, ⟨fl, w, pr⟩, fc, st⟩ = some a ∧
      spec_run ⟨p ++ [t], true, false, ws, ps, ⟨fl, w, pr⟩, fc, st⟩ = some b ∧
      ((a.ok = false ∧ b.ok = false) ∨ a = b) := by
  intro n
  induction n using Nat.strong_induction_on with
  | _ n ih =>
    intro p hlen hp ws ps fl w pr fc st hst
    cases p with
    | nil =>
      refine ⟨_, _, ?_, spec_run_type_end t ht st ws ps fl w pr fc, Or.inr rfl⟩
      rw [List.nil_append, spec_run_marker m hm]
      exact spec_run_type_end t ht spec_status.inType ws ps fl w pr fc
    | cons c p1 =>
      have hc := hp c (List.mem_cons_self _ _)
      have hp1 : ∀ x ∈ p1, isSpecChar x = true := fun x hx => hp x (List.mem_cons_of_mem _ hx)
      have hlen1 : p1.length < n := by simp at hlen; omega
      have IH := ih p1.length hlen1 p1 rfl hp1
      have fail : ∀ s s2 : spec_state, spec_cond s = true → spec_cond s2 = true →
          (spec_advance (spec_switch s)).ok = false →
          (spec_advance (spec_switch s2)).ok = false →
          ∃ a b, spec_run s = some a ∧ spec_run s2 = some b ∧
            ((a.ok = false ∧ b.ok = false) ∨ a = b) := by
        intro s s2 h1 h2 h3 h4
        obtain ⟨a, ha, hao⟩ := spec_run_fail s h1 h3
        obtain ⟨b, hb, hbo⟩ := spec_run_fail s2 h2 h4
        exact ⟨a, b, ha, hb, Or.inl ⟨hao, hbo⟩⟩
      rw [List.cons_append, List.cons_append]
      cases st with
      | inType => exact absurd rfl hst
      | inFlags =>
        rcases isSpecChar_cases c hc with hd | h | h | h | h | h
        · by_cases h0 : c = '0'
          · rw [spec_run_flag_char c (by simp [h0]), spec_run_flag_char c (by simp [h0])]
            exact IH _ _ _ _ _ _ _ (by decide)
          · rw [spec_run_first_digit c hd h0, spec_run_first_digit c hd h0]
            exact IH _ _ _ _ _ _ _ (by decide)
        · rw [spec_run_flag_char c (by simp [h]), spec_run_flag_char c (by simp [h])]
          exact IH _ _ _ _ _ _ _ (by decide)
        · rw [spec_run_flag_char c (by simp [h]), spec_run_flag_char c (by simp [h])]
          exact IH _ _ _ _ _ _ _ (by decide)
        · rw [spec_run_flag_char c (by simp [h]), spec_run_flag_char c (by simp [h])]
          exact IH _ _ _ _ _ _ _ (by decide)
        · subst h
          rw [spec_run_blank_flag, spec_run_blank_flag]
          exact IH _ _ _ _ _ _ _ (by decide)
        · subst h
          rw [spec_run_dot_flag, spec_run_dot_flag]
          exact IH _ _ _ _ _ _ _ (by decide)
      | inPrecision =>
        rcases isSpecChar_cases c hc with hd | h
        · rw [spec_run_precision_char c hd, spec_run_precision_char c hd]
          exact IH _ _ _ _ _ _ _ (by decide)
        · obtain ⟨h1, h2⟩ := nondigit_spec_facts c h
          exact fail _ _ (by simp [spec_cond]) (by simp [spec_cond])
            (spec_step_precision_fail c h1 h2 _ _ _ _ _)
            (spec_step_precision_fail c h1 h2 _ _ _ _ _)
      | inWidth =>
        rcases isSpecChar_cases c hc with hd | h | h | h | h | h
        · rw [spec_run_width_char c hd, spec_run_width_char c hd]
          exact IH _ _ _ _ _ _ _ (by decide)
        · obtain ⟨h1, h2⟩ := nondigit_spec_facts c (by simp [h])
          exact fail _ _ (by simp [spec_cond]) (by simp [spec_cond])
            (spec_step_width_fail c h1 (by simp [h]) h2 _ _ _ _ _)
            (spec_step_width_fail c h1 (by simp [h]) h2 _ _ _ _ _)
        · obtain ⟨h1, h2⟩ := nondigit_spec_facts c (by simp [h])
          exact fail _ _ (by simp [spec_cond]) (by simp [spec_cond])
            (spec_step_width_fail c h1 (by simp [h]) h2 _ _ _ _ _)
            (spec_step_width_fail c h1 (by simp [h]) h2 _ _ _ _ _)
        · obtain ⟨h1, h2⟩ := nondigit_spec_facts c (by simp [h])
          exact fail _ _ (by simp [spec_cond]) (by simp [spec_cond])
            (spec_step_width_fail c h1 (by simp [h]) h2 _ _ _ _ _)
            (spec_step_width_fail c h1 (by simp [h]) h2 _ _ _ _ _)
        · obtain ⟨h1, h2⟩ := nondigit_spec_facts c (by simp [h])
          exact fail _ _ (by simp [spec_cond]) (by simp [spec_cond])
            (spec_step_width_fail c h1 (by simp [h]) h2 _ _ _ _ _)
            (spec_step_width_fail c h1 (by simp [h]) h2 _ _ _ _ _)
        · subst h
          cases p1 with
          | nil =>
            obtain ⟨_, htd, _, _, _, _, _, _, _⟩ := typeLetter_facts t ht
            have hmf : isFormatType m = true ∧ isdigit m = false := by
              rcases isLengthMarker_cases m hm with h | h | h <;> subst h <;> decide
            have htf : isFormatType t = true := (typeLetter_facts t ht).1
            rw [List.nil_append, List.nil_append, spec_run_dot_type m hmf.1 hmf.2,
              spec_run_dot_type t htf htd, spec_run_marker m hm]
            obtain ⟨a, ha⟩ := spec_run_total ⟨[t], true, false, ws, ps,
              ⟨or_assign fl showpoint, w, pr⟩, fc, spec_status.inType⟩
            exact ⟨a, a, ha, ha, Or.inr rfl⟩
          | cons c2 p2 =>
            have hc2 := hp1 c2 (List.mem_cons_self _ _)
            have hp2 : ∀ x ∈ p2, isSpecChar x = true :=
              fun x hx => hp1 x (List.mem_cons_of_mem _ hx)
            have hlen2 : p2.length < n := by simp at hlen; omega
            rw [List.cons_append, List.cons_append]
            rcases isSpecChar_cases c2 hc2 with hd | h
            · rw [spec_run_dot_digit c2 hd, spec_run_dot_digit c2 hd]
              exact ih p2.length hlen2 p2 rfl hp2 _ _ _ _ _ _ _ (by decide)
            · obtain ⟨h1, h2⟩ := nondigit_spec_facts c2 h
              exact fail _ _ (by simp [spec_cond]) (by simp [spec_cond])
                (spec_step_dot_fail c2 h1 h2 _ _ _ _ _)
                (spec_step_dot_fail c2 h1 h2 _ _ _ _ _)

/-- Two specifications on which the loop of `parse_format_specification` both fails or
ends in the same state give the same result of `parse_format` when each is the whole
format string after a `%`. -/
theorem parse_format_of_outcome (c c2 : Char) (sp sp2 : List Char) (hc : c ≠ '%')
    (hc2 : c2 ≠ '%') (a b : spec_state)
    (ha : spec_run (spec_init (c :: sp) blank) = some a)
    (hb : spec_run (spec_init (c2 :: sp2) blank) = some b)
    (h : (a.ok = false ∧ b.ok = false) ∨ a = b) (D : format_specification) :
    parse_format ('%' :: c :: sp) [] D = parse_format ('%' :: c2 :: sp2) [] D := by
  have hra : parse_format_specification (c :: sp) format_specification.default blank =
      some (spec_finish format_specification.default a) := by
    simp [parse_format_specification, ha]
  have hrb : parse_format_specification (c2 :: sp2) format_specification.default blank =
      some (spec_finish format_specification.default b) := by
    simp [parse_format_specification, hb]
  have hfa := parse_field_text_spec [] (by simp) c sp hc D _ hra
  have hfb := parse_field_text_spec [] (by simp) c2 sp2 hc2 D _ hrb
  rw [List.nil_append] at hfa hfb
  unfold parse_format
  rw [format_run_step D _ [] _ (by simp) hfa, format_run_step D _ [] _ (by simp) hfb]
  rcases h with ⟨h1, h2⟩ | h
  · have e1 : (field_finish D ⟨(spec_finish format_specification.default a).it,
        (spec_finish format_specification.default a).ok, true,
        (spec_finish format_specification.default a).widthset,
        (spec_finish format_specification.default a).precset,
        { toformat_specification := (spec_finish format_specification.default a).outfs,
          text := [], fill := (spec_finish format_specification.default a).fillchar },
        field_status.inField⟩).ok = false := by
      show (spec_finish format_specification.default a).ok = false
      rw [spec_finish_ok, h1]
    have e2 : (field_finish D ⟨(spec_finish format_specification.default b).it,
        (spec_finish format_specification.default b).ok, true,
        (spec_finish format_specification.default b).widthset,
        (spec_finish format_specification.default b).precset,
        { toformat_specification := (spec_finish format_specification.default b).outfs,
          text := [], fill := (spec_finish format_specification.default b).fillchar },
        field_status.inField⟩).ok = false := by
      show (spec_finish format_specification.default b).ok = false
      rw [spec_finish_ok, h2]
    rw [format_run_exit D _ _ _ (Or.inr e1), format_run_exit D _ _ _ (Or.inr e2), e1, e2]
    rfl
  · rw [h]

/-- The first character of a specification made of flag characters, digits, dots, length
markers and type letters is not `%`. -/
theorem spec_head_ne_percent (p rest : List Char) (hp : ∀ c ∈ p, isSpecChar c = true)
    (x : Char) (hx : x ≠ '%') :
    ∃ c sp, p ++ x :: rest = c :: sp ∧ c ≠ '%' := by
  cases p with
  | nil => exact ⟨x, rest, rfl, hx⟩
  | cons c p1 =>
    refine ⟨c, p1 ++ x :: rest, rfl, ?_⟩
    intro e
    have := hp c (List.mem_cons_self _ _)
    rw [e] at this
    exact absurd this (by decide)

/-- C15: for every run `p` of flag characters, digits and dots, every length marker `m`
(`h`, `l`, `L`) and every type letter `t`, parsing `%p` + `m` + `t` returns the same result
(the `ok` flag and the field with its text, width, precision, flags and fill) as parsing
`%p` + `t`, and this result exists; `%12ld` parses like `%12d`. -/
theorem length_marker_ignored (p : List Char) (hp : ∀ c ∈ p, isSpecChar c = true)
    (m t : Char) (hm : isLengthMarker m = true) (ht : isTypeLetter t = true)
    (D : format_specification) :
    parse_format ('%' :: (p ++ [m, t])) [] D = parse_format ('%' :: (p ++ [t])) [] D ∧
    (∃ r, parse_format ('%' :: (p ++ [t])) [] D = some r) ∧
    parse_format "%12ld".toList [] format_specification.default =
      some (true, [⟨⟨dec ||| right, 12, 6⟩, [], ' '⟩]) ∧
    parse_format "%12d".toList [] format_specification.default =
      some (true, [⟨⟨dec ||| right, 12, 6⟩, [], ' '⟩]) := by
  refine ⟨?_, parse_format_total _ _ _, by decide, by decide⟩
  have hmp : m ≠ '%' := by
    rcases isLengthMarker_cases m hm with h | h | h <;> subst h <;> decide
  have htp : t ≠ '%' := (typeLetter_facts t ht).2.2.2.2.2.1
  obtain ⟨c, sp, e1, hc⟩ := spec_head_ne_percent p [t] hp m hmp
  obtain ⟨c2, sp2, e2, hc2⟩ := spec_head_ne_percent p [] hp t htp
  obtain ⟨a, b, ha, hb, hab⟩ := marker_outcome m t hm ht p.length p rfl hp false false
    Fmtzero 0 0 blank spec_status.inFlags (by decide)
  rw [e1, e2]
  refine parse_format_of_outcome c c2 sp sp2 hc hc2 a b ?_ ?_ hab D
  · rw [← e1]; exact ha
  · rw [← e2]; exact hb

/-- C15, at the prefix `12`, the marker `l` and the type letter `d`. -/
theorem length_marker_ignored_witness :
    parse_format "%12ld".toList [] format_specification.default =
      parse_format "%12d".toList [] format_specification.default :=
  (length_marker_ignored ['1', '2'] (by decide) 'l' 'd' (by decide) (by decide)
    format_specification.default).1


/-! ## A failed parse -/

/-- When the loop of `parse_format`, entered with `ok`, returns `ok = false`, the vector it
returns is the one it was given followed by the fields that successive calls of
`parse_field` accepted, and the next call of `parse_field` failed. -/
theorem format_loop_failed (D : format_specification) (fuel : Nat) (it : List Char)
    (ffv0 ffv : FormatFieldVector)
    (h : format_loop D fuel it true ffv0 = some (false, ffv)) :
    ∃ fs it1 r, ffv = ffv0 ++ fs ∧ completed_fields D it fs it1 ∧ it1 ≠ [] ∧
      parse_field it1 basic_formatterfield.default D = some r ∧ r.ok = false := by
  induction fuel generalizing it ffv0 with
  | zero => simp [format_loop] at h
  | succ n ih =>
    unfold format_loop at h
    split_ifs at h with hc
    · have hne : it ≠ [] := by
        intro e
        simp [e] at hc
      obtain ⟨r, hr⟩ := parse_field_total it basic_formatterfield.default D
      rw [hr] at h
      simp only at h
      by_cases hok : r.ok = true
      · rw [hok, if_pos rfl] at h
        obtain ⟨fs, it1, r1, e, hcomp, h1, h2, h3⟩ := ih r.it (ffv0 ++ [r.outff]) h
        refine ⟨r.outff :: fs, it1, r1, ?_, completed_fields.step it r fs it1 hne hr hok hcomp,
          h1, h2, h3⟩
        rw [e, List.append_assoc]
        rfl
      · have hok2 : r.ok = false := by simpa using hok
        rw [hok2] at h
        have hffv : ffv = ffv0 := by
          cases n with
          | zero => simp [format_loop] at h
          | succ k =>
            unfold format_loop at h
            simp at h
            exact h.symm
        exact ⟨[], it, r, by simp [hffv], completed_fields.done it, hne, hr, hok2⟩
    · simp at h

/-- C18: when parsing a format string fails, the returned vector is the given one (empty
for a formatter) followed by exactly the fields that `parse_field` completed, in the order
of the format string, up to the position where `parse_field` fails; the field of the failing
call is not appended. Parsing `%d %5.` returns `ok = false` and the single field of `%d`. -/
theorem failed_parse_keeps_completed (s : List Char) (D : format_specification)
    (ffv0 ffv : FormatFieldVector) (h : parse_format s ffv0 D = some (false, ffv)) :
    (∃ fs it1 r, ffv = ffv0 ++ fs ∧ completed_fields D s fs it1 ∧ it1 ≠ [] ∧
      parse_field it1 basic_formatterfield.default D = some r ∧ r.ok = false) ∧
    parse_format "%d %5.".toList [] format_specification.default =
      some (false, [⟨⟨dec ||| right, 1, 6⟩, [], ' '⟩]) :=
  ⟨format_loop_failed D _ s ffv0 ffv h, by decide⟩

/-- C18, at the format string `%d %5.`. -/
theorem failed_parse_keeps_completed_witness :
    parse_format "%d %5.".toList [] format_specification.default =
      some (false, [⟨⟨dec ||| right, 1, 6⟩, [], ' '⟩]) ∧
    ∃ fs it1 r, [(⟨⟨dec ||| right, 1, 6⟩, [], ' '⟩ : basic_formatterfield)] = [] ++ fs ∧
      completed_fields format_specification.default "%d %5.".toList fs it1 ∧ it1 ≠ [] ∧
      parse_field it1 basic_formatterfield.default format_specification.default = some r ∧
      r.ok = false :=
  ⟨by decide,
    (failed_parse_keeps_completed "%d %5.".toList format_specification.default []
      [⟨⟨dec ||| right, 1, 6⟩, [], ' '⟩] (by decide)).1⟩

/-- After `k` calls of `next()` on a formatter with fields and a fresh cursor, both
`operator()` and the next call of `next()` return field number `k mod n`. -/
theorem next_iterate_field (f : basic_formatter) (hne : f.ffv ≠ []) (h0 : f.curff = 0)
    (k : Nat) :
    some ((fun g : basic_formatter => g.next.2)^[k] f).current = f.ffv[k % f.ffv.length]? ∧
    some ((fun g : basic_formatter => g.next.2)^[k] f).next.1 = f.ffv[k % f.ffv.length]? := by
  have hpos : 0 < f.ffv.length := List.length_pos.mpr hne
  obtain ⟨h1, h2, _⟩ := next_iterate f hne h0 k
  have hlt : k % f.ffv.length < f.ffv.length := Nat.mod_lt _ hpos
  have hcur : some ((fun g : basic_formatter => g.next.2)^[k] f).current =
      f.ffv[k % f.ffv.length]? := by
    simp only [basic_formatter.current, h1, h2]
    rw [if_pos (by omega), List.getD_eq_getElem?_getD, List.getElem?_eq_getElem hlt]
    rfl
  refine ⟨hcur, ?_⟩
  rw [← hcur]
  simp only [basic_formatter.next]
  split_ifs <;> rfl

/-- C19, as stated, fails: the formatter built from `x=%d %5.` is invalid, yet its field
list holds the field of `x=%d`, `operator()` returns this field and not the default one, and
an integer inserted through it is written after the literal text `x=`. -/
theorem failed_formatter_counterexample :
    (basic_formatter.ofString "x=%d %5.".toList).map (fun f => f.isValid) = some false ∧
    (basic_formatter.ofString "x=%d %5.".toList).map (fun f => f.current) =
      some ⟨⟨dec ||| right, 1, 6⟩, "x=".toList, ' '⟩ ∧
    (basic_formatter.ofString "x=%d %5.".toList).map (fun f => f.current) ≠
      (basic_formatter.ofString "x=%d %5.".toList).map (fun f => f.default_format) ∧
    (basic_oformatstream.ofString "x=%d %5.".toList (some ostream.init)).map
      (fun o => (o.insert_int 7).output) = some "x=7".toList := by
  decide

/-- C19, amended: a formatter built from a format string whose parse fails starts at the
first field and keeps the fields completed before the malformed one. When no field was
completed, every call of `operator()` and of `next()` returns the default field, whose
text is empty; otherwise the calls serve the completed fields cyclically, literal text
included: after `k` calls both return field number `k mod n`, as for a valid formatter. -/
theorem failed_formatter_fields (s : List Char) (D : format_specification)
    (f : basic_formatter) (h : basic_formatter.ofStringSpec s D = some f)
    (hv : f.isValid = false) (k : Nat) :
    (∃ it1 r, completed_fields D s f.ffv it1 ∧ it1 ≠ [] ∧
      parse_field it1 basic_formatterfield.default D = some r ∧ r.ok = false) ∧
    f.default_format = ⟨D, [], blank⟩ ∧
    (f.ffv = [] →
      ((fun g : basic_formatter => g.next.2)^[k] f).current = f.default_format ∧
      ((fun g : basic_formatter => g.next.2)^[k] f).next.1 = f.default_format) ∧
    (f.ffv ≠ [] →
      some ((fun g : basic_formatter => g.next.2)^[k] f).current =
        f.ffv[k % f.ffv.length]? ∧
      some ((fun g : basic_formatter => g.next.2)^[k] f).next.1 =
        f.ffv[k % f.ffv.length]?) := by
  simp only [basic_formatter.ofStringSpec, Option.map_eq_some'] at h
  obtain ⟨⟨ok, ffv⟩, hp, rfl⟩ := h
  have hok : ok = false := hv
  subst hok
  obtain ⟨fs, it1, r, e, hcomp, h1, h2, h3⟩ :=
    format_loop_failed _ _ s [] ffv hp
  rw [List.nil_append] at e
  subst e
  refine ⟨⟨it1, r, hcomp, h1, h2, h3⟩, rfl, ?_, ?_⟩
  · intro hempty
    have hit : ∀ j, (fun g : basic_formatter => g.next.2)^[j]
        (⟨false, ffv, 0, basic_formatterfield.ofSpec D⟩ : basic_formatter) =
        ⟨false, ffv, 0, basic_formatterfield.ofSpec D⟩ := by
      intro j
      induction j with
      | zero => rfl
      | succ j ih =>
        rw [Function.iterate_succ_apply', ih]
        simp only at hempty
        simp [basic_formatter.next, hempty]
    rw [hit k]
    simp only at hempty
    simp [basic_formatter.next, basic_formatter.current, hempty]
  · intro hne
    exact next_iterate_field _ hne rfl k

/-- C19, amended, at the format string `x=%d %5.` and `k = 3`. -/
theorem failed_formatter_fields_witness :
    ∃ f, basic_formatter.ofStringSpec "x=%d %5.".toList format_specification.default =
        some f ∧ f.isValid = false ∧
      (f.ffv ≠ [] →
        some ((fun g : basic_formatter => g.next.2)^[3] f).current =
          f.ffv[3 % f.ffv.length]? ∧
        some ((fun g : basic_formatter => g.next.2)^[3] f).next.1 =
          f.ffv[3 % f.ffv.length]?) :=
  ⟨⟨false, [⟨⟨dec ||| right, 1, 6⟩, "x=".toList, ' '⟩], 0,
      basic_formatterfield.ofSpec format_specification.default⟩,
    by decide, rfl,
    (failed_formatter_fields "x=%d %5.".toList format_specification.default
      ⟨false, [⟨⟨dec ||| right, 1, 6⟩, "x=".toList, ' '⟩], 0,
        basic_formatterfield.ofSpec format_specification.default⟩ (by decide) rfl 3).2.2.2⟩

/-! ## The fill character of a flag run -/

/-- In state `inFlags` a run of the flag characters `0`, `+`, `-`, `#` and blank leaves the
width untouched; every `0` and every blank sets the fill character and every other flag
merges its flags. -/
theorem spec_run_flag_blank_run (cs : List Char)
    (hcs : ∀ c ∈ cs, c ∈ ['0', '+', '-', '#', ' ']) :
    ∀ (rest : List Char) (ws ps : Bool) (fl : format_flags) (w p : Int) (fc : Char),
    spec_run ⟨cs ++ rest, true, false, ws, ps, ⟨fl, w, p⟩, fc, spec_status.inFlags⟩ =
      spec_run ⟨rest, true, false, ws, ps, ⟨flag_run_flags fl cs, w, p⟩,
        flag_run_fill fc cs, spec_status.inFlags⟩ := by
  induction cs with
  | nil => intro rest ws ps fl w p fc; simp [flag_run_flags, flag_run_fill]
  | cons c cs ih =>
    intro rest ws ps fl w p fc
    have hc := hcs c (List.mem_cons_self _ _)
    have hrest : ∀ x ∈ cs, x ∈ ['0', '+', '-', '#', ' '] :=
      fun x hx => hcs x (List.mem_cons_of_mem _ hx)
    by_cases hb : c = ' '
    · subst hb
      rw [show (' ' :: cs ++ rest) = ' ' :: (cs ++ rest) from rfl, spec_run_blank_flag,
        ih hrest]
      simp [flag_run_flags, flag_run_fill, blank]
    · have hc4 : c ∈ ['0', '+', '-', '#'] := by
        simp only [List.mem_cons, List.mem_singleton, List.not_mem_nil, or_false] at hc ⊢
        tauto
      rw [show (c :: cs ++ rest) = [c] ++ (cs ++ rest) from rfl,
        spec_run_flag_run [c] (by simpa using hc4), ih hrest]
      by_cases h0 : c = '0'
      · subst h0
        simp [flag_run_flags, flag_run_fill]
      · simp [flag_run_flags, flag_run_fill, h0, hb, blank, Ne.symm h0]

/-- The fill character after two runs of flag characters. -/
theorem flag_run_fill_append (fc : Char) (a b : List Char) :
    flag_run_fill fc (a ++ b) = flag_run_fill (flag_run_fill fc a) b := by
  simp [flag_run_fill, List.foldl_append]

/-- A run of flag characters without the character `x` (one of `0` and blank) keeps the
other one as fill. -/
theorem flag_run_fill_keep (y x : Char) (hy : y = '0' ∨ y = ' ') (hx : x = '0' ∨ x = ' ')
    (b : List Char) (hb : x ∉ b) : flag_run_fill y b = y ∨ y = x := by
  by_cases hyx : y = x
  · exact Or.inr hyx
  · left
    induction b with
    | nil => rfl
    | cons c b ih =>
      have hcx : c ≠ x := fun e => hb (e ▸ List.mem_cons_self _ _)
      have hb2 : x ∉ b := fun h => hb (List.mem_cons_of_mem _ h)
      have step : flag_run_fill y (c :: b) = flag_run_fill y b := by
        show flag_run_fill (if c = '0' ∨ c = blank then c else y) b = _
        by_cases hc : c = '0' ∨ c = blank
        · rw [if_pos hc]
          have hcy : c = y := by
            rcases hc with hc | hc <;> rcases hy with hy | hy <;> rcases hx with hx | hx <;>
              simp_all [blank]
          rw [hcy]
        · rw [if_neg hc]
      rw [step]
      exact ih hb2

/-- A `0` of the flag run that no blank follows leaves the fill `0`, and a blank that no `0`
follows leaves the fill blank. -/
theorem flag_run_fill_last (fc : Char) (a b : List Char) :
    (' ' ∉ b → flag_run_fill fc (a ++ '0' :: b) = '0') ∧
    ('0' ∉ b → flag_run_fill fc (a ++ ' ' :: b) = ' ') := by
  constructor
  · intro hb
    rw [flag_run_fill_append]
    show flag_run_fill (if ('0' : Char) = '0' ∨ ('0' : Char) = blank then '0'
      else flag_run_fill fc a) b = _
    rw [if_pos (Or.inl (show ('0' : Char) = '0' from rfl))]
    rcases flag_run_fill_keep '0' ' ' (Or.inl rfl) (Or.inr rfl) b hb with h | h
    · exact h
    · exact absurd h (by decide)
  · intro hb
    rw [flag_run_fill_append]
    show flag_run_fill (if (' ' : Char) = '0' ∨ (' ' : Char) = blank then ' '
      else flag_run_fill fc a) b = _
    rw [if_pos (Or.inr (show (' ' : Char) = blank from rfl))]
    rcases flag_run_fill_keep ' ' '0' (Or.inr rfl) (Or.inl rfl) b hb with h | h
    · exact h
    · exact absurd h (by decide)

/-- A run of flag characters without `0` and without blank leaves the fill as it was. -/
theorem flag_run_fill_none (fc : Char) (b : List Char) (h0 : '0' ∉ b) (hb : ' ' ∉ b) :
    flag_run_fill fc b = fc := by
  induction b with
  | nil => rfl
  | cons c b ih =>
    have hc0 : c ≠ '0' := fun e => h0 (e ▸ List.mem_cons_self _ _)
    have hcb : c ≠ ' ' := fun e => hb (e ▸ List.mem_cons_self _ _)
    show flag_run_fill (if c = '0' ∨ c = blank then c else fc) b = _
    rw [if_neg (by simp [hc0, hcb, blank])]
    exact ih (fun h => h0 (List.mem_cons_of_mem _ h)) (fun h => hb (List.mem_cons_of_mem _ h))

/-- The specification `<flags><W>t` read from state `inFlags`. -/
theorem spec_run_flags_width_type (fl : List Char)
    (hfl : ∀ c ∈ fl, c ∈ ['0', '+', '-', '#', ' ']) (c : Char) (cs : List Char) (t : Char)
    (hc : isdigit c = true) (h0 : c ≠ '0') (hcs : ∀ x ∈ cs, isdigit x = true)
    (ht : isTypeLetter t = true) :
    spec_run (spec_init (fl ++ c :: (cs ++ [t])) blank) =
      some ⟨[], true, false, true, false,
        ⟨or_assign (flag_run_flags Fmtzero fl) (format_flag_from_char t),
          acc_digits 0 (c :: cs), 0⟩, flag_run_fill blank fl, spec_status.inType⟩ := by
  have e0 : spec_init (fl ++ c :: (cs ++ [t])) blank =
      ⟨fl ++ c :: (cs ++ [t]), true, false, false, false, ⟨Fmtzero, 0, 0⟩, blank,
        spec_status.inFlags⟩ := rfl
  rw [e0, spec_run_flag_blank_run fl hfl, spec_run_first_digit c hc h0, spec_run_width cs hcs,
    spec_run_type_end t ht]
  simp [acc_digits]

/-- C14, as stated, fails: in `%0 5d` the `0` stands before any nonzero digit, and yet the
parsed field has the fill blank (with width 5): the blank flag after it is assigned to the
fill character as well. -/
theorem zero_flag_blank_counterexample :
    parse_format "%0 5d".toList [] format_specification.default =
      some (true, [⟨⟨dec ||| right, 5, 6⟩, [], ' '⟩]) ∧
    (' ' : Char) ≠ '0' := by
  decide

/-- C14, amended: in `%<flags><W>t`, where the flags are any run of `0`, `+`, `-`, `#` and
blank, the width `W ≥ 1` is written in decimal and `t` is a type letter, the parsed field has
width `W` whatever the number of `0` flags, and its fill character is the last `0` or blank
of the run (blank when the run has neither): a `0` that no blank follows leaves the fill `0`,
a blank that no `0` follows leaves it blank, and in a run without blank the fill is `0`
exactly when the run holds a `0`; the zeros inside the numeral of `W` are width digits.
`%012x` yields fill `0` and width 12, `%10d` fill blank and width 10, `%0 5d` fill blank and
width 5, and `% 05d` fill `0` and width 5. -/
theorem zero_flag_and_width (fl : List Char)
    (hfl : ∀ c ∈ fl, c ∈ ['0', '+', '-', '#', ' '])
    (W : Nat) (hW : 1 ≤ W) (t : Char) (ht : isTypeLetter t = true)
    (D : format_specification) :
    parse_format ('%' :: (fl ++ (Nat.toDigits 10 W ++ [t]))) [] D =
      some (true, [⟨⟨or_assign (flag_run_flags Fmtzero fl) (format_flag_from_char t),
        (W : Int), D.precision⟩, [], flag_run_fill blank fl⟩]) ∧
    (∀ a b, fl = a ++ '0' :: b → ' ' ∉ b → flag_run_fill blank fl = '0') ∧
    (∀ a b, fl = a ++ ' ' :: b → '0' ∉ b → flag_run_fill blank fl = ' ') ∧
    (' ' ∉ fl → flag_run_fill blank fl = if '0' ∈ fl then '0' else blank) ∧
    parse_format "%012x".toList [] format_specification.default =
      some (true, [⟨⟨hex ||| right, 12, 6⟩, [], '0'⟩]) ∧
    parse_format "%10d".toList [] format_specification.default =
      some (true, [⟨⟨dec ||| right, 10, 6⟩, [], ' '⟩]) ∧
    parse_format "%0 5d".toList [] format_specification.default =
      some (true, [⟨⟨dec ||| right, 5, 6⟩, [], ' '⟩]) ∧
    parse_format "% 05d".toList [] format_specification.default =
      some (true, [⟨⟨dec ||| right, 5, 6⟩, [], '0'⟩]) := by
  refine ⟨?_, ?_, ?_, ?_, by decide, by decide, by decide, by decide⟩
  · obtain ⟨c, cs, eW, h0⟩ := toDigits_head W hW
    have hWd := toDigits_isdigit W
    have vW := acc_digits_toDigits W
    rw [eW] at hWd vW ⊢
    have hc : isdigit c = true := hWd c (List.mem_cons_self _ _)
    have hcs : ∀ x ∈ cs, isdigit x = true := fun x hx => hWd x (List.mem_cons_of_mem _ hx)
    have hspec := spec_run_flags_width_type fl hfl c cs t hc h0 hcs ht
    have hW0 : (W : Int) ≠ 0 := by omega
    have hhead : ∃ a sp, fl ++ c :: (cs ++ [t]) = a :: sp ∧ a ≠ '%' := by
      cases fl with
      | nil =>
        refine ⟨c, cs ++ [t], rfl, ?_⟩
        intro e
        rw [e] at hc
        exact absurd hc (by decide)
      | cons a fl1 =>
        refine ⟨a, fl1 ++ c :: (cs ++ [t]), rfl, ?_⟩
        have ha := hfl a (List.mem_cons_self _ _)
        intro e
        rw [e] at ha
        exact absurd ha (by decide)
    obtain ⟨a, sp, ea, ha⟩ := hhead
    have hr : parse_format_specification (a :: sp) format_specification.default blank =
        some (spec_finish format_specification.default
          ⟨[], true, false, true, false,
            ⟨or_assign (flag_run_flags Fmtzero fl) (format_flag_from_char t),
              acc_digits 0 (c :: cs), 0⟩, flag_run_fill blank fl,
            spec_status.inType⟩) := by
      rw [← ea]
      simp [parse_format_specification, hspec]
    have hf := parse_field_text_spec [] (by simp) a sp ha D _ hr
    refine parse_format_single _ (by simp) D _ ?_
    rw [show '%' :: (fl ++ (c :: cs ++ [t])) = [] ++ '%' :: (fl ++ c :: (cs ++ [t])) from
      by simp, ea, hf]
    by_cases hb : (basefield ||| floatfield) &&&
        or_assign (flag_run_flags Fmtzero fl) (format_flag_from_char t) = 0
    · simp [spec_finish, field_finish, vW, hW0, hb]
    · simp [spec_finish, field_finish, vW, hW0, hb]
  · intro a b e hb
    rw [e]
    exact (flag_run_fill_last blank a b).1 hb
  · intro a b e hb
    rw [e]
    exact (flag_run_fill_last blank a b).2 hb
  · intro hb
    by_cases h0 : '0' ∈ fl
    · rw [if_pos h0]
      obtain ⟨a, b, e⟩ := List.append_of_mem h0
      rw [e]
      refine (flag_run_fill_last blank a b).1 ?_
      intro h
      exact hb (by rw [e]; simp [h])
    · rw [if_neg h0]
      exact flag_run_fill_none blank fl h0 hb

/-- C14, amended, at the flag runs of `%012x`, `%10d`, `%-0 07d` and `%0 +5d`. -/
theorem zero_flag_and_width_witness :
    parse_format "%012x".toList [] format_specification.default =
      some (true, [⟨⟨or_assign (flag_run_flags Fmtzero ['0']) (format_flag_from_char 'x'),
        12, 6⟩, [], flag_run_fill blank ['0']⟩]) ∧
    parse_format "%10d".toList [] format_specification.default =
      some (true, [⟨⟨or_assign (flag_run_flags Fmtzero []) (format_flag_from_char 'd'),
        10, 6⟩, [], flag_run_fill blank []⟩]) ∧
    flag_run_fill blank ['-', '0', ' ', '0'] = '0' ∧
    flag_run_fill blank ['0', ' ', '+'] = ' ' ∧
    flag_run_fill blank ['+', '0'] = (if '0' ∈ ['+', '0'] then '0' else blank) :=
  ⟨(zero_flag_and_width ['0'] (by decide) 12 (by decide) 'x' (by decide)
      format_specification.default).1,
    (zero_flag_and_width [] (by decide) 10 (by decide) 'd' (by decide)
      format_specification.default).1,
    (zero_flag_and_width ['-', '0', ' ', '0'] (by decide) 7 (by decide) 'd' (by decide)
      format_specification.default).2.1 ['-', '0', ' '] [] rfl (by decide),
    (zero_flag_and_width ['0', ' ', '+'] (by decide) 5 (by decide) 'd' (by decide)
      format_specification.default).2.2.1 ['0'] ['+'] rfl (by decide),
    (zero_flag_and_width ['+', '0'] (by decide) 5 (by decide) 'd' (by decide)
      format_specification.default).2.2.2.1 (by decide)⟩

/-! ## A field without width and precision digits inherits the defaults -/

/-- A type letter followed by a character at which `case inType:` sets `done`: the flags of
the letter are merged and the loop stops in front of that character. -/
theorem spec_run_type_stop (t : Char) (ht : isTypeLetter t = true) (c : Char)
    (hc : isFieldEnd c = true) (rest : List Char) (st : spec_status)
    (ws ps : Bool) (fl : format_flags) (w p : Int) (fc : Char) :
    spec_run ⟨t :: c :: rest, true, false, ws, ps, ⟨fl, w, p⟩, fc, st⟩ =
      some ⟨c :: rest, true, true, ws, ps, ⟨or_assign fl (format_flag_from_char t), w, p⟩, fc,
        spec_status.inType⟩ := by
  obtain ⟨h1, h2, h3, h4, h5, h6, h7, _, _⟩ := typeLetter_facts t ht
  rw [spec_run_step _ (by simp [spec_cond])]
  have e : spec_advance (spec_switch ⟨t :: c :: rest, true, false, ws, ps, ⟨fl, w, p⟩, fc,
      st⟩) =
      ⟨c :: rest, true, false, ws, ps, ⟨or_assign fl (format_flag_from_char t), w, p⟩, fc,
        spec_status.inType⟩ := by
    cases st <;>
      simp [spec_switch, case_inFlags, case_inWidth, case_inPrecision, case_inType,
        spec_advance, deref, h1, h2, Ne.symm h3, Ne.symm h4, Ne.symm h5, Ne.symm h7]
  rw [e, spec_run_step _ (by simp [spec_cond])]
  have e2 : spec_advance (spec_switch ⟨c :: rest, true, false, ws, ps,
      ⟨or_assign fl (format_flag_from_char t), w, p⟩, fc, spec_status.inType⟩) =
      ⟨c :: rest, true, true, ws, ps, ⟨or_assign fl (format_flag_from_char t), w, p⟩, fc,
        spec_status.inType⟩ := by
    simp only [isFieldEnd, Bool.or_eq_true, Bool.and_eq_true, beq_iff_eq,
      Bool.not_eq_true'] at hc
    by_cases hb : c = blank
    · subst hb
      simp [spec_switch, case_inType, spec_advance, deref]
    · rcases hc with hc | ⟨hz, hf⟩
      · exact absurd hc hb
      · simp [spec_switch, case_inType, spec_advance, deref, Ne.symm hb, hz, hf]
  rw [e2]
  exact spec_run_exit _ (by simp [spec_cond])

/-- The field `<text>%<flags>t`, read by `parse_field` in front of the end of the input or of
a character that ends a field: the text, the flags of the flag run and of the type letter,
the fill of the flag run, and the width and precision of the default specification. -/
theorem parse_field_flags_type (D : format_specification) (txt : List Char)
    (htxt : ∀ c ∈ txt, c ≠ '%') (fl : List Char)
    (hfl : ∀ c ∈ fl, c ∈ ['0', '+', '-', '#', ' ']) (t : Char) (ht : isTypeLetter t = true)
    (rest : List Char) (hrest : ∀ c ∈ rest.head?, isFieldEnd c = true) :
    parse_field (txt ++ '%' :: (fl ++ t :: rest)) basic_formatterfield.default D =
      some ⟨true, rest,
        ⟨⟨or_assign (flag_run_flags Fmtzero fl) (format_flag_from_char t), D.width,
          D.precision⟩, txt, flag_run_fill blank fl⟩⟩ := by
  have hspec : ∃ dn, spec_run (spec_init (fl ++ t :: rest) blank) =
      some ⟨rest, true, dn, false, false,
        ⟨or_assign (flag_run_flags Fmtzero fl) (format_flag_from_char t), 0, 0⟩,
        flag_run_fill blank fl, spec_status.inType⟩ := by
    have e0 : spec_init (fl ++ t :: rest) blank =
        ⟨fl ++ t :: rest, true, false, false, false, ⟨Fmtzero, 0, 0⟩, blank,
          spec_status.inFlags⟩ := rfl
    rw [e0, spec_run_flag_blank_run fl hfl]
    cases rest with
    | nil => exact ⟨false, spec_run_type_end t ht _ _ _ _ _ _ _⟩
    | cons c r =>
      exact ⟨true, spec_run_type_stop t ht c (hrest c (by simp)) r _ _ _ _ _ _ _⟩
  obtain ⟨dn, hspec⟩ := hspec
  have hhead : ∃ a sp, fl ++ t :: rest = a :: sp ∧ a ≠ '%' := by
    cases fl with
    | nil => exact ⟨t, rest, rfl, (typeLetter_facts t ht).2.2.2.2.2.1⟩
    | cons a fl1 =>
      refine ⟨a, fl1 ++ t :: rest, rfl, ?_⟩
      have ha := hfl a (List.mem_cons_self _ _)
      intro e
      rw [e] at ha
      exact absurd ha (by decide)
  obtain ⟨a, sp, ea, ha⟩ := hhead
  have hr : parse_format_specification (a :: sp) format_specification.default blank =
      some (spec_finish format_specification.default
        ⟨rest, true, dn, false, false,
          ⟨or_assign (flag_run_flags Fmtzero fl) (format_flag_from_char t), 0, 0⟩,
          flag_run_fill blank fl, spec_status.inType⟩) := by
    rw [← ea]
    simp [parse_format_specification, hspec]
  have hf := parse_field_text_spec txt htxt a sp ha D _ hr
  rw [ea, hf]
  by_cases hb : (basefield ||| floatfield) &&&
      or_assign (flag_run_flags Fmtzero fl) (format_flag_from_char t) = 0
  · simp [spec_finish, field_finish, hb]
  · simp [spec_finish, field_finish, hb]

/-- C10: for every default specification `D`, a field `<text>%<flags>t` (literal text without
`%`, with or without digits; any run of the flags `0`, `+`, `-`, `#`, blank; a type letter; no
width digits and no `.`) is parsed by `parse_field`, in front of the end of the input or of
a character that ends a field, to the field with exactly the width and the precision of `D`.
Wherever it stands in a format string, `parse_format` appends this field and goes on with
the rest, and the format string made of the field alone parses to this one field. On a
format string without any digit character every field has the width and precision of `D`.
Under width 12 and precision 2, `%d`, `%s`, `x1=%d` and the three fields of `[%s] [%d]` all
carry width 12 and precision 2. -/
theorem parse_inherits_defaults (D : format_specification) (txt : List Char)
    (htxt : ∀ c ∈ txt, c ≠ '%') (fl : List Char)
    (hfl : ∀ c ∈ fl, c ∈ ['0', '+', '-', '#', ' ']) (t : Char) (ht : isTypeLetter t = true)
    (rest : List Char) (hrest : ∀ c ∈ rest.head?, isFieldEnd c = true)
    (ffv : FormatFieldVector) :
    parse_field (txt ++ '%' :: (fl ++ t :: rest)) basic_formatterfield.default D =
      some ⟨true, rest,
        ⟨⟨or_assign (flag_run_flags Fmtzero fl) (format_flag_from_char t), D.width,
          D.precision⟩, txt, flag_run_fill blank fl⟩⟩ ∧
    parse_format (txt ++ '%' :: (fl ++ t :: rest)) ffv D =
      parse_format rest
        (ffv ++ [⟨⟨or_assign (flag_run_flags Fmtzero fl) (format_flag_from_char t), D.width,
          D.precision⟩, txt, flag_run_fill blank fl⟩]) D ∧
    parse_format (txt ++ '%' :: (fl ++ [t])) [] D =
      some (true, [⟨⟨or_assign (flag_run_flags Fmtzero fl) (format_flag_from_char t), D.width,
        D.precision⟩, txt, flag_run_fill blank fl⟩]) ∧
    (∀ s : List Char, (∀ c ∈ s, isdigit c = false) →
      ∃ ok fs, parse_format s [] D = some (ok, fs) ∧
        ∀ ff ∈ fs, ff.width = D.width ∧ ff.precision = D.precision) ∧
    parse_format "%d".toList [] (format_specification.make 12 2 dec) =
      some (true, [⟨⟨dec ||| right, 12, 2⟩, [], ' '⟩]) ∧
    parse_format "%s".toList [] (format_specification.make 12 2 dec) =
      some (true, [⟨⟨right, 12, 2⟩, [], ' '⟩]) ∧
    parse_format "x1=%d".toList [] (format_specification.make 12 2 dec) =
      some (true, [⟨⟨dec ||| right, 12, 2⟩, "x1=".toList, ' '⟩]) ∧
    parse_format "[%s] [%d]".toList [] (format_specification.make 12 2 dec) =
      some (true, [⟨⟨right, 12, 2⟩, "[".toList, ' '⟩,
        ⟨⟨dec ||| right, 12, 2⟩, "] [".toList, ' '⟩, ⟨⟨Fmtzero, 12, 2⟩, "]".toList, ' '⟩]) := by
  have hf := parse_field_flags_type D txt htxt fl hfl t ht rest hrest
  refine ⟨hf, ?_, ?_, ?_, by decide, by decide, by decide, by decide⟩
  · unfold parse_format
    rw [format_run_step D _ ffv _ (by simp) hf]
    simp
  · have h1 := parse_field_flags_type D txt htxt fl hfl t ht [] (by simp)
    exact parse_format_single _ (by simp) D _ h1
  · intro s hs
    obtain ⟨r, hr⟩ := parse_format_total s [] D
    exact ⟨r.1, r.2, hr, format_loop_nodigit D _ s true [] r hs (by simp) hr⟩

/-- C10, at the default width 12 and precision 2: the field `x1=%+d` in front of `|%s`, and
the digit-free format `[%s] [%d]`. -/
theorem parse_inherits_defaults_witness :
    (∀ c ∈ "x1=".toList, c ≠ '%') ∧ (∀ c ∈ ['+'], c ∈ ['0', '+', '-', '#', ' ']) ∧
    isTypeLetter 'd' = true ∧ (∀ c ∈ "|%s".toList.head?, isFieldEnd c = true) ∧
    parse_field "x1=%+d|%s".toList basic_formatterfield.default
        (format_specification.make 12 2 dec) =
      some ⟨true, "|%s".toList, ⟨⟨showpos ||| dec ||| right, 12, 2⟩, "x1=".toList, ' '⟩⟩ ∧
    parse_format "x1=%+d|%s".toList [] (format_specification.make 12 2 dec) =
      parse_format "|%s".toList [⟨⟨showpos ||| dec ||| right, 12, 2⟩, "x1=".toList, ' '⟩]
        (format_specification.make 12 2 dec) ∧
    (∀ c ∈ "[%s] [%d]".toList, isdigit c = false) ∧
    ∃ ok fs, parse_format "[%s] [%d]".toList [] (format_specification.make 12 2 dec) =
        some (ok, fs) ∧
      ∀ ff ∈ fs, ff.width = (format_specification.make 12 2 dec).width ∧
        ff.precision = (format_specification.make 12 2 dec).precision :=
  ⟨by decide, by decide, by decide, by decide,
    (parse_inherits_defaults (format_specification.make 12 2 dec) "x1=".toList (by decide)
      ['+'] (by decide) 'd' (by decide) "|%s".toList (by decide) []).1,
    (parse_inherits_defaults (format_specification.make 12 2 dec) "x1=".toList (by decide)
      ['+'] (by decide) 'd' (by decide) "|%s".toList (by decide) []).2.1,
    by decide,
    (parse_inherits_defaults (format_specification.make 12 2 dec) "x1=".toList (by decide)
      ['+'] (by decide) 'd' (by decide) "|%s".toList (by decide) []).2.2.2.1
      "[%s] [%d]".toList (by decide)⟩

/-! ## Copying a formatter -/

/-- Calls of `next()` change the cursor only. -/
theorem next_iterate_frame (f : basic_formatter) (k : Nat) :
    ((fun g : basic_formatter => g.next.2)^[k] f).ffv = f.ffv ∧
    ((fun g : basic_formatter => g.next.2)^[k] f).ok = f.ok ∧
    ((fun g : basic_formatter => g.next.2)^[k] f).default_format = f.default_format := by
  induction k with
  | zero => exact ⟨rfl, rfl, rfl⟩
  | succ k ih =>
    rw [Function.iterate_succ_apply']
    generalize (fun g : basic_formatter => g.next.2)^[k] f = g at ih
    obtain ⟨h1, h2, h3⟩ := ih
    have hn : g.next.2.ffv = g.ffv ∧ g.next.2.ok = g.ok ∧
        g.next.2.default_format = g.default_format := by
      simp only [basic_formatter.next]
      split_ifs <;> exact ⟨rfl, rfl, rfl⟩
    exact ⟨hn.1.trans h1, hn.2.1.trans h2, hn.2.2.trans h3⟩

/-- C21: a copy of a formatter taken after any number `k` of `next()` calls, by the copy
constructor, by `operator=` into any other formatter, or by `formatter(f)` / `reformat` into a
stream, has the field vector and the validity flag of the source and its cursor at the first
field, so that `operator()` of the copy returns the first field; the source is a `const`
reference, of which the model takes the value. For the three fields of `%d|%d` and a newline
the copy taken after two calls has three fields and the cursor 0 while the source is at 2. -/
theorem copy_restarts_cursor (f self : basic_formatter) (k : Nat) (o : basic_oformatstream) :
    (((fun g : basic_formatter => g.next.2)^[k] f).copy.ffv = f.ffv ∧
      ((fun g : basic_formatter => g.next.2)^[k] f).copy.ok = f.ok ∧
      ((fun g : basic_formatter => g.next.2)^[k] f).copy.curff = 0 ∧
      (f.ffv ≠ [] →
        some ((fun g : basic_formatter => g.next.2)^[k] f).copy.current = f.ffv.head?)) ∧
    ((self.assign ((fun g : basic_formatter => g.next.2)^[k] f)).ffv = f.ffv ∧
      (self.assign ((fun g : basic_formatter => g.next.2)^[k] f)).ok = f.ok ∧
      (self.assign ((fun g : basic_formatter => g.next.2)^[k] f)).curff = 0 ∧
      (f.ffv ≠ [] →
        some (self.assign ((fun g : basic_formatter => g.next.2)^[k] f)).current =
          f.ffv.head?)) ∧
    ((o.reformat_manip ((fun g : basic_formatter => g.next.2)^[k] f)).Format.ffv = f.ffv ∧
      (o.reformat_manip ((fun g : basic_formatter => g.next.2)^[k] f)).Format.ok = f.ok ∧
      (o.reformat_manip ((fun g : basic_formatter => g.next.2)^[k] f)).Format.curff = 0 ∧
      (o.reformat_manip ((fun g : basic_formatter => g.next.2)^[k] f)).Ostream = o.Ostream) ∧
    (basic_formatter.ofString "%d|%d\n".toList).map
      (fun f => ((f.next.2.next.2).curff, (f.next.2.next.2).copy.curff,
        (f.next.2.next.2).copy.FieldCount, decide ((f.next.2.next.2).copy.ffv = f.ffv))) =
      some (2, 0, 3, true) := by
  obtain ⟨h1, h2, _⟩ := next_iterate_frame f k
  have hcur : ∀ s : basic_formatter, f.ffv ≠ [] →
      some (s.assign ((fun g : basic_formatter => g.next.2)^[k] f)).current = f.ffv.head? := by
    intro s hne
    obtain ⟨a, l, hl⟩ := List.exists_cons_of_ne_nil hne
    simp only [basic_formatter.current, basic_formatter.assign, h1, hl]
    simp
  refine ⟨⟨h1, h2, rfl, hcur _⟩, ⟨h1, h2, rfl, hcur _⟩, ⟨h1, h2, rfl, rfl⟩, ?_⟩
  decide

/-- C21, at the formatter of `%d|%d` and a newline after two calls of `next()`. -/
theorem copy_restarts_cursor_witness :
    ∃ f, basic_formatter.ofString "%d|%d\n".toList = some f ∧ f.ffv ≠ [] ∧
      some ((fun g : basic_formatter => g.next.2)^[2] f).copy.current = f.ffv.head? ∧
      some (basic_formatter.default.assign
        ((fun g : basic_formatter => g.next.2)^[2] f)).current = f.ffv.head? :=
  ⟨⟨true, [⟨⟨dec ||| right, 1, 6⟩, [], ' '⟩, ⟨⟨dec ||| right, 1, 6⟩, ['|'], ' '⟩,
      ⟨⟨0, 1, 6⟩, ['\n'], ' '⟩], 0, basic_formatterfield.default⟩,
    by decide, by decide,
    ((copy_restarts_cursor _ basic_formatter.default 2
      ⟨basic_formatter.default, none⟩).1).2.2.2 (by decide),
    ((copy_restarts_cursor _ basic_formatter.default 2
      ⟨basic_formatter.default, none⟩).2.1).2.2.2 (by decide)⟩

/-- C22: the copy constructor and `operator=` of `basic_formatter` do not copy
`_default_format`: the copy of a formatter built with the default width 12 / precision 2
reports width 1 / precision 6 / no flags, also when the copy is the one held by a stream
(whose suffix step then sets the sink to width 1 and precision 6); in general a copy
constructed formatter has the default of `basic_formatter()` and an assigned one keeps the
default it had before. -/
theorem copy_drops_default :
    (basic_formatter.ofStringSpec "%d".toList (format_specification.make 12 2 dec)).map
      (fun f => (f.default_format_specification, f.copy.default_format_specification,
        (basic_oformatstream.ofFormatter f (some ostream.init)).Format.default_format_specification,
        (((basic_oformatstream.ofFormatter f (some ostream.init)).insert_int 1).Ostream.map
          fun os => (os.width, os.precision)))) =
      some (⟨dec, 12, 2⟩, ⟨Fmtzero, 1, 6⟩, ⟨Fmtzero, 1, 6⟩, some (1, 6)) ∧
    (∀ f : basic_formatter, f.copy.default_format = basic_formatterfield.default) ∧
    (∀ self f : basic_formatter, (self.assign f).default_format = self.default_format) ∧
    (∀ (o : basic_oformatstream) (f : basic_formatter),
      (o.reformat_manip f).Format.default_format = o.Format.default_format) :=
  ⟨by decide, fun _ => rfl, fun _ _ => rfl, fun _ _ => rfl⟩

/-! ## The prefix / write / suffix protocol of the inserters -/

/-- A call of `next()` returns the field under the cursor and keeps the default field. -/
theorem next_fst_snd (F : basic_formatter) :
    F.next.1 = F.current ∧ F.next.2.default_format = F.default_format ∧
    F.next.2.ffv = F.ffv ∧ F.next.2.ok = F.ok := by
  simp only [basic_formatter.next]
  split_ifs <;> exact ⟨rfl, rfl, rfl, rfl⟩

/-- On a bound stream `prefix()` succeeds, advances the cursor and leaves the sink in the
state `value_sink`. -/
theorem prefix_op_bound (F : basic_formatter) (os : ostream) :
    (⟨F, some os⟩ : basic_oformatstream).prefix_op =
      (true, ⟨F.next.2, some (basic_oformatstream.value_sink F os)⟩) := by
  simp only [basic_oformatstream.prefix_op, format_manip, basic_oformatstream.value_sink]

/-- An inserter on a bound stream: the sink's writer runs on `value_sink`, then the suffix
step applies the default specification. -/
theorem insert_value_bound (w : ostream → ostream) (F : basic_formatter) (os : ostream) :
    basic_oformatstream.insert_value w ⟨F, some os⟩ =
      ⟨F.next.2, some (formatspec_manip (w (basic_oformatstream.value_sink F os))
        F.default_format_specification)⟩ := by
  simp only [basic_oformatstream.insert_value, prefix_op_bound, if_true,
    basic_oformatstream.suffix_op, Option.map_some', basic_formatter.default_format_specification,
    (next_fst_snd F).2.1]

/-- The inserter of a double is the general inserter whose writer first runs the emulation
of the general format. -/
theorem insert_double_eq (M : double_math) (wd : ostream → double → ostream)
    (o : basic_oformatstream) (X : double) :
    basic_oformatstream.insert_double M wd o X =
      basic_oformatstream.insert_value
        (fun os => wd (basic_oformatstream.adaptive M os X) X) o := rfl

/-- The inserter of an `int` is the general inserter with the sink's writer of an `int`. -/
theorem insert_int_eq (o : basic_oformatstream) (n : Int) :
    o.insert_int n = basic_oformatstream.insert_value (fun os => os.put_int n) o := rfl

/-- After an inserter on a bound stream the sink holds the default specification. -/
theorem insert_value_holds_default (w : ostream → ostream) (F : basic_formatter)
    (os : ostream) :
    (basic_oformatstream.insert_value w ⟨F, some os⟩).holds_default = true := by
  rw [insert_value_bound]
  simp [basic_oformatstream.holds_default, formatspec_manip,
    basic_formatter.default_format_specification, (next_fst_snd F).2.1]

/-- C23: after the insertion of a value of any kind through a bound stream (the sink's own
writer of the value is arbitrary), of an `int`, of a C string, and of a `double` or `float`
(whatever the library functions compute and whichever style the emulation of the general
format selected), the sink's width, precision and flags are those of the default
specification of the stream's formatter, which the insertion does not change; after an
insertion through the field of `%+08.3x` the sink holds width 1, precision 6 and no flags. -/
theorem suffix_restores_default (F : basic_formatter) (os : ostream) (w : ostream → ostream)
    (M : double_math) (wd : ostream → double → ostream) (X : double) (n : Int)
    (s : List Char) :
    (basic_oformatstream.insert_value w ⟨F, some os⟩).holds_default = true ∧
    ((⟨F, some os⟩ : basic_oformatstream).insert_int n).holds_default = true ∧
    ((⟨F, some os⟩ : basic_oformatstream).insert_cstr s).holds_default = true ∧
    (basic_oformatstream.insert_double M wd ⟨F, some os⟩ X).holds_default = true ∧
    (basic_oformatstream.insert_float M wd ⟨F, some os⟩ X).holds_default = true ∧
    (basic_oformatstream.insert_value w ⟨F, some os⟩).Format.default_format_specification =
      F.default_format_specification ∧
    (basic_oformatstream.insert_double M wd ⟨F, some os⟩ X).Format.default_format_specification =
      F.default_format_specification ∧
    (basic_oformatstream.ofString "%+08.3x".toList (some ostream.init)).map
      (fun o => o.Format.ffv.map fun ff => (ff.width, ff.precision, ff.flags, ff.fill)) =
      some [(8, 3, showpos ||| hex ||| right, '0')] ∧
    (basic_oformatstream.ofString "%+08.3x".toList (some ostream.init)).map
      (fun o => (o.insert_int 255).Ostream.map fun os => (os.width, os.precision, os.flags)) =
      some (some (1, 6, Fmtzero)) := by
  refine ⟨insert_value_holds_default _ _ _, insert_value_holds_default _ _ _,
    insert_value_holds_default _ _ _, insert_value_holds_default _ _ _,
    insert_value_holds_default _ _ _, ?_, ?_, by decide, by decide⟩
  · rw [insert_value_bound]
    simp only [basic_formatter.default_format_specification, (next_fst_snd F).2.1]
  · rw [insert_double_eq, insert_value_bound]
    simp only [basic_formatter.default_format_specification, (next_fst_snd F).2.1]

/-- C24: on a stream without a sink every inserter (of a value of any kind, of an `int`, of a
C string, of a `double` and of a `float`) and each of `setformat`, `put`, `flush` and `endl`
returns the stream as it was, with the formatter and its cursor unchanged and still no sink,
so nothing is written. -/
theorem unbound_stream_noop (F : basic_formatter) (w : ostream → ostream) (M : double_math)
    (wd : ostream → double → ostream) (X : double) (n : Int) (s : List Char) (c : Char) :
    basic_oformatstream.insert_value w ⟨F, none⟩ = ⟨F, none⟩ ∧
    (⟨F, none⟩ : basic_oformatstream).insert_int n = ⟨F, none⟩ ∧
    (⟨F, none⟩ : basic_oformatstream).insert_cstr s = ⟨F, none⟩ ∧
    basic_oformatstream.insert_double M wd ⟨F, none⟩ X = ⟨F, none⟩ ∧
    basic_oformatstream.insert_float M wd ⟨F, none⟩ X = ⟨F, none⟩ ∧
    (⟨F, none⟩ : basic_oformatstream).setformat = ⟨F, none⟩ ∧
    (⟨F, none⟩ : basic_oformatstream).put c = ⟨F, none⟩ ∧
    (⟨F, none⟩ : basic_oformatstream).flush = ⟨F, none⟩ ∧
    (⟨F, none⟩ : basic_oformatstream).endl = ⟨F, none⟩ ∧
    (⟨F, none⟩ : basic_oformatstream).prefix_op = (false, ⟨F, none⟩) ∧
    (⟨F, none⟩ : basic_oformatstream).output = [] :=
  ⟨rfl, rfl, rfl, rfl, rfl, rfl, rfl, rfl, rfl, rfl, rfl⟩

/-- C29: on a bound stream the prefix step succeeds and hands the sink over in the state
`value_sink`, on which the value is written before the suffix step; in that state the
characters written are those before the insertion when the field's text is empty (no write
at all), and otherwise those that the sink writes for the text while it holds the width,
precision and flags of the default specification and still its previous fill; the fill,
width, precision and flags of that state are the field's. With the default width 4 the field
`ab%08d` writes 7 as `  ab00000007`: the text is padded to the default width with the previous
fill, the value to the field's width with the field's fill. -/
theorem prefix_writes_text_under_default (F : basic_formatter) (os : ostream)
    (w : ostream → ostream) :
    (⟨F, some os⟩ : basic_oformatstream).prefix_op =
      (true, ⟨F.next.2, some (basic_oformatstream.value_sink F os)⟩) ∧
    basic_oformatstream.insert_value w ⟨F, some os⟩ =
      ⟨F.next.2, some (formatspec_manip (w (basic_oformatstream.value_sink F os))
        F.default_format_specification)⟩ ∧
    (basic_oformatstream.value_sink F os).out =
      (if F.current.text.isEmpty then os.out
       else (ostream.put_cstr
          { os with width := F.default_format_specification.width,
                    precision := F.default_format_specification.precision,
                    flags := F.default_format_specification.flags } F.current.text).out) ∧
    (basic_oformatstream.value_sink F os).fill = F.current.fill ∧
    (basic_oformatstream.value_sink F os).width = F.current.width ∧
    (basic_oformatstream.value_sink F os).precision = F.current.precision ∧
    (basic_oformatstream.value_sink F os).flags = F.current.flags ∧
    (basic_formatter.ofStringSpec "ab%08d".toList (format_specification.make 4 2 Fmtzero)).map
      (fun G => (G.ffv.map (fun ff => (ff.text, ff.width, ff.fill)),
        ((⟨G, some ostream.init⟩ : basic_oformatstream).insert_int 7).output)) =
      some ([("ab".toList, 8, '0')], "  ab00000007".toList) := by
  refine ⟨prefix_op_bound F os, insert_value_bound w F os, ?_, rfl, ?_, ?_, ?_, by decide⟩
  · simp only [basic_oformatstream.value_sink]
    by_cases h : F.current.text.isEmpty = true
    · simp [h]
    · simp only [h, Bool.not_eq_true] at *
      simp [h, formatspec_manip]
  · simp only [basic_oformatstream.value_sink, (next_fst_snd F).1]
  · simp only [basic_oformatstream.value_sink, (next_fst_snd F).1]
  · simp only [basic_oformatstream.value_sink, (next_fst_snd F).1]

/-! ## The stream-level `setformat` -/

/-- The cursor after `next()`, for a cursor inside the field vector. -/
theorem next_curff (F : basic_formatter) (h : F.curff < F.ffv.length) :
    F.next.2.curff = (F.curff + 1) % F.ffv.length := by
  have hne : F.ffv.isEmpty = false := by
    cases hl : F.ffv with
    | nil => rw [hl] at h; exact absurd h (Nat.not_lt_zero _)
    | cons a l => rfl
  simp only [basic_formatter.next, hne, Bool.not_false, if_true]
  split_ifs with hw
  · show 0 = _
    rw [hw, Nat.mod_self]
  · show F.curff + 1 = _
    rw [Nat.mod_eq_of_lt (by omega)]

/-- With an empty field vector `next()` leaves the formatter as it is. -/
theorem next_empty (F : basic_formatter) (h : F.ffv = []) : F.next.2 = F := by
  simp [basic_formatter.next, h]

/-- The stream-level `setformat` on a bound stream. -/
theorem setformat_bound (F : basic_formatter) (os : ostream) :
    (⟨F, some os⟩ : basic_oformatstream).setformat =
      ⟨F.next.2, some
        { (if !F.current.text.isEmpty then
            (formatspec_manip os F.default_format_specification).put_cstr F.current.text
           else os) with
          width := F.current.width
          precision := F.current.precision
          flags := F.current.flags }⟩ := by
  simp only [basic_oformatstream.setformat, format_manip, (next_fst_snd F).1]

/-- C25, as stated, fails: on the bound stream of `%d|%d` and a newline the stream-level
`setformat` moves the cursor from the first field to the second. -/
theorem setformat_cursor_counterexample :
    (basic_oformatstream.ofString "%d|%d\n".toList (some ostream.init)).map
      (fun o => (o.Format.curff, o.setformat.Format.curff,
        decide (o.setformat.Format.curff = o.Format.curff))) = some (0, 1, false) := by
  decide

/-- C25, amended: on a bound stream the stream-level `setformat` leaves the formatter as one
call of `next()` does: a cursor `c` inside a vector of `n` fields becomes `(c + 1) mod n`, so
the cursor is unchanged only for a single field or an empty vector; the sink receives the
field's text (when not empty, under the default specification) and then the field's width,
precision and flags, its fill is left alone and no suffix step follows. On the stream of
`%d|%d` and a newline three applications leave the cursor at 1, 2 and 0. -/
theorem setformat_consumes_field (F : basic_formatter) (os : ostream) :
    (⟨F, some os⟩ : basic_oformatstream).setformat.Format = F.next.2 ∧
    (F.curff < F.ffv.length →
      (⟨F, some os⟩ : basic_oformatstream).setformat.Format.curff =
        (F.curff + 1) % F.ffv.length) ∧
    (F.ffv = [] → (⟨F, some os⟩ : basic_oformatstream).setformat.Format = F) ∧
    (⟨F, some os⟩ : basic_oformatstream).setformat.Ostream = some
      { (if !F.current.text.isEmpty then
          (formatspec_manip os F.default_format_specification).put_cstr F.current.text
         else os) with
        width := F.current.width
        precision := F.current.precision
        flags := F.current.flags } ∧
    (basic_oformatstream.ofString "%d|%d\n".toList (some ostream.init)).map
      (fun o => [o.setformat.Format.curff, o.setformat.setformat.Format.curff,
        o.setformat.setformat.setformat.Format.curff]) = some [1, 2, 0] := by
  rw [setformat_bound]
  exact ⟨rfl, next_curff F, next_empty F, rfl, by decide⟩

/-- C25, amended, at the second field of three and at an empty field vector. -/
theorem setformat_consumes_field_witness :
    ((⟨⟨true, [⟨⟨dec ||| right, 1, 6⟩, [], ' '⟩, ⟨⟨dec ||| right, 1, 6⟩, ['|'], ' '⟩,
        ⟨⟨0, 1, 6⟩, ['\n'], ' '⟩], 1, basic_formatterfield.default⟩, some ostream.init⟩ :
        basic_oformatstream).setformat.Format.curff = (1 + 1) % 3) ∧
    ((⟨basic_formatter.default, some ostream.init⟩ : basic_oformatstream).setformat.Format =
      basic_formatter.default) :=
  ⟨(setformat_consumes_field
      ⟨true, [⟨⟨dec ||| right, 1, 6⟩, [], ' '⟩, ⟨⟨dec ||| right, 1, 6⟩, ['|'], ' '⟩,
        ⟨⟨0, 1, 6⟩, ['\n'], ' '⟩], 1, basic_formatterfield.default⟩ ostream.init).2.1
      (by decide),
    (setformat_consumes_field basic_formatter.default ostream.init).2.2.1 rfl⟩

/-! ## The trailing literal text of the header example -/

/-- A padded write appends to the characters written. -/
theorem write_padded_out (s : ostream) (sign body : List Char) :
    (s.write_padded sign body).out = s.out ++
      (if s.flags &&& adjustfield = left then
        sign ++ body ++
          List.replicate (s.width - ((sign.length + body.length : Nat) : Int)).toNat s.fill
       else if s.flags &&& adjustfield = internal then
        sign ++
          List.replicate (s.width - ((sign.length + body.length : Nat) : Int)).toNat s.fill ++
          body
       else
        List.replicate (s.width - ((sign.length + body.length : Nat) : Int)).toNat s.fill ++
          sign ++ body) := rfl

/-- The sink's writer of an `int` appends to the characters written. -/
theorem put_int_appends (s : ostream) (n : Int) : ∃ t, (s.put_int n).out = s.out ++ t := by
  unfold ostream.put_int
  simp only []
  split_ifs <;> exact ⟨_, write_padded_out _ _ _⟩

/-- The characters written by the prefix step under a default width of 1. -/
theorem value_sink_out (F : basic_formatter) (os : ostream)
    (hD : F.default_format_specification.width = 1)
    (hnul : ∀ c ∈ F.current.text, c ≠ Char.ofNat 0) :
    (basic_oformatstream.value_sink F os).out = os.out ++ F.current.text := by
  simp only [basic_oformatstream.value_sink]
  by_cases he : F.current.text = []
  · simp [he]
  · have hne : (!F.current.text.isEmpty) = true := by simpa using he
    rw [if_pos hne]
    show ((formatspec_manip os F.default_format_specification).put_cstr F.current.text).out = _
    rw [put_cstr_width_one _ _ he hnul (by simpa [formatspec_manip] using hD)]
    rfl

/-- One insertion under a default width of 1, with a writer that only appends: the field's
text, then what the writer appends. -/
theorem insert_value_output (w : ostream → ostream)
    (happ : ∀ os, ∃ t, (w os).out = os.out ++ t) (F : basic_formatter) (os : ostream)
    (hD : F.default_format_specification.width = 1)
    (hnul : ∀ c ∈ F.current.text, c ≠ Char.ofNat 0) :
    ∃ os1 t, basic_oformatstream.insert_value w ⟨F, some os⟩ = ⟨F.next.2, some os1⟩ ∧
      os1.out = os.out ++ F.current.text ++ t := by
  obtain ⟨t, ht⟩ := happ (basic_oformatstream.value_sink F os)
  refine ⟨_, t, insert_value_bound w F os, ?_⟩
  show (w (basic_oformatstream.value_sink F os)).out = _
  rw [ht, value_sink_out F os hD hnul]

/-- One stream-level `setformat` under a default width of 1: the field's text. -/
theorem setformat_output (F : basic_formatter) (os : ostream)
    (hD : F.default_format_specification.width = 1)
    (hnul : ∀ c ∈ F.current.text, c ≠ Char.ofNat 0) :
    ∃ os1, (⟨F, some os⟩ : basic_oformatstream).setformat = ⟨F.next.2, some os1⟩ ∧
      os1.out = os.out ++ F.current.text := by
  refine ⟨_, setformat_bound F os, ?_⟩
  have h := value_sink_out F os hD hnul
  simp only [basic_oformatstream.value_sink] at h
  exact h

/-- C26: the format string `[%s] [%8d] [%6.5f]` followed by a newline parses to four fields
with the texts `[`, `] [`, `] [` and `]` + newline, the last one holding the trailing text
only. On the stream built from it, three insertions whose writers only append `a`, `b` and
`c` write `[a] [b] [c` and leave the cursor at the fourth field; one stream-level
`setformat` then writes the trailing `]` and the newline and leaves the cursor at the first
field; a fourth insertion in its place writes them before its value `d`. -/
theorem trailing_literal_field (w1 w2 w3 w4 : ostream → ostream) (os : ostream)
    (h1 : ∀ s, ∃ t, (w1 s).out = s.out ++ t) (h2 : ∀ s, ∃ t, (w2 s).out = s.out ++ t)
    (h3 : ∀ s, ∃ t, (w3 s).out = s.out ++ t) (h4 : ∀ s, ∃ t, (w4 s).out = s.out ++ t) :
    (basic_formatter.ofString "[%s] [%8d] [%6.5f]\n".toList).map
      (fun f => (f.isValid, f.ffv.map fun ff => ff.text)) =
      some (true, ["[".toList, "] [".toList, "] [".toList, "]\n".toList]) ∧
    ∃ o, basic_oformatstream.ofString "[%s] [%8d] [%6.5f]\n".toList (some os) = some o ∧
      ∃ a b c,
        (basic_oformatstream.insert_value w3 (basic_oformatstream.insert_value w2
          (basic_oformatstream.insert_value w1 o))).output =
          os.out ++ "[".toList ++ a ++ "] [".toList ++ b ++ "] [".toList ++ c ∧
        (basic_oformatstream.insert_value w3 (basic_oformatstream.insert_value w2
          (basic_oformatstream.insert_value w1 o))).Format.curff = 3 ∧
        (basic_oformatstream.insert_value w3 (basic_oformatstream.insert_value w2
          (basic_oformatstream.insert_value w1 o))).setformat.output =
          os.out ++ "[".toList ++ a ++ "] [".toList ++ b ++ "] [".toList ++ c ++
            "]\n".toList ∧
        (basic_oformatstream.insert_value w3 (basic_oformatstream.insert_value w2
          (basic_oformatstream.insert_value w1 o))).setformat.Format.curff = 0 ∧
        ∃ d, (basic_oformatstream.insert_value w4 (basic_oformatstream.insert_value w3
          (basic_oformatstream.insert_value w2 (basic_oformatstream.insert_value w1
            o)))).output =
          os.out ++ "[".toList ++ a ++ "] [".toList ++ b ++ "] [".toList ++ c ++
            "]\n".toList ++ d := by
  refine ⟨by decide, ?_⟩
  have hp : basic_formatter.ofString "[%s] [%8d] [%6.5f]\n".toList =
      some ⟨true, [⟨⟨right, 1, 6⟩, "[".toList, ' '⟩,
        ⟨⟨dec ||| right, 8, 6⟩, "] [".toList, ' '⟩,
        ⟨⟨dec ||| fixed ||| right, 6, 5⟩, "] [".toList, ' '⟩,
        ⟨⟨Fmtzero, 1, 6⟩, "]\n".toList, ' '⟩], 0, basic_formatterfield.default⟩ := by
    decide
  refine ⟨⟨⟨true, [⟨⟨right, 1, 6⟩, "[".toList, ' '⟩,
        ⟨⟨dec ||| right, 8, 6⟩, "] [".toList, ' '⟩,
        ⟨⟨dec ||| fixed ||| right, 6, 5⟩, "] [".toList, ' '⟩,
        ⟨⟨Fmtzero, 1, 6⟩, "]\n".toList, ' '⟩], 0, basic_formatterfield.default⟩, some os⟩,
    ?_, ?_⟩
  · simp only [basic_oformatstream.ofString, hp, Option.map_some']
    rfl
  · obtain ⟨s1, a, e1, o1⟩ := insert_value_output w1 h1
      ⟨true, [⟨⟨right, 1, 6⟩, "[".toList, ' '⟩,
        ⟨⟨dec ||| right, 8, 6⟩, "] [".toList, ' '⟩,
        ⟨⟨dec ||| fixed ||| right, 6, 5⟩, "] [".toList, ' '⟩,
        ⟨⟨Fmtzero, 1, 6⟩, "]\n".toList, ' '⟩], 0, basic_formatterfield.default⟩ os rfl
      (by decide)
    obtain ⟨s2, b, e2, o2⟩ := insert_value_output w2 h2
      ⟨true, [⟨⟨right, 1, 6⟩, "[".toList, ' '⟩,
        ⟨⟨dec ||| right, 8, 6⟩, "] [".toList, ' '⟩,
        ⟨⟨dec ||| fixed ||| right, 6, 5⟩, "] [".toList, ' '⟩,
        ⟨⟨Fmtzero, 1, 6⟩, "]\n".toList, ' '⟩], 1, basic_formatterfield.default⟩ s1 rfl
      (by decide)
    obtain ⟨s3, c, e3, o3⟩ := insert_value_output w3 h3
      ⟨true, [⟨⟨right, 1, 6⟩, "[".toList, ' '⟩,
        ⟨⟨dec ||| right, 8, 6⟩, "] [".toList, ' '⟩,
        ⟨⟨dec ||| fixed ||| right, 6, 5⟩, "] [".toList, ' '⟩,
        ⟨⟨Fmtzero, 1, 6⟩, "]\n".toList, ' '⟩], 2, basic_formatterfield.default⟩ s2 rfl
      (by decide)
    obtain ⟨s4, e4, o4⟩ := setformat_output
      ⟨true, [⟨⟨right, 1, 6⟩, "[".toList, ' '⟩,
        ⟨⟨dec ||| right, 8, 6⟩, "] [".toList, ' '⟩,
        ⟨⟨dec ||| fixed ||| right, 6, 5⟩, "] [".toList, ' '⟩,
        ⟨⟨Fmtzero, 1, 6⟩, "]\n".toList, ' '⟩], 3, basic_formatterfield.default⟩ s3 rfl
      (by decide)
    obtain ⟨s5, d, e5, o5⟩ := insert_value_output w4 h4
      ⟨true, [⟨⟨right, 1, 6⟩, "[".toList, ' '⟩,
        ⟨⟨dec ||| right, 8, 6⟩, "] [".toList, ' '⟩,
        ⟨⟨dec ||| fixed ||| right, 6, 5⟩, "] [".toList, ' '⟩,
        ⟨⟨Fmtzero, 1, 6⟩, "]\n".toList, ' '⟩], 3, basic_formatterfield.default⟩ s3 rfl
      (by decide)
    have n0 : ((⟨true, [⟨⟨right, 1, 6⟩, "[".toList, ' '⟩,
        ⟨⟨dec ||| right, 8, 6⟩, "] [".toList, ' '⟩,
        ⟨⟨dec ||| fixed ||| right, 6, 5⟩, "] [".toList, ' '⟩,
        ⟨⟨Fmtzero, 1, 6⟩, "]\n".toList, ' '⟩], 0, basic_formatterfield.default⟩ : basic_formatter).next).2 =
        ⟨true, [⟨⟨right, 1, 6⟩, "[".toList, ' '⟩,
        ⟨⟨dec ||| right, 8, 6⟩, "] [".toList, ' '⟩,
        ⟨⟨dec ||| fixed ||| right, 6, 5⟩, "] [".toList, ' '⟩,
        ⟨⟨Fmtzero, 1, 6⟩, "]\n".toList, ' '⟩], 1, basic_formatterfield.default⟩ := by decide
    have n1 : ((⟨true, [⟨⟨right, 1, 6⟩, "[".toList, ' '⟩,
        ⟨⟨dec ||| right, 8, 6⟩, "] [".toList, ' '⟩,
        ⟨⟨dec ||| fixed ||| right, 6, 5⟩, "] [".toList, ' '⟩,
        ⟨⟨Fmtzero, 1, 6⟩, "]\n".toList, ' '⟩], 1, basic_formatterfield.default⟩ : basic_formatter).next).2 =
        ⟨true, [⟨⟨right, 1, 6⟩, "[".toList, ' '⟩,
        ⟨⟨dec ||| right, 8, 6⟩, "] [".toList, ' '⟩,
        ⟨⟨dec ||| fixed ||| right, 6, 5⟩, "] [".toList, ' '⟩,
        ⟨⟨Fmtzero, 1, 6⟩, "]\n".toList, ' '⟩], 2, basic_formatterfield.default⟩ := by decide
    have n2 : ((⟨true, [⟨⟨right, 1, 6⟩, "[".toList, ' '⟩,
        ⟨⟨dec ||| right, 8, 6⟩, "] [".toList, ' '⟩,
        ⟨⟨dec ||| fixed ||| right, 6, 5⟩, "] [".toList, ' '⟩,
        ⟨⟨Fmtzero, 1, 6⟩, "]\n".toList, ' '⟩], 2, basic_formatterfield.default⟩ : basic_formatter).next).2 =
        ⟨true, [⟨⟨right, 1, 6⟩, "[".toList, ' '⟩,
        ⟨⟨dec ||| right, 8, 6⟩, "] [".toList, ' '⟩,
        ⟨⟨dec ||| fixed ||| right, 6, 5⟩, "] [".toList, ' '⟩,
        ⟨⟨Fmtzero, 1, 6⟩, "]\n".toList, ' '⟩], 3, basic_formatterfield.default⟩ := by decide
    have n3 : ((⟨true, [⟨⟨right, 1, 6⟩, "[".toList, ' '⟩,
        ⟨⟨dec ||| right, 8, 6⟩, "] [".toList, ' '⟩,
        ⟨⟨dec ||| fixed ||| right, 6, 5⟩, "] [".toList, ' '⟩,
        ⟨⟨Fmtzero, 1, 6⟩, "]\n".toList, ' '⟩], 3, basic_formatterfield.default⟩ : basic_formatter).next).2 =
        ⟨true, [⟨⟨right, 1, 6⟩, "[".toList, ' '⟩,
        ⟨⟨dec ||| right, 8, 6⟩, "] [".toList, ' '⟩,
        ⟨⟨dec ||| fixed ||| right, 6, 5⟩, "] [".toList, ' '⟩,
        ⟨⟨Fmtzero, 1, 6⟩, "]\n".toList, ' '⟩], 0, basic_formatterfield.default⟩ := by decide
    rw [n0] at e1
    rw [n1] at e2
    rw [n2] at e3
    rw [n3] at e4 e5
    rw [e1, e2, e3, e4, e5]
    refine ⟨a, b, c, ?_, rfl, ?_, rfl, d, ?_⟩
    · show s3.out = _
      rw [o3, o2, o1]
      rfl
    · show s4.out = _
      rw [o4, o3, o2, o1]
      rfl
    · show s5.out = _
      rw [o5, o3, o2, o1]
      rfl

/-- C26, at the header's example: the string `example`, the integer 1 and a third value
whose representation is `3.14159`. -/
theorem trailing_literal_field_witness :
    ∃ o, basic_oformatstream.ofString "[%s] [%8d] [%6.5f]\n".toList (some ostream.init) =
        some o ∧
      ∃ a b c,
        (basic_oformatstream.insert_value (fun s => s.write_padded [] "3.14159".toList)
          (basic_oformatstream.insert_value (fun s => s.put_int 1)
            (basic_oformatstream.insert_value (fun s => s.put_cstr "example".toList)
              o))).output =
          ostream.init.out ++ "[".toList ++ a ++ "] [".toList ++ b ++ "] [".toList ++ c ∧
        (basic_oformatstream.insert_value (fun s => s.write_padded [] "3.14159".toList)
          (basic_oformatstream.insert_value (fun s => s.put_int 1)
            (basic_oformatstream.insert_value (fun s => s.put_cstr "example".toList)
              o))).Format.curff = 3 ∧
        (basic_oformatstream.insert_value (fun s => s.write_padded [] "3.14159".toList)
          (basic_oformatstream.insert_value (fun s => s.put_int 1)
            (basic_oformatstream.insert_value (fun s => s.put_cstr "example".toList)
              o))).setformat.output =
          ostream.init.out ++ "[".toList ++ a ++ "] [".toList ++ b ++ "] [".toList ++ c ++
            "]\n".toList ∧
        (basic_oformatstream.insert_value (fun s => s.write_padded [] "3.14159".toList)
          (basic_oformatstream.insert_value (fun s => s.put_int 1)
            (basic_oformatstream.insert_value (fun s => s.put_cstr "example".toList)
              o))).setformat.Format.curff = 0 ∧
        ∃ d, (basic_oformatstream.insert_value (fun s => s.put_int 2)
          (basic_oformatstream.insert_value (fun s => s.write_padded [] "3.14159".toList)
            (basic_oformatstream.insert_value (fun s => s.put_int 1)
              (basic_oformatstream.insert_value (fun s => s.put_cstr "example".toList)
                o)))).output =
          ostream.init.out ++ "[".toList ++ a ++ "] [".toList ++ b ++ "] [".toList ++ c ++
            "]\n".toList ++ d :=
  (trailing_literal_field (fun s => s.put_cstr "example".toList) (fun s => s.put_int 1)
    (fun s => s.write_padded [] "3.14159".toList) (fun s => s.put_int 2) ostream.init
    (fun s => ⟨_, write_padded_out s _ _⟩)
    (fun s => put_int_appends s 1)
    (fun s => ⟨_, write_padded_out s _ _⟩)
    (fun s => put_int_appends s 2)).2

/-! ## The emulation of the general floating point format -/

/-- Turning a float-style bit on in flags that hold none. -/
theorem floatfield_setf (f b : fmtflags) (hf : f &&& floatfield = 0)
    (hb : b &&& floatfield = b) : (f ||| b) &&& floatfield = b := by
  rw [Nat.and_distrib_right, hf, hb, Nat.zero_or]

/-- Turning `showpoint` on leaves the float-style bits as they are. -/
theorem floatfield_showpoint (f : fmtflags) :
    (f ||| showpoint) &&& floatfield = f &&& floatfield := by
  rw [Nat.and_distrib_right, show showpoint &&& floatfield = 0 from by decide,
    Nat.or_zero]

/-- The float style that the emulation selects when the sink has none. -/
theorem adaptive_floatfield (M : double_math) (os : ostream) (X : double)
    (h : os.flags &&& floatfield = 0) :
    (basic_oformatstream.adaptive M os X).flags &&& floatfield =
      if (double.lt (double.fabs X) double.lit_1e_4 ||
          (if double.gt (double.fabs X) double.zero then
            double.ge (M.log10 (double.fabs X)) (double.ofInt os.precision)
           else true)) = true then scientific else fixed := by
  simp only [basic_oformatstream.adaptive, h, if_true]
  split_ifs <;>
    simp only [ostream.setf, floatfield_showpoint] <;>
    first
      | exact floatfield_setf _ _ h (by decide)

/-- The condition of the emulation, in terms of the value. -/
theorem adaptive_condition (L : double → double) (X : double) (prec : Int) :
    (double.lt (double.fabs X) double.lit_1e_4 ||
      (if double.gt (double.fabs X) double.zero then
        double.ge (L (double.fabs X)) (double.ofInt prec)
       else true)) = true ↔
    (double.lt (double.fabs X) double.lit_1e_4 = true ∨
      (double.gt (double.fabs X) double.zero = true ∧
        double.ge (L (double.fabs X)) (double.ofInt prec) = true) ∨
      double.eq X double.zero = true ∨ X = double.nan) := by
  cases X with
  | nan => simp [double.fabs, double.gt, double.lt, double.zero]
  | inf n =>
    simp [double.fabs, double.gt, double.lt, double.zero, double.eq, double.lit_1e_4]
  | finite q =>
    by_cases hq : q = 0
    · subst hq
      simp [double.fabs, double.gt, double.lt, double.zero, double.eq]
    · have hpos : (0 : ℚ) < |q| := abs_pos.mpr hq
      simp [double.fabs, double.gt, double.lt, double.zero, double.eq, hq, hpos]

/-- With a float style on the sink the emulation does nothing. -/
theorem adaptive_skip (M : double_math) (os : ostream) (X : double)
    (h : os.flags &&& floatfield ≠ 0) : basic_oformatstream.adaptive M os X = os := by
  simp only [basic_oformatstream.adaptive, h, if_false]

/-- A double that compares less is not greater or equal. -/
theorem double_lt_not_ge (a b : double) (h : double.lt a b = true) : double.ge a b = false := by
  cases a <;> cases b <;> simp_all [double.lt, double.ge]

/-- C27, as stated, fails: for a NaN, which is not below `1e-4`, not above zero and not equal
to zero, the stream selects scientific on a freshly opened sink (the library functions and
the arithmetic return a NaN for a NaN), where the claim has fixed. -/
theorem nan_style_counterexample :
    ostream.init.flags &&& floatfield = 0 ∧
    (basic_oformatstream.adaptive
      ⟨fun x => x, fun x _ => x, fun x _ => x, fun x _ => x, fun x => x⟩
      ostream.init double.nan).flags &&& floatfield = scientific ∧
    double.lt (double.fabs double.nan) double.lit_1e_4 = false ∧
    double.gt (double.fabs double.nan) double.zero = false ∧
    double.eq double.nan double.zero = false := by
  refine ⟨by decide, ?_, rfl, rfl, rfl⟩
  rw [adaptive_floatfield _ ostream.init double.nan (by decide), if_pos]
  rfl

/-- C27, amended: a double `X` inserted through a bound stream is written on the sink that
the prefix step left, after the emulation of the general format. When that sink has neither
`fixed` nor `scientific`, with precision `prec`, the emulation selects scientific exactly
when `|X| < 1e-4`, or `|X| > 0` and `log10(|X|) >= prec`, or `X` is zero or a NaN, and fixed
otherwise; under precision 6 this is scientific for 0.00001, fixed for 123456.0 when
`log10(123456.0) < 6`, and scientific for 1234567.0 when `log10(1234567.0) >= 6`. When the
sink has `fixed` or `scientific` the emulation leaves it as the field set it. -/
theorem adaptive_style_selection (M : double_math) (wd : ostream → double → ostream)
    (F : basic_formatter) (os S : ostream) (X : double) :
    basic_oformatstream.insert_double M wd ⟨F, some os⟩ X =
      ⟨F.next.2, some (formatspec_manip
        (wd (basic_oformatstream.adaptive M (basic_oformatstream.value_sink F os) X) X)
        F.default_format_specification)⟩ ∧
    (S.flags &&& floatfield = 0 →
      (basic_oformatstream.adaptive M S X).flags &&& floatfield =
        if (double.lt (double.fabs X) double.lit_1e_4 = true ∨
            (double.gt (double.fabs X) double.zero = true ∧
              double.ge (M.log10 (double.fabs X)) (double.ofInt S.precision) = true) ∨
            double.eq X double.zero = true ∨ X = double.nan)
        then scientific else fixed) ∧
    (S.flags &&& floatfield = 0 →
      (basic_oformatstream.adaptive M S
        (double.finite (5902958103587057 / 590295810358705651712))).flags &&& floatfield =
        scientific) ∧
    (S.flags &&& floatfield = 0 → S.precision = 6 →
      double.lt (M.log10 (double.finite 123456)) (double.finite 6) = true →
      (basic_oformatstream.adaptive M S (double.finite 123456)).flags &&& floatfield =
        fixed) ∧
    (S.flags &&& floatfield = 0 → S.precision = 6 →
      double.ge (M.log10 (double.finite 1234567)) (double.finite 6) = true →
      (basic_oformatstream.adaptive M S (double.finite 1234567)).flags &&& floatfield =
        scientific) ∧
    (S.flags &&& floatfield ≠ 0 → basic_oformatstream.adaptive M S X = S) := by
  refine ⟨?_, ?_, ?_, ?_, ?_, adaptive_skip M S X⟩
  · rw [insert_double_eq, insert_value_bound]
  · intro h
    rw [adaptive_floatfield M S X h]
    by_cases hc : (double.lt (double.fabs X) double.lit_1e_4 ||
        (if double.gt (double.fabs X) double.zero then
          double.ge (M.log10 (double.fabs X)) (double.ofInt S.precision)
         else true)) = true
    · rw [if_pos hc, if_pos ((adaptive_condition M.log10 X S.precision).mp hc)]
    · rw [if_neg hc, if_neg (fun h2 => hc ((adaptive_condition M.log10 X S.precision).mpr h2))]
  · intro h
    rw [adaptive_floatfield M S _ h, if_pos]
    have hlt : double.lt
        (double.fabs (double.finite (5902958103587057 / 590295810358705651712)))
        double.lit_1e_4 = true := by
      simp only [double.fabs, double.lt, double.lit_1e_4, decide_eq_true_eq]
      rw [abs_of_pos (by norm_num)]
      norm_num
    rw [hlt]
    rfl
  · intro h hp hl
    have habs : double.fabs (double.finite 123456) = double.finite 123456 := by
      simp only [double.fabs]
      rw [abs_of_pos (by norm_num)]
    have h6 : double.ofInt 6 = double.finite 6 := by
      simp [double.ofInt]
    have hge := double_lt_not_ge _ _ hl
    have hlt : double.lt (double.finite 123456) double.lit_1e_4 = false := by
      simp only [double.lt, double.lit_1e_4, decide_eq_false_iff_not]
      norm_num
    have hgt : double.gt (double.finite 123456) double.zero = true := by
      simp only [double.gt, double.lt, double.zero, decide_eq_true_eq]
      norm_num
    rw [adaptive_floatfield M S _ h, habs, hp, h6, hge, hlt, hgt]
    rfl
  · intro h hp hl
    have habs : double.fabs (double.finite 1234567) = double.finite 1234567 := by
      simp only [double.fabs]
      rw [abs_of_pos (by norm_num)]
    have h6 : double.ofInt 6 = double.finite 6 := by
      simp [double.ofInt]
    have hgt : double.gt (double.finite 1234567) double.zero = true := by
      simp only [double.gt, double.lt, double.zero, decide_eq_true_eq]
      norm_num
    rw [adaptive_floatfield M S _ h, habs, hp, h6, hl, hgt]
    simp

/-- The integer part of the decimal logarithm of 123456 is 5. -/
theorem log_123456 : Int.log 10 (123456 : ℚ) = 5 := by
  rw [show (123456 : ℚ) = ((123456 : ℕ) : ℚ) by norm_num, Int.log_natCast]
  norm_cast
  rw [Nat.log_eq_iff (by norm_num)]
  norm_num

/-- The integer part of the decimal logarithm of 1234567 is 6. -/
theorem log_1234567 : Int.log 10 (1234567 : ℚ) = 6 := by
  rw [show (1234567 : ℚ) = ((1234567 : ℕ) : ℚ) by norm_num, Int.log_natCast]
  norm_cast
  rw [Nat.log_eq_iff (by norm_num)]
  norm_num

/-- C27, amended, at a freshly opened sink (precision 6, no float style), at the same sink
with `fixed` turned on, and with a `log10` that returns the integer part of the decimal
logarithm. -/
theorem adaptive_style_selection_witness :
    ∃ M : double_math,
      ostream.init.flags &&& floatfield = 0 ∧ ostream.init.precision = 6 ∧
      double.lt (M.log10 (double.finite 123456)) (double.finite 6) = true ∧
      double.ge (M.log10 (double.finite 1234567)) (double.finite 6) = true ∧
      (ostream.init.setf fixed).flags &&& floatfield ≠ 0 ∧
      (basic_oformatstream.adaptive M ostream.init
        (double.finite (5902958103587057 / 590295810358705651712))).flags &&& floatfield =
        scientific ∧
      (basic_oformatstream.adaptive M ostream.init (double.finite 123456)).flags &&&
        floatfield = fixed ∧
      (basic_oformatstream.adaptive M ostream.init (double.finite 1234567)).flags &&&
        floatfield = scientific ∧
      basic_oformatstream.adaptive M (ostream.init.setf fixed) (double.finite 123456) =
        ostream.init.setf fixed :=
  ⟨⟨fun x => double.finite (Int.log 10 (match x with | double.finite q => q | _ => 0)),
      fun x _ => x, fun x _ => x, fun x _ => x, fun x => x⟩,
    by decide, rfl,
    by
      show double.lt (double.finite ((Int.log 10 (123456 : ℚ) : ℤ) : ℚ)) (double.finite 6) = true
      rw [log_123456]
      simp only [double.lt, decide_eq_true_eq]
      norm_num,
    by
      show double.ge (double.finite ((Int.log 10 (1234567 : ℚ) : ℤ) : ℚ)) (double.finite 6) =
        true
      rw [log_1234567]
      simp only [double.ge, decide_eq_true_eq]
      norm_num,
    by decide,
    (adaptive_style_selection _ (fun s _ => s) basic_formatter.default ostream.init
      ostream.init (double.finite 123456)).2.2.1 (by decide),
    (adaptive_style_selection _ (fun s _ => s) basic_formatter.default ostream.init
      ostream.init (double.finite 123456)).2.2.2.1 (by decide) rfl
      (by
        show double.lt (double.finite ((Int.log 10 (123456 : ℚ) : ℤ) : ℚ))
          (double.finite 6) = true
        rw [log_123456]
        simp only [double.lt, decide_eq_true_eq]
        norm_num),
    (adaptive_style_selection _ (fun s _ => s) basic_formatter.default ostream.init
      ostream.init (double.finite 123456)).2.2.2.2.1 (by decide) rfl
      (by
        show double.ge (double.finite ((Int.log 10 (1234567 : ℚ) : ℤ) : ℚ))
          (double.finite 6) = true
        rw [log_1234567]
        simp only [double.ge, decide_eq_true_eq]
        norm_num),
    (adaptive_style_selection _ (fun s _ => s) basic_formatter.default ostream.init
      (ostream.init.setf fixed) (double.finite 123456)).2.2.2.2.2 (by decide)⟩

/-! ## `format_flags`: repeated merges, independent bits, the alignment default -/

/-- The base group after `operator|=`. -/
theorem or_assign_basefield (f x : fmtflags) :
    or_assign f x &&& basefield =
      if is basefield x then (if is dec x then dec else if is oct x then oct else hex)
      else f &&& basefield := by
  apply Nat.eq_of_testBit_eq
  intro i
  rw [Nat.testBit_and, tb_basefield, is_basefield, is_dec, is_oct]
  by_cases h : i = 9 ∨ i = 10 ∨ i = 11
  · rw [testBit_or_assign_base f x i h]
    rcases h with rfl | rfl | rfl <;>
      cases x.testBit 9 <;> cases x.testBit 10 <;> cases x.testBit 11 <;>
      simp [tb_dec, tb_oct, tb_hex, tb_basefield]
  · have h9 : i ≠ 9 := by omega
    have h10 : i ≠ 10 := by omega
    have h11 : i ≠ 11 := by omega
    cases x.testBit 9 <;> cases x.testBit 10 <;> cases x.testBit 11 <;>
      simp [tb_dec, tb_oct, tb_hex, tb_basefield, h9, h10, h11]

/-- C28: merging `dec` and then `hex` into an empty `format_flags` leaves `hex` as the only
bit of the base group, and so does merging the two a second time; this holds from any
starting value, and merging the two bits in one set leaves `dec` alone, so `dec` and `hex` are
never set together by `|=`. -/
theorem dec_then_hex :
    or_assign (or_assign format_flags.empty dec) hex &&& basefield = hex ∧
    or_assign (or_assign (or_assign (or_assign format_flags.empty dec) hex) dec) hex &&&
      basefield = hex ∧
    or_assign (or_assign format_flags.empty dec) hex = hex ||| right ∧
    or_assign (or_assign (or_assign (or_assign format_flags.empty dec) hex) dec) hex =
      hex ||| right ∧
    (∀ f : format_flags, or_assign (or_assign f dec) hex &&& basefield = hex) ∧
    (∀ f : format_flags, or_assign f (dec ||| hex) &&& basefield = dec) := by
  refine ⟨by decide, by decide, by decide, by decide, ?_, ?_⟩
  · intro f
    rw [or_assign_basefield, if_pos (by decide), if_neg (by decide), if_neg (by decide)]
  · intro f
    rw [or_assign_basefield, if_pos (by decide), if_pos (by decide)]

/-- The test of bit 2, `uppercase`. -/
theorem is_uppercase (x : Nat) : is uppercase x = x.testBit 2 := is_bit _ _ _ (tb_pow 2)

/-- The test of bit 3, `showbase`. -/
theorem is_showbase (x : Nat) : is showbase x = x.testBit 3 := is_bit _ _ _ (tb_pow 3)

/-- The test of bit 4, `showpoint`. -/
theorem is_showpoint (x : Nat) : is showpoint x = x.testBit 4 := is_bit _ _ _ tb_showpoint

/-- The test of bit 5, `showpos`. -/
theorem is_showpos (x : Nat) : is showpos x = x.testBit 5 := is_bit _ _ _ (tb_pow 5)

/-- C30: after `f |= x` each of `uppercase`, `showbase` and `showpos` is set exactly when it
is set in `f` or in `x`; `showpoint` is set exactly when it is set in `x`, or set in `f` while
`x` holds no base bit: when `x` touches the base group the result has `showpoint` exactly
when `x` has it, and otherwise `showpoint` is the union as well. Merging `dec` into
`showpoint | uppercase` leaves `uppercase | dec | right`. -/
theorem independent_bits_union (f x : fmtflags) :
    is uppercase (or_assign f x) = (is uppercase f || is uppercase x) ∧
    is showbase (or_assign f x) = (is showbase f || is showbase x) ∧
    is showpos (or_assign f x) = (is showpos f || is showpos x) ∧
    is showpoint (or_assign f x) = ((is showpoint f && !is basefield x) || is showpoint x) ∧
    (is basefield x = true → is showpoint (or_assign f x) = is showpoint x) ∧
    (is basefield x = false →
      is showpoint (or_assign f x) = (is showpoint f || is showpoint x)) ∧
    or_assign (showpoint ||| uppercase) dec = uppercase ||| dec ||| right ∧
    or_assign (showpoint ||| uppercase) (dec ||| showpoint) =
      showpoint ||| uppercase ||| dec ||| right := by
  have hsp : is showpoint (or_assign f x) =
      ((is showpoint f && !is basefield x) || is showpoint x) := by
    rw [is_showpoint, is_showpoint, is_showpoint, is_basefield, testBit_or_assign_showpoint]
  refine ⟨?_, ?_, ?_, hsp, ?_, ?_, by decide, by decide⟩
  · rw [is_uppercase, is_uppercase, is_uppercase,
      testBit_or_assign_other f x 2 (by omega) (by omega) (by omega)]
  · rw [is_showbase, is_showbase, is_showbase,
      testBit_or_assign_other f x 3 (by omega) (by omega) (by omega)]
  · rw [is_showpos, is_showpos, is_showpos,
      testBit_or_assign_other f x 5 (by omega) (by omega) (by omega)]
  · intro hb
    rw [hsp, hb]
    simp
  · intro hb
    rw [hsp, hb]
    simp

/-- C30, at `showpoint | showpos` merged with `hex | uppercase` and with `left`. -/
theorem independent_bits_union_witness :
    is basefield (hex ||| uppercase) = true ∧
    is showpoint (or_assign (showpoint ||| showpos) (hex ||| uppercase)) =
      is showpoint (hex ||| uppercase) ∧
    is basefield left = false ∧
    is showpoint (or_assign (showpoint ||| showpos) left) =
      (is showpoint (showpoint ||| showpos) || is showpoint left) :=
  ⟨by decide,
    (independent_bits_union (showpoint ||| showpos) (hex ||| uppercase)).2.2.2.2.1 (by decide),
    by decide,
    (independent_bits_union (showpoint ||| showpos) left).2.2.2.2.2.1 (by decide)⟩

/-- C31: after `f |= x` and after `f &= x` an alignment bit is set; when `f & x` holds no
alignment bit, and so whenever the mask `x` holds none, the alignment group of `f &= x` is
exactly `right`; masking `dec | left` with the complement of the alignment group leaves
`dec | right`. -/
theorem alignment_never_empty (f x : fmtflags) :
    is adjustfield (or_assign f x) = true ∧
    is adjustfield (and_assign f x) = true ∧
    (is adjustfield (f &&& x) = false → and_assign f x &&& adjustfield = right) ∧
    (x &&& adjustfield = 0 → and_assign f x &&& adjustfield = right) ∧
    (is adjustfield (f &&& x) = true → and_assign f x = f &&& x) ∧
    and_assign (dec ||| left) (bnot adjustfield) = dec ||| right := by
  have hand : is adjustfield (f &&& x) = false → and_assign f x &&& adjustfield = right := by
    intro h
    rw [is_adjustfield] at h
    apply Nat.eq_of_testBit_eq
    intro i
    rw [Nat.testBit_and, tb_adjustfield, tb_right]
    by_cases hi : i < 32
    · rw [and_assign, testBit_aligment _ i hi, h]
      simp only [Bool.or_eq_false_iff] at h
      obtain ⟨⟨h6, h7⟩, h8⟩ := h
      by_cases e6 : i = 6
      · subst e6; simp [h6]
      by_cases e7 : i = 7
      · subst e7; simp
      by_cases e8 : i = 8
      · subst e8; simp [h8]
      simp [e6, e7, e8]
    · have e6 : i ≠ 6 := by omega
      have e7 : i ≠ 7 := by omega
      have e8 : i ≠ 8 := by omega
      simp [e6, e7, e8]
  refine ⟨?_, ?_, hand, ?_, ?_, by decide⟩
  · rw [is_adjustfield, testBit_or_assign_adjust f x 6 (by omega),
      testBit_or_assign_adjust f x 7 (by omega), testBit_or_assign_adjust f x 8 (by omega)]
    cases x.testBit 6 <;> cases x.testBit 7 <;> cases x.testBit 8 <;>
      cases f.testBit 6 <;> cases f.testBit 7 <;> cases f.testBit 8 <;> simp
  · rw [is_adjustfield, and_assign, testBit_aligment _ 6 (by omega),
      testBit_aligment _ 7 (by omega), testBit_aligment _ 8 (by omega)]
    cases (f &&& x).testBit 6 <;> cases (f &&& x).testBit 7 <;> cases (f &&& x).testBit 8 <;>
      simp
  · intro hx
    apply hand
    rw [is_adjustfield]
    have h6 : x.testBit 6 = false := by
      have := congrArg (fun n => Nat.testBit n 6) hx
      simpa [tb_adjustfield] using this
    have h7 : x.testBit 7 = false := by
      have := congrArg (fun n => Nat.testBit n 7) hx
      simpa [tb_adjustfield] using this
    have h8 : x.testBit 8 = false := by
      have := congrArg (fun n => Nat.testBit n 8) hx
      simpa [tb_adjustfield] using this
    simp [Nat.testBit_and, h6, h7, h8]
  · intro h
    simp only [and_assign, aligment, h, Bool.not_true, Bool.false_eq_true, if_false]

/-- C31, at `dec | left | showpos` masked with `dec | showpos`, with `dec | left`, and at
`hex | internal` masked with `hex | left`. -/
theorem alignment_never_empty_witness :
    is adjustfield ((hex ||| internal) &&& (hex ||| left)) = false ∧
    and_assign (hex ||| internal) (hex ||| left) &&& adjustfield = right ∧
    (dec ||| showpos) &&& adjustfield = 0 ∧
    and_assign (dec ||| left ||| showpos) (dec ||| showpos) &&& adjustfield = right ∧
    is adjustfield ((dec ||| left ||| showpos) &&& (dec ||| left)) = true ∧
    and_assign (dec ||| left ||| showpos) (dec ||| left) =
      (dec ||| left ||| showpos) &&& (dec ||| left) :=
  ⟨by decide,
    (alignment_never_empty (hex ||| internal) (hex ||| left)).2.2.1 (by decide),
    by decide,
    (alignment_never_empty (dec ||| left ||| showpos) (dec ||| showpos)).2.2.2.1 (by decide),
    by decide,
    (alignment_never_empty (dec ||| left ||| showpos) (dec ||| left)).2.2.2.2.1 (by decide)⟩

/-! ## The flags of parsed fields are exclusive -/

/-- The exclusivity invariant in terms of bits. -/
theorem exclusive_bits (f : format_flags) :
    exclusive f =
      ((!(f.testBit 9 && f.testBit 10) && !(f.testBit 9 && f.testBit 11) &&
          !(f.testBit 10 && f.testBit 11)) &&
        !(f.testBit 13 && f.testBit 12) &&
        (!(f.testBit 6 && f.testBit 7) && !(f.testBit 6 && f.testBit 8) &&
          !(f.testBit 7 && f.testBit 8))) := by
  simp only [exclusive, at_most_one, List.filter_cons, List.filter_nil, is_dec, is_oct, is_hex,
    is_fixed, is_scientific, is_left, is_right, is_internal]
  cases f.testBit 6 <;> cases f.testBit 7 <;> cases f.testBit 8 <;> cases f.testBit 9 <;>
    cases f.testBit 10 <;> cases f.testBit 11 <;> cases f.testBit 12 <;>
    cases f.testBit 13 <;> rfl

/-- The merge operator keeps the exclusivity invariant. -/
theorem exclusive_or_assign (f : format_flags) (x : fmtflags) (h : exclusive f = true) :
    exclusive (or_assign f x) = true := by
  rw [exclusive_bits] at h ⊢
  rw [testBit_or_assign_base f x 9 (by omega), testBit_or_assign_base f x 10 (by omega),
    testBit_or_assign_base f x 11 (by omega), testBit_or_assign_float f x 12 (by omega),
    testBit_or_assign_float f x 13 (by omega), testBit_or_assign_adjust f x 6 (by omega),
    testBit_or_assign_adjust f x 7 (by omega), testBit_or_assign_adjust f x 8 (by omega)]
  simp only [Bool.and_eq_true, Bool.not_eq_true', Bool.and_eq_false_iff] at h
  obtain ⟨⟨⟨⟨hb1, hb2⟩, hb3⟩, hf⟩, ⟨ha1, ha2⟩, ha3⟩ := h
  have hB : (!((if (x.testBit 9 || x.testBit 10 || x.testBit 11) = true then
        (if x.testBit 9 = true then decide (9 = 9) else if x.testBit 10 = true then
          decide (9 = 10) else decide (9 = 11)) else f.testBit 9) &&
      (if (x.testBit 9 || x.testBit 10 || x.testBit 11) = true then
        (if x.testBit 9 = true then decide (10 = 9) else if x.testBit 10 = true then
          decide (10 = 10) else decide (10 = 11)) else f.testBit 10)) &&
      !((if (x.testBit 9 || x.testBit 10 || x.testBit 11) = true then
        (if x.testBit 9 = true then decide (9 = 9) else if x.testBit 10 = true then
          decide (9 = 10) else decide (9 = 11)) else f.testBit 9) &&
      (if (x.testBit 9 || x.testBit 10 || x.testBit 11) = true then
        (if x.testBit 9 = true then decide (11 = 9) else if x.testBit 10 = true then
          decide (11 = 10) else decide (11 = 11)) else f.testBit 11)) &&
      !((if (x.testBit 9 || x.testBit 10 || x.testBit 11) = true then
        (if x.testBit 9 = true then decide (10 = 9) else if x.testBit 10 = true then
          decide (10 = 10) else decide (10 = 11)) else f.testBit 10) &&
      (if (x.testBit 9 || x.testBit 10 || x.testBit 11) = true then
        (if x.testBit 9 = true then decide (11 = 9) else if x.testBit 10 = true then
          decide (11 = 10) else decide (11 = 11)) else f.testBit 11))) = true := by
    revert hb1 hb2 hb3
    cases x.testBit 9 <;> cases x.testBit 10 <;> cases x.testBit 11 <;>
      cases f.testBit 9 <;> cases f.testBit 10 <;> cases f.testBit 11 <;> simp
  have hF : (!((if (x.testBit 12 || x.testBit 13) = true then
        (if x.testBit 12 = true then decide (13 = 12) else decide (13 = 13))
        else f.testBit 13) &&
      (if (x.testBit 12 || x.testBit 13) = true then
        (if x.testBit 12 = true then decide (12 = 12) else decide (12 = 13))
        else f.testBit 12))) = true := by
    revert hf
    cases x.testBit 12 <;> cases x.testBit 13 <;>
      cases f.testBit 12 <;> cases f.testBit 13 <;> simp
  have hA : (!((if (x.testBit 6 || x.testBit 7 || x.testBit 8) = true then
        (if x.testBit 7 = true then decide (6 = 7) else if x.testBit 6 = true then
          decide (6 = 6) else decide (6 = 8))
        else if (f.testBit 6 || f.testBit 7 || f.testBit 8) = true then f.testBit 6
        else decide (6 = 7)) &&
      (if (x.testBit 6 || x.testBit 7 || x.testBit 8) = true then
        (if x.testBit 7 = true then decide (7 = 7) else if x.testBit 6 = true then
          decide (7 = 6) else decide (7 = 8))
        else if (f.testBit 6 || f.testBit 7 || f.testBit 8) = true then f.testBit 7
        else decide (7 = 7))) &&
      !((if (x.testBit 6 || x.testBit 7 || x.testBit 8) = true then
        (if x.testBit 7 = true then decide (6 = 7) else if x.testBit 6 = true then
          decide (6 = 6) else decide (6 = 8))
        else if (f.testBit 6 || f.testBit 7 || f.testBit 8) = true then f.testBit 6
        else decide (6 = 7)) &&
      (if (x.testBit 6 || x.testBit 7 || x.testBit 8) = true then
        (if x.testBit 7 = true then decide (8 = 7) else if x.testBit 6 = true then
          decide (8 = 6) else decide (8 = 8))
        else if (f.testBit 6 || f.testBit 7 || f.testBit 8) = true then f.testBit 8
        else decide (8 = 7))) &&
      !((if (x.testBit 6 || x.testBit 7 || x.testBit 8) = true then
        (if x.testBit 7 = true then decide (7 = 7) else if x.testBit 6 = true then
          decide (7 = 6) else decide (7 = 8))
        else if (f.testBit 6 || f.testBit 7 || f.testBit 8) = true then f.testBit 7
        else decide (7 = 7)) &&
      (if (x.testBit 6 || x.testBit 7 || x.testBit 8) = true then
        (if x.testBit 7 = true then decide (8 = 7) else if x.testBit 6 = true then
          decide (8 = 6) else decide (8 = 8))
        else if (f.testBit 6 || f.testBit 7 || f.testBit 8) = true then f.testBit 8
        else decide (8 = 7)))) = true := by
    revert ha1 ha2 ha3
    cases x.testBit 6 <;> cases x.testBit 7 <;> cases x.testBit 8 <;>
      cases f.testBit 6 <;> cases f.testBit 7 <;> cases f.testBit 8 <;> simp
  rw [hB, hF, hA]
  rfl

theorem case_inType_exclusive (s : spec_state) (h : exclusive s.fs.flags = true) :
    exclusive (case_inType s).fs.flags = true := by
  simp only [case_inType]
  split_ifs <;> first | exact h | exact exclusive_or_assign _ _ h

theorem case_inPrecision_exclusive (s : spec_state) (h : exclusive s.fs.flags = true) :
    exclusive (case_inPrecision s).fs.flags = true := by
  simp only [case_inPrecision]
  split_ifs <;> first | exact h | exact case_inType_exclusive _ h

theorem case_inWidth_exclusive (s : spec_state) (h : exclusive s.fs.flags = true) :
    exclusive (case_inWidth s).fs.flags = true := by
  simp only [case_inWidth]
  split_ifs
  · exact h
  · exact exclusive_or_assign _ _ h
  · exact case_inPrecision_exclusive _ (exclusive_or_assign _ _ h)
  · exact case_inPrecision_exclusive _ h
  · exact case_inPrecision_exclusive _ h
  · exact case_inPrecision_exclusive _ h

theorem case_inFlags_exclusive (s : spec_state) (h : exclusive s.fs.flags = true) :
    exclusive (case_inFlags s).fs.flags = true := by
  simp only [case_inFlags]
  split_ifs
  · exact h
  · exact case_inWidth_exclusive _ h
  · exact case_inWidth_exclusive _ h
  · exact exclusive_or_assign _ _ h
  · exact h
  · exact h

/-- The empty flags are exclusive. -/
theorem exclusive_zero : exclusive (0 : Nat) = true := by decide

theorem spec_step_exclusive (s : spec_state) (h : exclusive s.fs.flags = true) :
    exclusive (spec_advance (spec_switch s)).fs.flags = true := by
  have h1 : exclusive (spec_switch s).fs.flags = true := by
    unfold spec_switch
    split
    · exact case_inFlags_exclusive s h
    · exact case_inWidth_exclusive s h
    · exact case_inPrecision_exclusive s h
    · exact case_inType_exclusive s h
  unfold spec_advance
  split_ifs <;> exact h1

theorem spec_loop_exclusive (fuel : Nat) (s r : spec_state)
    (h : exclusive s.fs.flags = true) (hr : spec_loop fuel s = some r) :
    exclusive r.fs.flags = true := by
  induction fuel generalizing s with
  | zero => simp [spec_loop] at hr
  | succ n ih =>
    unfold spec_loop at hr
    split_ifs at hr
    · exact ih _ (spec_step_exclusive s h) hr
    · cases hr
      exact h

theorem spec_finish_exclusive (outfs : format_specification) (s : spec_state)
    (h : exclusive outfs.flags = true) (hs : exclusive s.fs.flags = true) :
    exclusive (spec_finish outfs s).outfs.flags = true := by
  simp only [spec_finish]
  split_ifs <;> first | exact h | exact hs

theorem field_switch_exclusive (s s1 : field_state) (h : exclusive s.outff.flags = true)
    (hs : field_switch s = some s1) : exclusive s1.outff.flags = true := by
  unfold field_switch at hs
  split at hs
  · split_ifs at hs <;> cases hs <;> exact h
  · split_ifs at hs
    · cases hs; exact h
    · simp only [Option.map_eq_some'] at hs
      obtain ⟨r, hr, rfl⟩ := hs
      simp only [parse_format_specification, Option.map_eq_some'] at hr
      obtain ⟨s2, hs2, rfl⟩ := hr
      exact spec_finish_exclusive _ s2 h (spec_loop_exclusive _ _ _
        (show exclusive (spec_init _ _).fs.flags = true from exclusive_zero) hs2)

theorem field_loop_exclusive (fuel : Nat) (s r : field_state)
    (h : exclusive s.outff.flags = true) (hr : field_loop fuel s = some r) :
    exclusive r.outff.flags = true := by
  induction fuel generalizing s with
  | zero => simp [field_loop] at hr
  | succ n ih =>
    unfold field_loop at hr
    by_cases hc : field_cond s = true
    · rw [if_pos hc] at hr
      obtain ⟨s1, hs1⟩ := field_switch_total s
      rw [hs1] at hr
      refine ih _ ?_ hr
      have e : (field_advance s1).outff = s1.outff := by
        unfold field_advance
        split_ifs <;> rfl
      rw [e]
      exact field_switch_exclusive s s1 h hs1
    · rw [if_neg hc] at hr
      cases hr
      exact h

/-- The field that `parse_field` leaves has exclusive flags. -/
theorem parse_field_exclusive (it : List Char) (outff : basic_formatterfield)
    (D : format_specification) (r : field_result) (hr : parse_field it outff D = some r) :
    exclusive r.outff.flags = true := by
  simp only [parse_field, Option.map_eq_some'] at hr
  obtain ⟨s, hs, rfl⟩ := hr
  have h1 := field_loop_exclusive _ _ _ (show exclusive (field_init it outff).outff.flags = true
    from exclusive_zero) hs
  simp only [field_finish]
  split_ifs <;> exact h1

theorem format_loop_exclusive (D : format_specification) (fuel : Nat)
    (it : List Char) (ok : Bool) (ffv : FormatFieldVector) (r : Bool × FormatFieldVector)
    (hv : ∀ ff ∈ ffv, exclusive ff.flags = true)
    (hr : format_loop D fuel it ok ffv = some r) :
    ∀ ff ∈ r.2, exclusive ff.flags = true := by
  induction fuel generalizing it ok ffv with
  | zero => simp [format_loop] at hr
  | succ n ih =>
    unfold format_loop at hr
    split_ifs at hr with hc
    · obtain ⟨r1, hr1⟩ := parse_field_total it basic_formatterfield.default D
      rw [hr1] at hr
      refine ih _ _ _ ?_ hr
      intro ff hff
      split_ifs at hff
      · rw [List.mem_append, List.mem_singleton] at hff
        rcases hff with hff | hff
        · exact hv ff hff
        · rw [hff]; exact parse_field_exclusive _ _ _ _ hr1
      · exact hv ff hff
    · cases hr
      exact hv

/-- C33: for every format string and every default specification, also one whose own flags
hold several bits of a group, parsing returns and each field it produces has at most one
base bit, at most one float-style bit and at most one alignment bit in its flags; under the
default flags `dec | hex | left | right` the two fields of `%#x|%-e` have the flags
`showbase | hex | right` and `dec | scientific | right`. -/
theorem parsed_flags_exclusive :
    (∀ (s : List Char) (D : format_specification),
      ∃ ok ffv, parse_format s [] D = some (ok, ffv) ∧
        ∀ ff ∈ ffv, exclusive ff.flags = true ∧
          at_most_one ff.flags [dec, oct, hex] = true ∧
          at_most_one ff.flags [fixed, scientific] = true ∧
          at_most_one ff.flags [left, right, internal] = true) ∧
    exclusive (format_specification.make 1 6 (dec ||| hex ||| left ||| right)).flags = false ∧
    (parse_format "%#x|%-e".toList [] (format_specification.make 1 6
        (dec ||| hex ||| left ||| right))).map (fun r => (r.1, r.2.map fun ff => ff.flags)) =
      some (true, [showbase ||| hex ||| right, dec ||| scientific ||| right]) := by
  refine ⟨?_, by decide, by decide⟩
  intro s D
  obtain ⟨r, hr⟩ := parse_format_total s [] D
  refine ⟨r.1, r.2, hr, ?_⟩
  intro ff hff
  have h := format_loop_exclusive D _ s true [] r (by simp) hr ff hff
  refine ⟨h, ?_⟩
  simp only [exclusive, Bool.and_eq_true] at h
  exact ⟨h.1.1, h.1.2, h.2⟩

/-! ## Parsing terminates and produces at most one field per character -/

/-- The loop of `parse_format` adds at most one field per character left. -/
theorem format_loop_length (D : format_specification) (fuel : Nat)
    (it : List Char) (ok : Bool) (ffv : FormatFieldVector) (r : Bool × FormatFieldVector)
    (hr : format_loop D fuel it ok ffv = some r) :
    r.2.length ≤ ffv.length + it.length := by
  induction fuel generalizing it ok ffv with
  | zero => simp [format_loop] at hr
  | succ n ih =>
    unfold format_loop at hr
    split_ifs at hr with hc
    · obtain ⟨r1, hr1⟩ := parse_field_total it basic_formatterfield.default D
      rw [hr1] at hr
      have hne : it ≠ [] := by
        intro e
        simp [e] at hc
      have hlt := parse_field_lt _ _ _ _ hr1 hne
      have h := ih _ _ _ hr
      have hl : (if r1.ok = true then ffv ++ [r1.outff] else ffv).length ≤ ffv.length + 1 := by
        split_ifs <;> simp
      omega
    · cases hr
      simp

/-- C32: for every format string and every default specification `parse_format` returns (the
fuel of the three loops, one unit more than the characters left, is never used up), each
call of `parse_field` on a non-empty input returns and leaves strictly fewer characters than
it was given, and the number of fields produced is at most the length of the format
string. -/
theorem parse_terminates :
    (∀ (s : List Char) (D : format_specification),
      ∃ ok ffv, parse_format s [] D = some (ok, ffv) ∧ ffv.length ≤ s.length) ∧
    (∀ (it : List Char) (outff : basic_formatterfield) (D : format_specification),
      ∃ r, parse_field it outff D = some r ∧ (it ≠ [] → r.it.length < it.length)) ∧
    (∀ (it : List Char) (outfs : format_specification) (c : Char),
      ∃ r, parse_format_specification it outfs c = some r) ∧
    (parse_format "%d%d%d".toList [] format_specification.default).map
      (fun r => r.2.length) = some 3 ∧
    (parse_format "a%%b".toList [] format_specification.default).map
      (fun r => r.2.length) = some 1 := by
  refine ⟨?_, ?_, ?_, by decide, by decide⟩
  · intro s D
    obtain ⟨r, hr⟩ := parse_format_total s [] D
    have h := format_loop_length D _ s true [] r hr
    exact ⟨r.1, r.2, hr, by simpa using h⟩
  · intro it outff D
    obtain ⟨r, hr⟩ := parse_field_total it outff D
    exact ⟨r, hr, parse_field_lt _ _ _ _ hr⟩
  · intro it outfs c
    exact parse_format_specification_total it outfs c

/-- C32, at the format string `%5d|` and at the input `x%d`. -/
theorem parse_terminates_witness :
    (∃ ok ffv, parse_format "%5d|".toList [] format_specification.default = some (ok, ffv) ∧
      ffv.length ≤ "%5d|".toList.length) ∧
    "x%d".toList ≠ [] ∧
    ∃ r, parse_field "x%d".toList basic_formatterfield.default format_specification.default =
        some r ∧ r.it.length < "x%d".toList.length :=
  ⟨parse_terminates.1 "%5d|".toList format_specification.default, by decide,
    (parse_terminates.2.1 "x%d".toList basic_formatterfield.default
      format_specification.default).imp fun _ h => ⟨h.1, h.2 (by decide)⟩⟩

/-- C33, at the first field of `%#x|%-e` under the default flags `dec | hex | left | right`. -/
theorem parsed_flags_exclusive_witness :
    parse_format "%#x|%-e".toList [] (format_specification.make 1 6
        (dec ||| hex ||| left ||| right)) =
      some (true, [⟨⟨showbase ||| hex ||| right, 1, 6⟩, [], ' '⟩,
        ⟨⟨dec ||| scientific ||| right, 1, 6⟩, ['|'], ' '⟩]) ∧
    exclusive (showbase ||| hex ||| right) = true ∧
    exclusive (dec ||| scientific ||| right) = true := by
  have hp : parse_format "%#x|%-e".toList [] (format_specification.make 1 6
        (dec ||| hex ||| left ||| right)) =
      some (true, [⟨⟨showbase ||| hex ||| right, 1, 6⟩, [], ' '⟩,
        ⟨⟨dec ||| scientific ||| right, 1, 6⟩, ['|'], ' '⟩]) := by decide
  obtain ⟨ok, ffv, h, hall⟩ := parsed_flags_exclusive.1 "%#x|%-e".toList
    (format_specification.make 1 6 (dec ||| hex ||| left ||| right))
  rw [hp] at h
  cases h
  exact ⟨hp, (hall ⟨⟨showbase ||| hex ||| right, 1, 6⟩, [], ' '⟩ (by simp)).1,
    (hall ⟨⟨dec ||| scientific ||| right, 1, 6⟩, ['|'], ' '⟩ (by simp)).1⟩

/-! ## The fill character is not restored -/

/-- The sink's writer of an `int` leaves the fill as it is. -/
theorem put_int_fill (n : Int) (s : ostream) : (s.put_int n).fill = s.fill := by
  unfold ostream.put_int
  simp only []
  split_ifs <;> rfl

/-- The characters written by the prefix step, on a sink whose fill is `c`. -/
theorem value_sink_out_fill (G : basic_formatter) (s : ostream) (c : Char)
    (hc : s.fill = c) :
    (basic_oformatstream.value_sink G s).out =
      (if G.current.text.isEmpty then s.out
       else (ostream.put_cstr
          { s with width := G.default_format_specification.width,
                   precision := G.default_format_specification.precision,
                   flags := G.default_format_specification.flags,
                   fill := c } G.current.text).out) := by
  subst hc
  simp only [basic_oformatstream.value_sink]
  by_cases h : G.current.text.isEmpty = true
  · simp [h]
  · simp only [h, Bool.not_eq_true] at *
    simp [h, formatspec_manip]

/-- C34: the suffix step leaves the sink's fill as it is, so after an insertion (whose
writer does not touch the fill) the sink's fill is the fill of the field just used; the
prefix step of the next insertion writes its literal text, when there is one, on a sink
that still has this fill, and only then sets the fill of its own field. After 7 is inserted
through `%03d` the fill is `0`; with the default width 4 the fields of `%03d|%5d` write 7
and 8 as `007000|    8`, the text `|` being padded with the `0` left by the first field. -/
theorem fill_survives_suffix (F : basic_formatter) (os : ostream) (w : ostream → ostream)
    (hw : ∀ s, (w s).fill = s.fill) :
    (∀ (s : ostream) (D : format_specification), (formatspec_manip s D).fill = s.fill) ∧
    (basic_oformatstream.suffix_op ⟨F, some os⟩).Ostream.map ostream.fill = some os.fill ∧
    (basic_oformatstream.insert_value w ⟨F, some os⟩).Ostream.map ostream.fill =
      some F.current.fill ∧
    (∃ os1, basic_oformatstream.insert_value w ⟨F, some os⟩ = ⟨F.next.2, some os1⟩ ∧
      os1.fill = F.current.fill ∧
      (basic_oformatstream.value_sink F.next.2 os1).out =
        (if F.next.2.current.text.isEmpty then os1.out
         else (ostream.put_cstr
            { os1 with width := F.default_format_specification.width,
                       precision := F.default_format_specification.precision,
                       flags := F.default_format_specification.flags,
                       fill := F.current.fill } F.next.2.current.text).out) ∧
      (basic_oformatstream.value_sink F.next.2 os1).fill = F.next.2.current.fill) ∧
    (basic_oformatstream.ofString "%03d".toList (some ostream.init)).map
      (fun o => ((o.insert_int 7).output, (o.insert_int 7).Ostream.map ostream.fill)) =
      some ("007".toList, some '0') ∧
    (basic_formatter.ofStringSpec "%03d|%5d".toList (format_specification.make 4 6 Fmtzero)).map
      (fun G => (G.ffv.map (fun ff => (ff.text, ff.width, ff.fill)),
        (((⟨G, some ostream.init⟩ : basic_oformatstream).insert_int 7).insert_int 8).output)) =
      some ([([], 3, '0'), ("|".toList, 5, ' ')], "007000|    8".toList) := by
  refine ⟨fun _ _ => rfl, rfl, ?_, ?_, by decide, by decide⟩
  · rw [insert_value_bound]
    show some (w (basic_oformatstream.value_sink F os)).fill = _
    rw [hw]
    rfl
  · refine ⟨_, insert_value_bound w F os, ?_, ?_, rfl⟩
    · show (w (basic_oformatstream.value_sink F os)).fill = _
      rw [hw]
      rfl
    · have hfill : (formatspec_manip (w (basic_oformatstream.value_sink F os))
          F.default_format_specification).fill = F.current.fill := by
        show (w (basic_oformatstream.value_sink F os)).fill = _
        rw [hw]
        rfl
      have h := value_sink_out_fill F.next.2 _ _ hfill
      simp only [basic_formatter.default_format_specification, (next_fst_snd F).2.1] at h ⊢
      exact h

/-- C34, at the formatter of `%03d|%5d` and the sink's writer of the integer 7. -/
theorem fill_survives_suffix_witness :
    (∀ s : ostream, (s.put_int 7).fill = s.fill) ∧
    (basic_oformatstream.insert_value (fun s => s.put_int 7)
      ⟨⟨true, [⟨⟨dec ||| right, 3, 6⟩, [], '0'⟩, ⟨⟨dec ||| right, 5, 6⟩, ['|'], ' '⟩], 0,
        basic_formatterfield.default⟩, some ostream.init⟩).Ostream.map ostream.fill =
      some '0' :=
  ⟨put_int_fill 7,
    (fill_survives_suffix
      ⟨true, [⟨⟨dec ||| right, 3, 6⟩, [], '0'⟩, ⟨⟨dec ||| right, 5, 6⟩, ['|'], ' '⟩], 0,
        basic_formatterfield.default⟩ ostream.init (fun s => s.put_int 7)
      (put_int_fill 7)).2.2.1⟩

end OFormatStream
